import Mathlib

/-!
# Day 7 beam simulator (`src/day7/main.go`)

A shallow embedding of `solve` and `readGrid` from `src/day7/main.go` and of
the properties their specification states about them.

Modelling conventions.

* A grid `[][]rune` is a `List (List Char)`; Go `int` indices are `Int`.
* Indexing `grid[r][c]` can fail at run time; `cellAt` returns
  `Except Fault Char`.
* A Go map `map[int]V` is an association list `List (Int × V)` with at most
  one entry per key (`mapSet` keeps that), read with `mapGet?`; reading an
  absent `int64` entry yields 0 (`getCount`).
* `for c := range activeCols` visits the keys in an order Go leaves
  unspecified.  The model takes a `KeyOrder`: for each row, a rearrangement
  of the key list.  Every theorem holds for every `KeyOrder`.
* `int64` arithmetic wraps modulo `2^64` (`wrap64`).  `Arith` selects between
  the machine arithmetic of the source (`Arith.int64`) and unbounded integers
  (`Arith.unbounded`), which several properties are stated for.
  The counter `splits` (Go `int`) is incremented at most once per grid cell
  and is kept unbounded.
* Standard output is a `List String` of the chunks written so far, threaded
  through `solve`.
* `readGrid` is modelled on the list of lines of the input file, each a string
  of characters without its end-of-line marker `\n`, and on what the reads of
  the file deliver (`Reads`).  The scanner of `bufio.NewScanner` is the one of
  the Go standard library: `scanner.Scan()` returns `false` at the end of the
  text delivered and at the first line of `bufio.MaxScanTokenSize` bytes or
  more, and `readGrid` never looks at `scanner.Err()`.  Opening the file is
  outside the model.
-/

namespace Day7

/-- A grid as read from the input: one list of runes per line. -/
abbrev Grid := List (List Char)

/-- Ways in which a run of the model stops without a result. -/
inductive Fault where
  | indexOutOfRange
  | fuelExhausted
  deriving DecidableEq, Repr

deriving instance DecidableEq for Except

/-- Integer arithmetic used for the timeline weights. -/
inductive Arith where
  | unbounded
  | int64
  deriving DecidableEq, Repr

/-- Two's-complement wrap-around of an integer to the `int64` range. -/
def wrap64 (x : Int) : Int :=
  (x + 9223372036854775808) % 18446744073709551616 - 9223372036854775808

/-- Result of an arithmetic operation in the chosen arithmetic. -/
def Arith.norm : Arith → Int → Int
  | Arith.unbounded, x => x
  | Arith.int64, x => wrap64 x

/-- Go slice indexing `xs[i]` with an `int` index. -/
def index {α : Type} (xs : List α) (i : Int) : Except Fault α :=
  if i < 0 then Except.error Fault.indexOutOfRange
  else
    match xs.get? i.toNat with
    | some x => Except.ok x
    | none => Except.error Fault.indexOutOfRange

/-- The expression `grid[r][c]`. -/
def cellAt (grid : Grid) (r c : Int) : Except Fault Char :=
  match index grid r with
  | Except.error e => Except.error e
  | Except.ok row => index row c

/-- Keys of a Go map, in the order the association list stores them. -/
def mapKeys {V : Type} (m : List (Int × V)) : List Int := m.map Prod.fst

/-- Lookup of a key in a Go map. -/
def mapGet? {V : Type} : List (Int × V) → Int → Option V
  | [], _ => none
  | (k', v) :: m, k => if k' = k then some v else mapGet? m k

/-- The assignment `m[k] = v`. -/
def mapSet {V : Type} : List (Int × V) → Int → V → List (Int × V)
  | [], k, v => [(k, v)]
  | (k', v') :: m, k, v => if k' = k then (k, v) :: m else (k', v') :: mapSet m k v

/-- The expression `timelineCounts[c]`: the zero value when `c` is absent. -/
def getCount (m : List (Int × Int)) (c : Int) : Int := (mapGet? m c).getD 0

/-- An enumeration order for `range` over a map: for the row being processed,
a rearrangement of the list of keys. -/
structure KeyOrder where
  enum : Int → List Int → List Int
  perm : ∀ (r : Int) (ks : List Int), (enum r ks).Perm ks

/-- The order in which the keys are stored. -/
def KeyOrder.stored : KeyOrder := ⟨fun _ ks => ks, fun _ ks => List.Perm.refl ks⟩

/-- The reverse of the order in which the keys are stored. -/
def KeyOrder.reversed : KeyOrder := ⟨fun _ ks => ks.reverse, fun _ ks => List.reverse_perm ks⟩

/-- The variables a row iteration of `solve` updates: the maps `nextCols` and
`nextTimelineCounts` and the counters `splits` and `totalFinishedTimelines`. -/
structure RowAcc where
  nextCols : List (Int × Bool)
  nextTimelineCounts : List (Int × Int)
  splits : Int
  totalFinishedTimelines : Int
  deriving DecidableEq, Repr

/-- The statements `nextCols[k] = true; nextTimelineCounts[k] += count`. -/
def addNext (a : Arith) (acc : RowAcc) (k count : Int) : RowAcc :=
  { acc with
    nextCols := mapSet acc.nextCols k true
    nextTimelineCounts :=
      mapSet acc.nextTimelineCounts k (a.norm (getCount acc.nextTimelineCounts k + count)) }

/-- The statement `totalFinishedTimelines += count`. -/
def finish (a : Arith) (acc : RowAcc) (count : Int) : RowAcc :=
  { acc with totalFinishedTimelines := a.norm (acc.totalFinishedTimelines + count) }

/-- The `if cell == '^' { ... } else { ... }` statement of the inner loop
(lines 87-121), for the column `c` with weight `count`. -/
def applyCell (a : Arith) (height width r : Int) (cell : Char) (count : Int)
    (acc : RowAcc) (c : Int) : RowAcc :=
  if cell = '^' then
    let acc1 : RowAcc := { acc with splits := acc.splits + 1 }
    if r + 1 < height then
      let acc2 : RowAcc :=
        if c - 1 ≥ 0 then addNext a acc1 (c - 1) count else finish a acc1 count
      if c + 1 < width then addNext a acc2 (c + 1) count else finish a acc2 count
    else
      finish a acc1 (a.norm (count * 2))
  else
    if r + 1 < height then addNext a acc c count else finish a acc count

/-- One iteration of the inner loop `for c := range activeCols` (lines 78-122). -/
def visit (a : Arith) (grid : Grid) (height width r : Int)
    (timelineCounts : List (Int × Int)) (acc : RowAcc) (c : Int) : Except Fault RowAcc :=
  if c < 0 ∨ c ≥ width then Except.ok acc
  else
    match cellAt grid r c with
    | Except.error e => Except.error e
    | Except.ok cell => Except.ok (applyCell a height width r cell (getCount timelineCounts c) acc c)

/-- The inner loop over the keys `ks`, in that order. -/
def visitAll (a : Arith) (grid : Grid) (height width r : Int)
    (timelineCounts : List (Int × Int)) : List Int → RowAcc → Except Fault RowAcc
  | [], acc => Except.ok acc
  | c :: cs, acc =>
    match visit a grid height width r timelineCounts acc c with
    | Except.error e => Except.error e
    | Except.ok acc1 => visitAll a grid height width r timelineCounts cs acc1

/-- The body of the outer loop up to the replacement of the frontier
(lines 75-124): fresh `nextCols` and `nextTimelineCounts`, then the inner
loop over the keys of `activeCols`. -/
def processRow (a : Arith) (ord : KeyOrder) (grid : Grid) (height width r : Int)
    (activeCols : List (Int × Bool)) (timelineCounts : List (Int × Int))
    (splits total : Int) : Except Fault RowAcc :=
  visitAll a grid height width r timelineCounts (ord.enum r (mapKeys activeCols))
    ⟨[], [], splits, total⟩

/-- The outer loop `for r := startRow; r < height; r++` (lines 74-129),
returning the final `splits` and `totalFinishedTimelines`.  The first argument
bounds the number of iterations. -/
def sweep (a : Arith) (ord : KeyOrder) (grid : Grid) (height width : Int) :
    Nat → Int → List (Int × Bool) → List (Int × Int) → Int → Int → Except Fault (Int × Int)
  | fuel, r, activeCols, timelineCounts, splits, total =>
    if r < height then
      match fuel with
      | 0 => Except.error Fault.fuelExhausted
      | fuel1 + 1 =>
        match processRow a ord grid height width r activeCols timelineCounts splits total with
        | Except.error e => Except.error e
        | Except.ok acc =>
          if acc.nextCols.length = 0 then
            Except.ok (acc.splits, acc.totalFinishedTimelines)
          else
            sweep a ord grid height width fuel1 (r + 1) acc.nextCols acc.nextTimelineCounts
              acc.splits acc.totalFinishedTimelines
    else Except.ok (splits, total)

/-- The computation of `solve` for a grid with at least one row, before its
output (lines 61-129): the values of `splits` and `totalFinishedTimelines` when
the loop has ended. -/
def solveTotals (a : Arith) (ord : KeyOrder) (grid : Grid) (startRow startCol : Int) :
    Except Fault (Int × Int) :=
  let height : Int := grid.length
  match index grid 0 with
  | Except.error e => Except.error e
  | Except.ok row0 =>
    let width : Int := row0.length
    sweep a ord grid height width (height - startRow).toNat startRow
      [(startCol, true)] [(startCol, 1)] 0 0

/-- The chunk written by `fmt.Printf("Total splits: %d\n", splits)`. -/
def splitsLine (splits : Int) : String := "Total splits: " ++ toString splits ++ "\n"

/-- The chunk written by `fmt.Printf("Total timelines: %d\n", totalFinishedTimelines)`. -/
def timelinesLine (total : Int) : String := "Total timelines: " ++ toString total ++ "\n"

/-- The function `solve`: its return value and the standard output after the
call, given the standard output `out` before it. -/
def solve (a : Arith) (ord : KeyOrder) (grid : Grid) (startRow startCol : Int)
    (out : List String) : Except Fault (Int × List String) :=
  let height : Int := grid.length
  if height = 0 then Except.ok (0, out)
  else
    match solveTotals a ord grid startRow startCol with
    | Except.error e => Except.error e
    | Except.ok (splits, total) =>
      Except.ok (splits, out ++ [splitsLine splits, timelinesLine total])

/-- A grid all of whose rows have the same length `width`. -/
def Rectangular (grid : Grid) (width : Int) : Prop := ∀ row ∈ grid, (row.length : Int) = width

/-- The width `len(grid[0])` that `solve` uses (0 for a grid without rows). -/
def gridWidth (grid : Grid) : Int :=
  match grid with
  | [] => 0
  | row0 :: _ => row0.length

/-- The cell `grid[r][c]`, a blank where the grid has no such cell. -/
def cellOr (grid : Grid) (r c : Int) : Char :=
  match cellAt grid r c with
  | Except.ok ch => ch
  | Except.error _ => ' '

/-- One iteration of the inner loop when the cell read succeeds. -/
def stepCol (a : Arith) (grid : Grid) (height width r : Int)
    (timelineCounts : List (Int × Int)) (acc : RowAcc) (c : Int) : RowAcc :=
  if c < 0 ∨ c ≥ width then acc
  else applyCell a height width r (cellOr grid r c) (getCount timelineCounts c) acc c

/-- Example of the specification: rows `..S..`, `.....`, `..^..`, `.....`. -/
def exampleGrid : Grid :=
  ["..S..".toList, ".....".toList, "..^..".toList, ".....".toList]

/-- Column `c` of row `r` sends its beam to column `k` of row `r + 1`:
straight down from a cell that is no splitter, diagonally from a splitter,
provided the target is a cell of the grid. -/
def Feeds (grid : Grid) (height width r c k : Int) : Prop :=
  0 ≤ c ∧ c < width ∧ r + 1 < height ∧
    (if cellOr grid r c = '^' then (k = c - 1 ∧ 0 ≤ c - 1) ∨ (k = c + 1 ∧ c + 1 < width)
     else k = c)

instance (grid : Grid) (height width r c k : Int) : Decidable (Feeds grid height width r c k) := by
  unfold Feeds; infer_instance

/-- Weighted sum of the entries of a map: each weight times the value `f` gives its column. -/
def mapSum (f : Int → Int) (m : List (Int × Int)) : Int := (m.map (fun p => p.2 * f p.1)).sum

/-- Value of a beam that leaves column `c` of row `r` towards column `k` of row
`r + 1`: `f k` if that is a cell of the grid, `e` if the beam leaves the grid. -/
def landing (height width r : Int) (f : Int → Int) (e : Int) (k : Int) : Int :=
  if r + 1 < height ∧ 0 ≤ k ∧ k < width then f k else e

/-- Value that the visit of column `c` in row `r` produces, when beams that
reach column `k` of the next row are valued `f k` and finished beams `e`. -/
def gain (grid : Grid) (height width r : Int) (counts : List (Int × Int))
    (f : Int → Int) (e : Int) (c : Int) : Int :=
  if c < 0 ∨ c ≥ width then 0
  else if cellOr grid r c = '^' then
    getCount counts c * (landing height width r f e (c - 1) + landing height width r f e (c + 1))
  else getCount counts c * landing height width r f e c

/-- A frontier as `solve` maintains it: `activeCols` and `timelineCounts` have
the same keys, no key occurs twice, and every key is a column of the grid. -/
def Frontier (width : Int) (activeCols : List (Int × Bool)) (timelineCounts : List (Int × Int)) :
    Prop :=
  mapKeys timelineCounts = mapKeys activeCols ∧ (mapKeys activeCols).Nodup ∧
    ∀ k ∈ mapKeys activeCols, 0 ≤ k ∧ k < width

/-- The variables after the inner loop of row `r`, when every cell read succeeds. -/
def rowResult (a : Arith) (ord : KeyOrder) (grid : Grid) (height width r : Int)
    (activeCols : List (Int × Bool)) (timelineCounts : List (Int × Int))
    (splits total : Int) : RowAcc :=
  (ord.enum r (mapKeys activeCols)).foldl (stepCol a grid height width r timelineCounts)
    ⟨[], [], splits, total⟩

/-- Brute-force expansion, beam by beam and without merging: the number of
beams that the beam entering cell `(r, c)` ends as.  The first argument bounds
the number of rows still to cross. -/
def pathsFrom (grid : Grid) (height width : Int) : Nat → Int → Int → Nat
  | fuel, r, c =>
    if r ≥ height ∨ c < 0 ∨ c ≥ width then 1
    else
      match fuel with
      | 0 => 0
      | fuel1 + 1 =>
        if cellAt grid r c = Except.ok '^' then
          pathsFrom grid height width fuel1 (r + 1) (c - 1)
            + pathsFrom grid height width fuel1 (r + 1) (c + 1)
        else pathsFrom grid height width fuel1 (r + 1) c

/-- The function `paths(r, c)` of the brute-force expansion on `grid`. -/
def paths (grid : Grid) (r c : Int) : Nat :=
  pathsFrom grid grid.length (gridWidth grid) ((grid.length : Int) - r).toNat r c

/-- Cells reached by at least one beam path from the start `(sr, sc)`: the
start cell itself; the cell directly below a reached cell that is no splitter;
the cells of the grid diagonally below-left and below-right of a reached
splitter. -/
inductive Reached (grid : Grid) (sr sc : Int) : Int → Int → Prop
  | start : Reached grid sr sc sr sc
  | down {r c : Int} : Reached grid sr sc r c → cellAt grid r c ≠ Except.ok '^' →
      r + 1 < grid.length → Reached grid sr sc (r + 1) c
  | left {r c : Int} : Reached grid sr sc r c → cellAt grid r c = Except.ok '^' →
      r + 1 < grid.length → 0 ≤ c - 1 → Reached grid sr sc (r + 1) (c - 1)
  | right {r c : Int} : Reached grid sr sc r c → cellAt grid r c = Except.ok '^' →
      r + 1 < grid.length → c + 1 < gridWidth grid → Reached grid sr sc (r + 1) (c + 1)

/-- The reached splitter cells in row `r` and below. -/
def reachedSplittersFrom (grid : Grid) (sr sc r : Int) : Set (Int × Int) :=
  {p | r ≤ p.1 ∧ Reached grid sr sc p.1 p.2 ∧ cellAt grid p.1 p.2 = Except.ok '^'}

/-- The splitter cells that at least one beam path from the start reaches. -/
def reachedSplitters (grid : Grid) (sr sc : Int) : Set (Int × Int) :=
  {p | Reached grid sr sc p.1 p.2 ∧ cellAt grid p.1 p.2 = Except.ok '^'}

/-- A map of weights with every weight wrapped to `int64`. -/
def wrapMap (m : List (Int × Int)) : List (Int × Int) := m.map (fun p => (p.1, wrap64 p.2))

/-- The row variables with the weights and the total wrapped to `int64`. -/
def wrapAcc (acc : RowAcc) : RowAcc :=
  { acc with
    nextTimelineCounts := wrapMap acc.nextTimelineCounts
    totalFinishedTimelines := wrap64 acc.totalFinishedTimelines }

/-- Instance of decidability for rectangular grids. -/
instance (grid : Grid) (width : Int) : Decidable (Rectangular grid width) := by
  unfold Rectangular; infer_instance

/-- The frontiers at the beginning of the iterations of the outer loop, in
order: the row index with `activeCols` and `timelineCounts` as the iteration
finds them.  The recursion is that of `sweep`. -/
def sweepFrontiers (a : Arith) (ord : KeyOrder) (grid : Grid) (height width : Int) :
    Nat → Int → List (Int × Bool) → List (Int × Int) → Int → Int →
      Except Fault (List (Int × List (Int × Bool) × List (Int × Int)))
  | fuel, r, activeCols, timelineCounts, splits, total =>
    if r < height then
      match fuel with
      | 0 => Except.error Fault.fuelExhausted
      | fuel1 + 1 =>
        match processRow a ord grid height width r activeCols timelineCounts splits total with
        | Except.error e => Except.error e
        | Except.ok acc =>
          if acc.nextCols.length = 0 then
            Except.ok [(r, activeCols, timelineCounts)]
          else
            match sweepFrontiers a ord grid height width fuel1 (r + 1) acc.nextCols
                acc.nextTimelineCounts acc.splits acc.totalFinishedTimelines with
            | Except.error e => Except.error e
            | Except.ok rest => Except.ok ((r, activeCols, timelineCounts) :: rest)
    else Except.ok []

/-- The frontiers at the beginning of the loop iterations of `solve`. -/
def solveFrontiers (a : Arith) (ord : KeyOrder) (grid : Grid) (startRow startCol : Int) :
    Except Fault (List (Int × List (Int × Bool) × List (Int × Int))) :=
  let height : Int := grid.length
  match index grid 0 with
  | Except.error e => Except.error e
  | Except.ok row0 =>
    let width : Int := row0.length
    sweepFrontiers a ord grid height width (height - startRow).toNat startRow
      [(startCol, true)] [(startCol, 1)] 0 0

/-- The splitter-cell encounters of row `r`: the active columns of the grid
that stand on a `^` cell. -/
def encounters (grid : Grid) (width r : Int) (activeCols : List (Int × Bool)) : List Int :=
  (mapKeys activeCols).filter (fun c => 0 ≤ c ∧ c < width ∧ cellAt grid r c = Except.ok '^')

/-- Sum of the weights that the columns carry at the splitter-cell encounters of row `r`. -/
def encounterWeight (grid : Grid) (width r : Int) (activeCols : List (Int × Bool))
    (timelineCounts : List (Int × Int)) : Int :=
  ((encounters grid width r activeCols).map (fun c => getCount timelineCounts c)).sum

/-- Sum of the weights over every splitter-cell encounter of the listed iterations. -/
def encounterTotal (grid : Grid) (width : Int)
    (frontiers : List (Int × List (Int × Bool) × List (Int × Int))) : Int :=
  (frontiers.map (fun t => encounterWeight grid width t.1 t.2.1 t.2.2)).sum

/-- Column `k` of the next row receives a beam from row `r`: `k` is active on
a cell that is no splitter, or `k - 1` is active on a splitter, or `k + 1` is
active on a splitter. -/
def fedBy (grid : Grid) (r : Int) (activeCols : List (Int × Bool)) (k : Int) : Prop :=
  (k ∈ mapKeys activeCols ∧ cellAt grid r k ≠ Except.ok '^') ∨
  (k - 1 ∈ mapKeys activeCols ∧ cellAt grid r (k - 1) = Except.ok '^') ∨
  (k + 1 ∈ mapKeys activeCols ∧ cellAt grid r (k + 1) = Except.ok '^')

instance (grid : Grid) (r : Int) (activeCols : List (Int × Bool)) (k : Int) :
    Decidable (fedBy grid r activeCols k) := by
  unfold fedBy; infer_instance

/-- Sum of the weights that column `k` of the next row receives from row `r`. -/
def incoming (grid : Grid) (r : Int) (activeCols : List (Int × Bool))
    (timelineCounts : List (Int × Int)) (k : Int) : Int :=
  (if k ∈ mapKeys activeCols ∧ cellAt grid r k ≠ Except.ok '^' then getCount timelineCounts k
    else 0)
  + (if k - 1 ∈ mapKeys activeCols ∧ cellAt grid r (k - 1) = Except.ok '^' then
      getCount timelineCounts (k - 1) else 0)
  + (if k + 1 ∈ mapKeys activeCols ∧ cellAt grid r (k + 1) = Except.ok '^' then
      getCount timelineCounts (k + 1) else 0)

/-- Sum of the weights of the branches that leave the grid sideways in row `r`:
for each splitter encounter, the weight once if the left branch has column
`c - 1 < 0` and once if the right branch has column `c + 1 ≥ width`. -/
def sideExits (grid : Grid) (width r : Int) (activeCols : List (Int × Bool))
    (timelineCounts : List (Int × Int)) : Int :=
  ((encounters grid width r activeCols).map (fun c =>
      (if c - 1 < 0 then getCount timelineCounts c else 0)
        + (if c + 1 ≥ width then getCount timelineCounts c else 0))).sum

/-- Sum of what the active columns of the grid add to the total in the last
row: the weight, twice on a splitter. -/
def bottomExits (grid : Grid) (width r : Int) (activeCols : List (Int × Bool))
    (timelineCounts : List (Int × Int)) : Int :=
  (((mapKeys activeCols).filter (fun c => 0 ≤ c ∧ c < width)).map (fun c =>
      if cellAt grid r c = Except.ok '^' then 2 * getCount timelineCounts c
      else getCount timelineCounts c)).sum

instance (width : Int) (activeCols : List (Int × Bool)) (timelineCounts : List (Int × Int)) :
    Decidable (Frontier width activeCols timelineCounts) := by
  unfold Frontier; infer_instance

/-- Rows `^.^`, `...`: splitters in the first and the last column. -/
def edgeGrid : Grid := ["^.^".toList, "...".toList]

/-- Rows `..^..`, `.^.^.`, `..^..`: the two beams of row 1 meet again in column 2. -/
def mergingGrid : Grid := ["..^..".toList, ".^.^.".toList, "..^..".toList]

/-- Rows `..^..`, `.^.^.`, `^....`: as `mergingGrid` but the last splitter is moved
to column 0. -/
def cornerGrid : Grid := ["..^..".toList, ".^.^.".toList, "^....".toList]

/-- The outer loop of `solve` without the statement
`if len(activeCols) == 0 { break }`: the same sweep run over all rows
`startRow .. height - 1`. -/
def sweepNoBreak (a : Arith) (ord : KeyOrder) (grid : Grid) (height width : Int) :
    Nat → Int → List (Int × Bool) → List (Int × Int) → Int → Int → Except Fault (Int × Int)
  | fuel, r, activeCols, timelineCounts, splits, total =>
    if r < height then
      match fuel with
      | 0 => Except.error Fault.fuelExhausted
      | fuel1 + 1 =>
        match processRow a ord grid height width r activeCols timelineCounts splits total with
        | Except.error e => Except.error e
        | Except.ok acc =>
          sweepNoBreak a ord grid height width fuel1 (r + 1) acc.nextCols acc.nextTimelineCounts
            acc.splits acc.totalFinishedTimelines
    else Except.ok (splits, total)

/-- The computation of `solveTotals` with `sweepNoBreak` in place of `sweep`. -/
def solveTotalsNoBreak (a : Arith) (ord : KeyOrder) (grid : Grid) (startRow startCol : Int) :
    Except Fault (Int × Int) :=
  let height : Int := grid.length
  match index grid 0 with
  | Except.error e => Except.error e
  | Except.ok row0 =>
    let width : Int := row0.length
    sweepNoBreak a ord grid height width (height - startRow).toNat startRow
      [(startCol, true)] [(startCol, 1)] 0 0

/-- Rows `.^.`, `.`: the second row is shorter than the first. -/
def raggedGrid : Grid := [".^.".toList, ".".toList]

/-- The constant `bufio.MaxScanTokenSize` of the Go standard library,
`64 * 1024`: the size in bytes that the buffer of a scanner made by
`bufio.NewScanner` (line 36) grows to at most. -/
def maxScanTokenSize : Nat := 64 * 1024

/-- What the reads of the opened file deliver to the scanner: all of the file,
or only its beginning, up to a failing read: `lines` whole lines and then
`chars` characters of the line that follows them.  The text is valid UTF-8 and
a failing read cuts it between two characters. -/
inductive Reads where
  | complete : Reads
  | failsAfter (lines chars : Nat) : Reads
  deriving DecidableEq

/-- The lines of the text that the reads deliver, for a file with the lines
`lines` (each without its end-of-line marker `\n`).  A failing read ends the
text like the end of the file does: the scanner of `bufio.NewScanner` hands on
what it has buffered, so the characters read of a cut line form a last line,
unless there are none. -/
def deliveredLines (lines : List String) : Reads → List String
  | Reads.complete => lines
  | Reads.failsAfter n p =>
    lines.take n ++
      (match lines.drop n with
        | [] => []
        | line :: _ => if p = 0 then [] else [String.mk (line.toList.take p)])

/-- Whether `scanner.Scan()` finds the line `line` as its next token: the line
and one byte more (its `\n`, or the room in which the scanner meets the end of
the text) have to lie in the buffer of at most `maxScanTokenSize` bytes, so a
line of `maxScanTokenSize` bytes or more is too long.  The size of a line is
the number of bytes of its UTF-8 encoding. -/
def tokenFits (line : String) : Bool := decide (line.utf8ByteSize < maxScanTokenSize)

/-- The inner loop `for c, char := range row` of `readGrid` (lines 42-47) on
the part of the row that starts at index `c`: the pair `(startRow, startCol)`
after the loop, given the pair before it. -/
def scanRow (rowIdx : Int) : List Char → Int → Int × Int → Int × Int
  | [], _, start => start
  | char :: rest, c, start =>
    scanRow rowIdx rest (c + 1) (if char = 'S' then (rowIdx, c) else start)

/-- The loop `for scanner.Scan()` of `readGrid` (lines 39-50) over the lines
delivered and not yet scanned, given `grid`, `rowIdx` and
`(startRow, startCol)` so far.  `scanner.Scan()` returns `false`, and the loop
ends, at the end of the text and at the first line that is too long for the
buffer of the scanner; the source does not look at `scanner.Err()`, so both
ends of the loop lead to the same `return` (line 52). -/
def readLines : List String → Grid → Int → Int × Int → Grid × Int × Int
  | [], grid, _, start => (grid, start.1, start.2)
  | line :: rest, grid, rowIdx, start =>
    if tokenFits line then
      readLines rest (grid ++ [line.toList]) (rowIdx + 1) (scanRow rowIdx line.toList 0 start)
    else
      (grid, start.1, start.2)

/-- The function `readGrid` on a file with the lines `lines`, of which the
reads deliver `reads`: the grid and the pair `(startRow, startCol)`, which
starts as `(-1, -1)`. -/
def readGrid (lines : List String) (reads : Reads) : Grid × Int × Int :=
  readLines (deliveredLines lines reads) [] 0 (-1, -1)

/-- The lines that the loop of `readGrid` reads as rows: the lines delivered
that come before the first line too long for the scanner. -/
def scannedLines (lines : List String) (reads : Reads) : List String :=
  (deliveredLines lines reads).takeWhile tokenFits

/-- A line of 70000 characters `.` followed by the start marker `S`. -/
def longLine : String := String.mk (List.replicate 70000 '.' ++ ['S'])

/-- Rows `.....`, `#...x`, `..^..`, `..y..`: the splitter of `exampleGrid` with
other symbols around it and no `S`. -/
def plainGrid : Grid := [".....".toList, "#...x".toList, "..^..".toList, "..y..".toList]

/-- The integer `x` is a value of type `int64`. -/
def fitsInt64 (x : Int) : Prop := -9223372036854775808 ≤ x ∧ x ≤ 9223372036854775807

instance (x : Int) : Decidable (fitsInt64 x) := by
  unfold fitsInt64; infer_instance

/-- Every `int64` operation of the statement `applyCell` (each
`nextTimelineCounts[k] += count`, each `totalFinishedTimelines += ...` and the
product `count * 2`), carried out exactly from the variables `acc`, has its
result in the `int64` range. -/
def cellFits (height width r : Int) (cell : Char) (count : Int) (acc : RowAcc) (c : Int) :
    Prop :=
  if cell = '^' then
    if r + 1 < height then
      (if c - 1 ≥ 0 then fitsInt64 (getCount acc.nextTimelineCounts (c - 1) + count)
        else fitsInt64 (acc.totalFinishedTimelines + count)) ∧
      (if c + 1 < width then
        fitsInt64 (getCount
          (if c - 1 ≥ 0 then addNext Arith.unbounded acc (c - 1) count
            else finish Arith.unbounded acc count).nextTimelineCounts (c + 1) + count)
        else
          fitsInt64
            ((if c - 1 ≥ 0 then addNext Arith.unbounded acc (c - 1) count
              else finish Arith.unbounded acc count).totalFinishedTimelines + count))
    else
      fitsInt64 (count * 2) ∧ fitsInt64 (acc.totalFinishedTimelines + count * 2)
  else
    if r + 1 < height then fitsInt64 (getCount acc.nextTimelineCounts c + count)
    else fitsInt64 (acc.totalFinishedTimelines + count)

/-- Every `int64` operation of the inner loop over the keys `ks`, carried out
exactly from the variables `acc`, has its result in the `int64` range. -/
def visitsFit (grid : Grid) (height width r : Int) (timelineCounts : List (Int × Int)) :
    List Int → RowAcc → Prop
  | [], _ => True
  | c :: cs, acc =>
    ((c < 0 ∨ c ≥ width) ∨
      cellFits height width r (cellOr grid r c) (getCount timelineCounts c) acc c) ∧
    visitsFit grid height width r timelineCounts cs
      (stepCol Arith.unbounded grid height width r timelineCounts acc c)

/-- Every `int64` operation of the outer loop, carried out exactly, has its
result in the `int64` range.  The recursion is that of `sweep`. -/
def sweepFits (ord : KeyOrder) (grid : Grid) (height width : Int) :
    Nat → Int → List (Int × Bool) → List (Int × Int) → Int → Int → Prop
  | 0, _, _, _, _, _ => True
  | fuel1 + 1, r, activeCols, timelineCounts, splits, total =>
    r < height →
      visitsFit grid height width r timelineCounts (ord.enum r (mapKeys activeCols))
          ⟨[], [], splits, total⟩ ∧
        (¬ (rowResult Arith.unbounded ord grid height width r activeCols timelineCounts splits
              total).nextCols.length = 0 →
          sweepFits ord grid height width fuel1 (r + 1)
            (rowResult Arith.unbounded ord grid height width r activeCols timelineCounts splits
              total).nextCols
            (rowResult Arith.unbounded ord grid height width r activeCols timelineCounts splits
              total).nextTimelineCounts
            (rowResult Arith.unbounded ord grid height width r activeCols timelineCounts splits
              total).splits
            (rowResult Arith.unbounded ord grid height width r activeCols timelineCounts splits
              total).totalFinishedTimelines)

/-- No `int64` addition or doubling of `solve` overflows: carried out exactly,
each has its result in the `int64` range. -/
def solveFits (ord : KeyOrder) (grid : Grid) (startRow startCol : Int) : Prop :=
  sweepFits ord grid grid.length (gridWidth grid) ((grid.length : Int) - startRow).toNat startRow
    [(startCol, true)] [(startCol, 1)] 0 0

instance (height width r : Int) (cell : Char) (count : Int) (acc : RowAcc) (c : Int) :
    Decidable (cellFits height width r cell count acc c) := by
  unfold cellFits; infer_instance

/-- Decision procedure for `visitsFit`, along the list of keys. -/
def visitsFitDec (grid : Grid) (height width r : Int) (timelineCounts : List (Int × Int)) :
    (ks : List Int) → (acc : RowAcc) →
      Decidable (visitsFit grid height width r timelineCounts ks acc)
  | [], _ => isTrue trivial
  | c :: cs, acc =>
    match visitsFitDec grid height width r timelineCounts cs
        (stepCol Arith.unbounded grid height width r timelineCounts acc c) with
    | isTrue h2 =>
      if h1 : (c < 0 ∨ c ≥ width) ∨
          cellFits height width r (cellOr grid r c) (getCount timelineCounts c) acc c then
        isTrue ⟨h1, h2⟩
      else isFalse (fun h => h1 h.1)
    | isFalse h2 => isFalse (fun h => h2 h.2)

instance (grid : Grid) (height width r : Int) (timelineCounts : List (Int × Int))
    (ks : List Int) (acc : RowAcc) :
    Decidable (visitsFit grid height width r timelineCounts ks acc) :=
  visitsFitDec grid height width r timelineCounts ks acc

/-! ## Arithmetic -/

@[simp] theorem norm_unbounded (x : Int) : Arith.unbounded.norm x = x := rfl

@[simp] theorem norm_int64 (x : Int) : Arith.int64.norm x = wrap64 x := rfl

theorem wrap64_of_range {x : Int} (h1 : -9223372036854775808 ≤ x) (h2 : x < 9223372036854775808) :
    wrap64 x = x := by
  unfold wrap64; omega

theorem wrap64_add_left (x y : Int) : wrap64 (wrap64 x + y) = wrap64 (x + y) := by
  unfold wrap64; omega

theorem wrap64_add_right (x y : Int) : wrap64 (x + wrap64 y) = wrap64 (x + y) := by
  unfold wrap64; omega

theorem wrap64_mul_two (x : Int) : wrap64 (wrap64 x * 2) = wrap64 (x * 2) := by
  unfold wrap64; omega

theorem wrap64_idem (x : Int) : wrap64 (wrap64 x) = wrap64 x := by
  unfold wrap64; omega

/-! ## Go maps -/

@[simp] theorem mapKeys_nil {V : Type} : mapKeys ([] : List (Int × V)) = [] := rfl

@[simp] theorem mapKeys_cons {V : Type} (p : Int × V) (m : List (Int × V)) :
    mapKeys (p :: m) = p.1 :: mapKeys m := rfl

theorem mapGet?_mapSet {V : Type} (m : List (Int × V)) (k k' : Int) (v : V) :
    mapGet? (mapSet m k v) k' = if k = k' then some v else mapGet? m k' := by
  induction m with
  | nil => simp [mapSet, mapGet?]
  | cons p m ih =>
    obtain ⟨q, w⟩ := p
    by_cases h : q = k
    · subst h
      simp only [mapSet, if_true, mapGet?]
      split <;> rfl
    · simp only [mapSet, if_neg h, mapGet?, ih]
      by_cases h2 : q = k'
      · subst h2; simp [h, Ne.symm h]
      · simp [h2]

theorem mapGet?_eq_none_iff {V : Type} (m : List (Int × V)) (k : Int) :
    mapGet? m k = none ↔ k ∉ mapKeys m := by
  induction m with
  | nil => simp [mapGet?]
  | cons p m ih =>
    obtain ⟨q, w⟩ := p
    by_cases h : q = k
    · simp [mapGet?, h]
    · simp [mapGet?, h, ih, Ne.symm h]

theorem mapKeys_mapSet {V : Type} (m : List (Int × V)) (k : Int) (v : V) :
    mapKeys (mapSet m k v) = if k ∈ mapKeys m then mapKeys m else mapKeys m ++ [k] := by
  induction m with
  | nil => simp [mapSet]
  | cons p m ih =>
    obtain ⟨q, w⟩ := p
    by_cases h : q = k
    · subst h; simp [mapSet]
    · simp only [mapSet, if_neg h, mapKeys_cons, ih, List.mem_cons, Ne.symm h, false_or]
      split <;> simp

theorem mem_mapKeys_mapSet {V : Type} (m : List (Int × V)) (k k' : Int) (v : V) :
    k' ∈ mapKeys (mapSet m k v) ↔ k' = k ∨ k' ∈ mapKeys m := by
  rw [mapKeys_mapSet]
  split
  · constructor
    · intro h; exact Or.inr h
    · rintro (h | h)
      · subst h; assumption
      · exact h
  · simp [or_comm]

theorem nodup_mapKeys_mapSet {V : Type} (m : List (Int × V)) (k : Int) (v : V)
    (h : (mapKeys m).Nodup) : (mapKeys (mapSet m k v)).Nodup := by
  rw [mapKeys_mapSet]
  split
  · exact h
  · rename_i hk
    rw [List.nodup_append]
    refine ⟨h, List.nodup_singleton k, ?_⟩
    intro x hx hy
    simp at hy
    subst hy
    exact hk hx

theorem getCount_mapSet (m : List (Int × Int)) (k k' v : Int) :
    getCount (mapSet m k v) k' = if k = k' then v else getCount m k' := by
  unfold getCount
  rw [mapGet?_mapSet]
  split <;> simp

@[simp] theorem getCount_nil (k : Int) : getCount [] k = 0 := rfl

theorem getCount_of_not_mem (m : List (Int × Int)) (k : Int) (h : k ∉ mapKeys m) :
    getCount m k = 0 := by
  unfold getCount
  rw [(mapGet?_eq_none_iff m k).mpr h]; rfl

/-! ## Reading cells -/

theorem index_ok {α : Type} (xs : List α) (i : Int) (h0 : 0 ≤ i) (h1 : i < xs.length) :
    ∃ x, index xs i = Except.ok x ∧ x ∈ xs := by
  have hlt : i.toNat < xs.length := by omega
  refine ⟨xs.get ⟨i.toNat, hlt⟩, ?_, List.get_mem _ _ _⟩
  unfold index
  rw [if_neg (by omega), List.get?_eq_get hlt]

theorem cellAt_ok (grid : Grid) (width : Int) (hrect : Rectangular grid width) (r c : Int)
    (hr0 : 0 ≤ r) (hr1 : r < grid.length) (hc0 : 0 ≤ c) (hc1 : c < width) :
    ∃ ch, cellAt grid r c = Except.ok ch := by
  obtain ⟨row, hrow, hmem⟩ := index_ok grid r hr0 hr1
  have hlen := hrect row hmem
  obtain ⟨ch, hch, _⟩ := index_ok row c hc0 (by omega)
  exact ⟨ch, by unfold cellAt; rw [hrow]; exact hch⟩

theorem cellAt_eq_cellOr (grid : Grid) (width : Int) (hrect : Rectangular grid width) (r c : Int)
    (hr0 : 0 ≤ r) (hr1 : r < grid.length) (hc0 : 0 ≤ c) (hc1 : c < width) :
    cellAt grid r c = Except.ok (cellOr grid r c) := by
  obtain ⟨ch, hch⟩ := cellAt_ok grid width hrect r c hr0 hr1 hc0 hc1
  unfold cellOr; rw [hch]

theorem visit_eq_stepCol (a : Arith) (grid : Grid) (height width r : Int)
    (hrect : Rectangular grid width) (hr0 : 0 ≤ r) (hr1 : r < grid.length)
    (counts : List (Int × Int)) (acc : RowAcc) (c : Int) :
    visit a grid height width r counts acc c
      = Except.ok (stepCol a grid height width r counts acc c) := by
  unfold visit stepCol
  by_cases h : c < 0 ∨ c ≥ width
  · simp only [if_pos h]
  · simp only [if_neg h]
    rw [cellAt_eq_cellOr grid width hrect r c hr0 hr1 (by omega) (by omega)]

theorem visitAll_eq_foldl (a : Arith) (grid : Grid) (height width r : Int)
    (hrect : Rectangular grid width) (hr0 : 0 ≤ r) (hr1 : r < grid.length)
    (counts : List (Int × Int)) (ks : List Int) (acc : RowAcc) :
    visitAll a grid height width r counts ks acc
      = Except.ok (ks.foldl (stepCol a grid height width r counts) acc) := by
  induction ks generalizing acc with
  | nil => rfl
  | cons c cs ih =>
    simp only [visitAll, visit_eq_stepCol a grid height width r hrect hr0 hr1, List.foldl_cons]
    exact ih _

/-! ## The statements of the inner loop -/

@[simp] theorem addNext_nextCols (a : Arith) (acc : RowAcc) (k w : Int) :
    (addNext a acc k w).nextCols = mapSet acc.nextCols k true := rfl

@[simp] theorem addNext_nextTimelineCounts (a : Arith) (acc : RowAcc) (k w : Int) :
    (addNext a acc k w).nextTimelineCounts
      = mapSet acc.nextTimelineCounts k (a.norm (getCount acc.nextTimelineCounts k + w)) := rfl

@[simp] theorem addNext_splits (a : Arith) (acc : RowAcc) (k w : Int) :
    (addNext a acc k w).splits = acc.splits := rfl

@[simp] theorem addNext_total (a : Arith) (acc : RowAcc) (k w : Int) :
    (addNext a acc k w).totalFinishedTimelines = acc.totalFinishedTimelines := rfl

@[simp] theorem finish_nextCols (a : Arith) (acc : RowAcc) (w : Int) :
    (finish a acc w).nextCols = acc.nextCols := rfl

@[simp] theorem finish_nextTimelineCounts (a : Arith) (acc : RowAcc) (w : Int) :
    (finish a acc w).nextTimelineCounts = acc.nextTimelineCounts := rfl

@[simp] theorem finish_splits (a : Arith) (acc : RowAcc) (w : Int) :
    (finish a acc w).splits = acc.splits := rfl

@[simp] theorem finish_total (a : Arith) (acc : RowAcc) (w : Int) :
    (finish a acc w).totalFinishedTimelines = a.norm (acc.totalFinishedTimelines + w) := rfl

/-! ## Keys and split count of one visit -/

theorem stepCol_splits (a : Arith) (grid : Grid) (height width r : Int)
    (counts : List (Int × Int)) (acc : RowAcc) (c : Int) :
    (stepCol a grid height width r counts acc c).splits
      = acc.splits + (if 0 ≤ c ∧ c < width ∧ cellOr grid r c = '^' then 1 else 0) := by
  unfold stepCol applyCell
  by_cases h : c < 0 ∨ c ≥ width
  · have hn : ¬ (0 ≤ c ∧ c < width ∧ cellOr grid r c = '^') := by omega
    simp only [if_pos h, if_neg hn, add_zero]
  · simp only [if_neg h]
    by_cases hs : cellOr grid r c = '^'
    · have hp : 0 ≤ c ∧ c < width ∧ cellOr grid r c = '^' := ⟨by omega, by omega, hs⟩
      simp only [if_pos hs, if_pos hp]
      split_ifs <;> simp
    · have hn : ¬ (0 ≤ c ∧ c < width ∧ cellOr grid r c = '^') := fun hp => hs hp.2.2
      simp only [if_neg hs, if_neg hn]
      split_ifs <;> simp

theorem stepCol_mem_nextCols (a : Arith) (grid : Grid) (height width r : Int)
    (counts : List (Int × Int)) (acc : RowAcc) (c k : Int) :
    k ∈ mapKeys (stepCol a grid height width r counts acc c).nextCols
      ↔ k ∈ mapKeys acc.nextCols ∨ Feeds grid height width r c k := by
  unfold stepCol applyCell Feeds
  by_cases h : c < 0 ∨ c ≥ width
  · rw [if_pos h]
    constructor
    · intro h1; exact Or.inl h1
    · rintro (h1 | h1)
      · exact h1
      · omega
  · rw [if_neg h]
    have h0 : 0 ≤ c := by omega
    have h1 : c < width := by omega
    by_cases hm : k ∈ mapKeys acc.nextCols
    · by_cases hs : cellOr grid r c = '^'
      · simp only [if_pos hs]
        split_ifs <;> simp [mem_mapKeys_mapSet, hm]
      · simp only [if_neg hs]
        split_ifs <;> simp [mem_mapKeys_mapSet, hm]
    · by_cases hs : cellOr grid r c = '^'
      · simp only [if_pos hs]
        split_ifs <;> simp only [addNext_nextCols, finish_nextCols, mem_mapKeys_mapSet, hm,
          or_false, false_or]
        all_goals first | omega | (refine ⟨fun hh => hh.elim, fun hh => ?_⟩; omega)
      · simp only [if_neg hs]
        split_ifs <;> simp only [addNext_nextCols, finish_nextCols, mem_mapKeys_mapSet, hm,
          or_false, false_or]
        all_goals first | omega | (refine ⟨fun hh => hh.elim, fun hh => ?_⟩; omega)

theorem stepCol_keys_eq (a : Arith) (grid : Grid) (height width r : Int)
    (counts : List (Int × Int)) (acc : RowAcc) (c : Int)
    (h : mapKeys acc.nextTimelineCounts = mapKeys acc.nextCols) :
    mapKeys (stepCol a grid height width r counts acc c).nextTimelineCounts
      = mapKeys (stepCol a grid height width r counts acc c).nextCols := by
  unfold stepCol applyCell
  split_ifs <;> first | exact h | simp [mapKeys_mapSet, h]

theorem stepCol_nodup (a : Arith) (grid : Grid) (height width r : Int)
    (counts : List (Int × Int)) (acc : RowAcc) (c : Int)
    (h : (mapKeys acc.nextCols).Nodup) :
    (mapKeys (stepCol a grid height width r counts acc c).nextCols).Nodup := by
  unfold stepCol applyCell
  split_ifs <;>
    first | exact h | exact nodup_mapKeys_mapSet _ _ _ h
          | exact nodup_mapKeys_mapSet _ _ _ (nodup_mapKeys_mapSet _ _ _ h)

/-! ## Keys and split count of the inner loop -/

theorem foldl_splits (a : Arith) (grid : Grid) (height width r : Int)
    (counts : List (Int × Int)) (ks : List Int) (acc : RowAcc) :
    (ks.foldl (stepCol a grid height width r counts) acc).splits
      = acc.splits + (ks.filter (fun c => 0 ≤ c ∧ c < width ∧ cellOr grid r c = '^')).length := by
  induction ks generalizing acc with
  | nil => simp
  | cons c cs ih =>
    rw [List.foldl_cons, ih, stepCol_splits, List.filter_cons]
    split_ifs with h1 h2 h2
    · simp; ring
    · exact absurd (by simpa using h1) h2
    · exact absurd (by simpa using h2) h1
    · simp

theorem foldl_mem_nextCols (a : Arith) (grid : Grid) (height width r : Int)
    (counts : List (Int × Int)) (ks : List Int) (acc : RowAcc) (k : Int) :
    k ∈ mapKeys (ks.foldl (stepCol a grid height width r counts) acc).nextCols
      ↔ k ∈ mapKeys acc.nextCols ∨ ∃ c ∈ ks, Feeds grid height width r c k := by
  induction ks generalizing acc with
  | nil => simp
  | cons c cs ih =>
    rw [List.foldl_cons, ih, stepCol_mem_nextCols]
    simp only [List.mem_cons, exists_eq_or_imp, or_assoc]

theorem foldl_keys_eq (a : Arith) (grid : Grid) (height width r : Int)
    (counts : List (Int × Int)) (ks : List Int) (acc : RowAcc)
    (h : mapKeys acc.nextTimelineCounts = mapKeys acc.nextCols) :
    mapKeys (ks.foldl (stepCol a grid height width r counts) acc).nextTimelineCounts
      = mapKeys (ks.foldl (stepCol a grid height width r counts) acc).nextCols := by
  induction ks generalizing acc with
  | nil => exact h
  | cons c cs ih =>
    rw [List.foldl_cons]
    exact ih _ (stepCol_keys_eq a grid height width r counts acc c h)

theorem foldl_nodup (a : Arith) (grid : Grid) (height width r : Int)
    (counts : List (Int × Int)) (ks : List Int) (acc : RowAcc)
    (h : (mapKeys acc.nextCols).Nodup) :
    (mapKeys (ks.foldl (stepCol a grid height width r counts) acc).nextCols).Nodup := by
  induction ks generalizing acc with
  | nil => exact h
  | cons c cs ih =>
    rw [List.foldl_cons]
    exact ih _ (stepCol_nodup a grid height width r counts acc c h)

theorem Feeds.range {grid : Grid} {height width r c k : Int}
    (h : Feeds grid height width r c k) : 0 ≤ k ∧ k < width ∧ r + 1 < height := by
  unfold Feeds at h
  obtain ⟨h0, h1, h2, h3⟩ := h
  split_ifs at h3 <;> omega

/-! ## Weighted sums over a map -/

@[simp] theorem mapSum_nil (f : Int → Int) : mapSum f [] = 0 := rfl

@[simp] theorem mapSum_cons (f : Int → Int) (p : Int × Int) (m : List (Int × Int)) :
    mapSum f (p :: m) = p.2 * f p.1 + mapSum f m := rfl

theorem mapSum_mapSet_add (f : Int → Int) (m : List (Int × Int)) (k w : Int) :
    mapSum f (mapSet m k (getCount m k + w)) = mapSum f m + w * f k := by
  induction m with
  | nil => simp [mapSet]
  | cons p m ih =>
    obtain ⟨q, v⟩ := p
    by_cases h : q = k
    · subst h
      simp [mapSet, getCount, mapGet?]; ring
    · have hg : getCount ((q, v) :: m) k = getCount m k := by simp [getCount, mapGet?, h]
      simp only [mapSet, if_neg h, mapSum_cons, hg, ih]; ring

theorem mapSum_keys (f : Int → Int) (m : List (Int × Int)) (h : (mapKeys m).Nodup) :
    mapSum f m = ((mapKeys m).map (fun c => getCount m c * f c)).sum := by
  induction m with
  | nil => simp
  | cons p m ih =>
    obtain ⟨q, v⟩ := p
    simp only [mapKeys_cons, List.nodup_cons] at h
    simp only [mapSum_cons, mapKeys_cons, List.map_cons, List.sum_cons, ih h.2]
    have h1 : getCount ((q, v) :: m) q = v := by simp [getCount, mapGet?]
    rw [h1]
    congr 1
    apply congrArg
    apply List.map_congr_left
    intro c hc
    have hne : q ≠ c := fun e => h.1 (e ▸ hc)
    simp [getCount, mapGet?, hne]

theorem mapSum_indicator (m : List (Int × Int)) (k : Int) (h : (mapKeys m).Nodup) :
    mapSum (fun c => if c = k then 1 else 0) m = getCount m k := by
  induction m with
  | nil => simp
  | cons p m ih =>
    obtain ⟨q, v⟩ := p
    simp only [mapKeys_cons, List.nodup_cons] at h
    simp only [mapSum_cons, ih h.2]
    by_cases hq : q = k
    · subst hq
      simp [getCount, mapGet?]
      exact getCount_of_not_mem m q h.1
    · simp [getCount, mapGet?, hq]

/-! ## Conservation in one visit, with unbounded integers -/

theorem landing_in (height width r : Int) (f : Int → Int) (e k : Int)
    (h : r + 1 < height ∧ 0 ≤ k ∧ k < width) : landing height width r f e k = f k := by
  unfold landing; rw [if_pos h]

theorem landing_out (height width r : Int) (f : Int → Int) (e k : Int)
    (h : ¬ (r + 1 < height ∧ 0 ≤ k ∧ k < width)) : landing height width r f e k = e := by
  unfold landing; rw [if_neg h]

theorem stepCol_value (grid : Grid) (height width r : Int)
    (counts : List (Int × Int)) (f : Int → Int) (e : Int) (acc : RowAcc) (c : Int) :
    e * (stepCol Arith.unbounded grid height width r counts acc c).totalFinishedTimelines
        + mapSum f (stepCol Arith.unbounded grid height width r counts acc c).nextTimelineCounts
      = e * acc.totalFinishedTimelines + mapSum f acc.nextTimelineCounts
        + gain grid height width r counts f e c := by
  unfold stepCol applyCell gain
  by_cases h : c < 0 ∨ c ≥ width
  · simp only [if_pos h, add_zero]
  · simp only [if_neg h]
    have h0 : 0 ≤ c := by omega
    have h1 : c < width := by omega
    by_cases hs : cellOr grid r c = '^'
    · simp only [if_pos hs]
      by_cases hr : r + 1 < height
      · simp only [if_pos hr]
        by_cases hl : c - 1 ≥ 0 <;> by_cases hrt : c + 1 < width
        · rw [landing_in height width r f e (c - 1) (by omega),
            landing_in height width r f e (c + 1) (by omega)]
          simp only [if_pos hl, if_pos hrt, addNext_nextTimelineCounts,
            addNext_total, norm_unbounded, mapSum_mapSet_add]
          ring
        · rw [landing_in height width r f e (c - 1) (by omega),
            landing_out height width r f e (c + 1) (by omega)]
          simp only [if_pos hl, if_neg hrt, addNext_nextTimelineCounts,
            addNext_total, finish_total, finish_nextTimelineCounts, norm_unbounded,
            mapSum_mapSet_add]
          ring
        · rw [landing_out height width r f e (c - 1) (by omega),
            landing_in height width r f e (c + 1) (by omega)]
          simp only [if_neg hl, if_pos hrt, addNext_nextTimelineCounts,
            addNext_total, finish_total, finish_nextTimelineCounts, norm_unbounded,
            mapSum_mapSet_add]
          ring
        · rw [landing_out height width r f e (c - 1) (by omega),
            landing_out height width r f e (c + 1) (by omega)]
          simp only [if_neg hl, if_neg hrt,
            finish_total, finish_nextTimelineCounts, norm_unbounded]
          ring
      · rw [landing_out height width r f e (c - 1) (by omega),
            landing_out height width r f e (c + 1) (by omega)]
        simp only [if_neg hr, finish_total, finish_nextTimelineCounts, norm_unbounded]
        ring
    · simp only [if_neg hs]
      by_cases hr : r + 1 < height
      · rw [landing_in height width r f e c (by omega)]
        simp only [if_pos hr, addNext_nextTimelineCounts, addNext_total,
          norm_unbounded, mapSum_mapSet_add]
        ring
      · rw [landing_out height width r f e c (by omega)]
        simp only [if_neg hr, finish_total, finish_nextTimelineCounts, norm_unbounded]
        ring

theorem foldl_value (grid : Grid) (height width r : Int)
    (counts : List (Int × Int)) (f : Int → Int) (e : Int) (ks : List Int) (acc : RowAcc) :
    e * (ks.foldl (stepCol Arith.unbounded grid height width r counts) acc).totalFinishedTimelines
        + mapSum f (ks.foldl (stepCol Arith.unbounded grid height width r counts) acc).nextTimelineCounts
      = e * acc.totalFinishedTimelines + mapSum f acc.nextTimelineCounts
        + (ks.map (gain grid height width r counts f e)).sum := by
  induction ks generalizing acc with
  | nil => simp
  | cons c cs ih =>
    rw [List.foldl_cons, ih, stepCol_value, List.map_cons, List.sum_cons]
    ring

/-! ## The brute-force expansion -/

theorem paths_outside (grid : Grid) (r c : Int)
    (h : r ≥ grid.length ∨ c < 0 ∨ c ≥ gridWidth grid) : paths grid r c = 1 := by
  unfold paths pathsFrom
  rw [if_pos h]

theorem paths_inside (grid : Grid) (r c : Int)
    (hr : r < grid.length) (hc0 : 0 ≤ c) (hc1 : c < gridWidth grid) :
    paths grid r c
      = if cellAt grid r c = Except.ok '^' then paths grid (r + 1) (c - 1) + paths grid (r + 1) (c + 1)
        else paths grid (r + 1) c := by
  have hfuel : ((grid.length : Int) - r).toNat = ((grid.length : Int) - (r + 1)).toNat + 1 := by
    omega
  have hn : ¬ (r ≥ grid.length ∨ c < 0 ∨ c ≥ gridWidth grid) := by omega
  unfold paths
  rw [hfuel]
  conv_lhs => unfold pathsFrom
  rw [if_neg hn]

/-! ## One row -/

theorem processRow_eq (a : Arith) (ord : KeyOrder) (grid : Grid) (height width r : Int)
    (hrect : Rectangular grid width) (hr0 : 0 ≤ r) (hr1 : r < grid.length)
    (active : List (Int × Bool)) (counts : List (Int × Int)) (S T : Int) :
    processRow a ord grid height width r active counts S T
      = Except.ok (rowResult a ord grid height width r active counts S T) := by
  unfold processRow rowResult
  exact visitAll_eq_foldl a grid height width r hrect hr0 hr1 counts _ _

theorem rowResult_mem (a : Arith) (ord : KeyOrder) (grid : Grid) (height width r : Int)
    (active : List (Int × Bool)) (counts : List (Int × Int)) (S T : Int) (k : Int) :
    k ∈ mapKeys (rowResult a ord grid height width r active counts S T).nextCols
      ↔ ∃ c ∈ mapKeys active, Feeds grid height width r c k := by
  unfold rowResult
  rw [foldl_mem_nextCols]
  simp only [mapKeys_nil, List.not_mem_nil, false_or]
  constructor
  · rintro ⟨c, hc, hf⟩; exact ⟨c, (ord.perm r _).mem_iff.mp hc, hf⟩
  · rintro ⟨c, hc, hf⟩; exact ⟨c, (ord.perm r _).mem_iff.mpr hc, hf⟩

theorem rowResult_frontier (a : Arith) (ord : KeyOrder) (grid : Grid) (height width r : Int)
    (active : List (Int × Bool)) (counts : List (Int × Int)) (S T : Int) :
    Frontier width (rowResult a ord grid height width r active counts S T).nextCols
      (rowResult a ord grid height width r active counts S T).nextTimelineCounts := by
  refine ⟨?_, ?_, ?_⟩
  · exact foldl_keys_eq a grid height width r counts _ _ rfl
  · exact foldl_nodup a grid height width r counts _ _ List.nodup_nil
  · intro k hk
    obtain ⟨c, _, hf⟩ := (rowResult_mem a ord grid height width r active counts S T k).mp hk
    exact ⟨hf.range.1, hf.range.2.1⟩

theorem rowResult_nonempty (a : Arith) (ord : KeyOrder) (grid : Grid) (height width r : Int)
    (active : List (Int × Bool)) (counts : List (Int × Int)) (S T : Int)
    (h : ¬ (rowResult a ord grid height width r active counts S T).nextCols.length = 0) :
    r + 1 < height := by
  cases hm : (rowResult a ord grid height width r active counts S T).nextCols with
  | nil => rw [hm] at h; exact absurd rfl h
  | cons p m =>
    have hk : p.1 ∈ mapKeys (rowResult a ord grid height width r active counts S T).nextCols := by
      rw [hm]; simp
    obtain ⟨c, _, hf⟩ := (rowResult_mem a ord grid height width r active counts S T p.1).mp hk
    exact hf.range.2.2

theorem rowResult_empty_counts (a : Arith) (ord : KeyOrder) (grid : Grid) (height width r : Int)
    (active : List (Int × Bool)) (counts : List (Int × Int)) (S T : Int)
    (h : (rowResult a ord grid height width r active counts S T).nextCols.length = 0) :
    (rowResult a ord grid height width r active counts S T).nextTimelineCounts = [] := by
  have h1 := (rowResult_frontier a ord grid height width r active counts S T).1
  rw [List.length_eq_zero.mp h] at h1
  simpa [mapKeys] using h1

theorem rowResult_splits (a : Arith) (ord : KeyOrder) (grid : Grid) (height width r : Int)
    (active : List (Int × Bool)) (counts : List (Int × Int)) (S T : Int) :
    (rowResult a ord grid height width r active counts S T).splits
      = S + ((mapKeys active).filter
          (fun c => 0 ≤ c ∧ c < width ∧ cellOr grid r c = '^')).length := by
  unfold rowResult
  rw [foldl_splits]
  simp only [add_right_inj, Nat.cast_inj]
  exact ((ord.perm r _).filter _).length_eq

theorem rowResult_value (ord : KeyOrder) (grid : Grid) (height width r : Int)
    (active : List (Int × Bool)) (counts : List (Int × Int)) (S T : Int)
    (f : Int → Int) (e : Int) :
    e * (rowResult Arith.unbounded ord grid height width r active counts S T).totalFinishedTimelines
        + mapSum f (rowResult Arith.unbounded ord grid height width r active counts S T).nextTimelineCounts
      = e * T + ((mapKeys active).map (gain grid height width r counts f e)).sum := by
  unfold rowResult
  rw [foldl_value]
  simp only [mapSum_nil, add_zero, add_right_inj]
  exact ((ord.perm r _).map _).sum_eq

/-- Unfolding of one iteration of the outer loop on a grid whose row `r` can be read. -/
theorem sweep_succ (a : Arith) (ord : KeyOrder) (grid : Grid) (width r : Int)
    (hrect : Rectangular grid width) (hr0 : 0 ≤ r) (hr1 : r < grid.length) (fuel : Nat)
    (active : List (Int × Bool)) (counts : List (Int × Int)) (S T : Int) :
    sweep a ord grid grid.length width (fuel + 1) r active counts S T
      = if (rowResult a ord grid grid.length width r active counts S T).nextCols.length = 0 then
          Except.ok ((rowResult a ord grid grid.length width r active counts S T).splits,
            (rowResult a ord grid grid.length width r active counts S T).totalFinishedTimelines)
        else
          sweep a ord grid grid.length width fuel (r + 1)
            (rowResult a ord grid grid.length width r active counts S T).nextCols
            (rowResult a ord grid grid.length width r active counts S T).nextTimelineCounts
            (rowResult a ord grid grid.length width r active counts S T).splits
            (rowResult a ord grid grid.length width r active counts S T).totalFinishedTimelines := by
  conv_lhs => unfold sweep
  rw [if_pos hr1]
  simp only [processRow_eq a ord grid grid.length width r hrect hr0 hr1]

theorem cellOr_eq_iff (grid : Grid) (width : Int) (hrect : Rectangular grid width) (r c : Int)
    (hr0 : 0 ≤ r) (hr1 : r < grid.length) (hc0 : 0 ≤ c) (hc1 : c < width) (ch : Char) :
    cellOr grid r c = ch ↔ cellAt grid r c = Except.ok ch := by
  rw [cellAt_eq_cellOr grid width hrect r c hr0 hr1 hc0 hc1]
  constructor
  · intro h; rw [h]
  · intro h; injection h

theorem solveTotals_eq (a : Arith) (ord : KeyOrder) (grid : Grid) (sr sc : Int)
    (hne : grid ≠ []) :
    solveTotals a ord grid sr sc
      = sweep a ord grid grid.length (gridWidth grid) ((grid.length : Int) - sr).toNat sr
          [(sc, true)] [(sc, 1)] 0 0 := by
  cases grid with
  | nil => exact absurd rfl hne
  | cons row0 rest => rfl

theorem frontier_start (width sc : Int) (h0 : 0 ≤ sc) (h1 : sc < width) :
    Frontier width [(sc, true)] [(sc, 1)] := by
  refine ⟨rfl, by simp, ?_⟩
  intro k hk
  simp at hk
  subst hk
  exact ⟨h0, h1⟩

/-! ## The total and the brute-force expansion -/

theorem landing_paths (grid : Grid) (r k : Int) :
    landing grid.length (gridWidth grid) r (fun j => (paths grid (r + 1) j : Int)) 1 k
      = (paths grid (r + 1) k : Int) := by
  unfold landing
  split_ifs with h
  · rfl
  · rw [paths_outside grid (r + 1) k (by omega)]; rfl

theorem gain_paths (grid : Grid) (hrect : Rectangular grid (gridWidth grid)) (r c : Int)
    (hr0 : 0 ≤ r) (hr1 : r < grid.length) (hc0 : 0 ≤ c) (hc1 : c < gridWidth grid)
    (counts : List (Int × Int)) :
    gain grid grid.length (gridWidth grid) r counts (fun j => (paths grid (r + 1) j : Int)) 1 c
      = getCount counts c * (paths grid r c : Int) := by
  unfold gain
  rw [if_neg (by omega), paths_inside grid r c hr1 hc0 hc1]
  simp only [landing_paths]
  by_cases hs : cellOr grid r c = '^'
  · rw [if_pos hs, if_pos ((cellOr_eq_iff grid _ hrect r c hr0 hr1 hc0 hc1 _).mp hs)]
    push_cast; rfl
  · rw [if_neg hs, if_neg (fun h => hs ((cellOr_eq_iff grid _ hrect r c hr0 hr1 hc0 hc1 _).mpr h))]

theorem sweep_paths (ord : KeyOrder) (grid : Grid) (hrect : Rectangular grid (gridWidth grid))
    (fuel : Nat) : ∀ (r : Int) (active : List (Int × Bool)) (counts : List (Int × Int))
    (S T : Int), 0 ≤ r → r < grid.length → Frontier (gridWidth grid) active counts →
    ((grid.length : Int) - r).toNat ≤ fuel →
    (sweep Arith.unbounded ord grid grid.length (gridWidth grid) fuel r active counts S T).map
        Prod.snd
      = Except.ok (T + mapSum (fun k => (paths grid r k : Int)) counts) := by
  induction fuel with
  | zero => intro r active counts S T hr0 hr1 hF hfuel; omega
  | succ fuel ih =>
    intro r active counts S T hr0 hr1 hF hfuel
    rw [sweep_succ Arith.unbounded ord grid _ r hrect hr0 hr1]
    have hval := rowResult_value ord grid grid.length (gridWidth grid) r active counts S T
      (fun j => (paths grid (r + 1) j : Int)) 1
    have hsum : ((mapKeys active).map (gain grid grid.length (gridWidth grid) r counts
        (fun j => (paths grid (r + 1) j : Int)) 1)).sum
        = mapSum (fun k => (paths grid r k : Int)) counts := by
      rw [mapSum_keys _ counts (hF.1 ▸ hF.2.1), hF.1]
      apply congrArg
      apply List.map_congr_left
      intro c hc
      exact gain_paths grid hrect r c hr0 hr1 (hF.2.2 c hc).1 (hF.2.2 c hc).2 counts
    rw [hsum] at hval
    split_ifs with hemp
    · rw [rowResult_empty_counts _ _ _ _ _ _ _ _ _ _ hemp] at hval
      simp only [mapSum_nil, add_zero, one_mul] at hval
      simp only [Except.map, hval]
    · have hr2 := rowResult_nonempty _ _ _ _ _ _ _ _ _ _ hemp
      rw [ih (r + 1) _ _ _ _ (by omega) hr2 (rowResult_frontier _ _ _ _ _ _ _ _ _ _) (by omega)]
      simp only [one_mul] at hval
      rw [hval]

theorem solveTotals_paths (ord : KeyOrder) (grid : Grid) (sr sc : Int)
    (hne : grid ≠ []) (hrect : Rectangular grid (gridWidth grid))
    (hr0 : 0 ≤ sr) (hr1 : sr < grid.length) (hc0 : 0 ≤ sc) (hc1 : sc < gridWidth grid) :
    (solveTotals Arith.unbounded ord grid sr sc).map Prod.snd
      = Except.ok (paths grid sr sc : Int) := by
  rw [solveTotals_eq _ _ _ _ _ hne,
    sweep_paths ord grid hrect _ sr _ _ 0 0 hr0 hr1 (frontier_start _ sc hc0 hc1) (le_refl _)]
  simp

/-! ## Reached cells -/

theorem Reached.bounds {grid : Grid} {sr sc r c : Int} (h : Reached grid sr sc r c)
    (hr1 : sr < grid.length) (hc0 : 0 ≤ sc) (hc1 : sc < gridWidth grid) :
    sr ≤ r ∧ r < grid.length ∧ 0 ≤ c ∧ c < gridWidth grid := by
  induction h with
  | start => omega
  | down _ _ _ ih => omega
  | left _ _ _ _ ih => omega
  | right _ _ _ _ ih => omega

theorem Reached.row_above {grid : Grid} {sr sc r c : Int} (h : Reached grid sr sc r c)
    (r0 : Int) (h0 : sr ≤ r0) (h1 : r0 ≤ r) : ∃ c0, Reached grid sr sc r0 c0 := by
  induction h with
  | start =>
    have : r0 = sr := by omega
    subst this; exact ⟨sc, Reached.start⟩
  | @down r c hp hs hr ih =>
    by_cases he : r0 = r + 1
    · subst he; exact ⟨c, Reached.down hp hs hr⟩
    · exact ih (by omega)
  | @left r c hp hs hr hc ih =>
    by_cases he : r0 = r + 1
    · subst he; exact ⟨c - 1, Reached.left hp hs hr hc⟩
    · exact ih (by omega)
  | @right r c hp hs hr hc ih =>
    by_cases he : r0 = r + 1
    · subst he; exact ⟨c + 1, Reached.right hp hs hr hc⟩
    · exact ih (by omega)

theorem Reached.of_feeds {grid : Grid} {sr sc r c k : Int}
    (hrect : Rectangular grid (gridWidth grid))
    (hr1 : sr < grid.length) (hc0 : 0 ≤ sc) (hc1 : sc < gridWidth grid) (hsr : 0 ≤ sr)
    (h : Reached grid sr sc r c) (hf : Feeds grid grid.length (gridWidth grid) r c k) :
    Reached grid sr sc (r + 1) k := by
  have hb := h.bounds hr1 hc0 hc1
  have hiff := cellOr_eq_iff grid _ hrect r c (by omega) hb.2.1 hb.2.2.1 hb.2.2.2 '^'
  obtain ⟨_, _, hr, hcase⟩ := hf
  by_cases hs : cellOr grid r c = '^'
  · rw [if_pos hs] at hcase
    rcases hcase with ⟨hk, hk0⟩ | ⟨hk, hk1⟩
    · subst hk; exact Reached.left h (hiff.mp hs) hr hk0
    · subst hk; exact Reached.right h (hiff.mp hs) hr hk1
  · rw [if_neg hs] at hcase
    subst hcase
    exact Reached.down h (fun hh => hs (hiff.mpr hh)) hr

theorem Reached.pred {grid : Grid} {sr sc r' k : Int}
    (hrect : Rectangular grid (gridWidth grid))
    (hr1 : sr < grid.length) (hc0 : 0 ≤ sc) (hc1 : sc < gridWidth grid) (hsr : 0 ≤ sr)
    (h : Reached grid sr sc r' k) : sr < r' →
    ∃ c, Reached grid sr sc (r' - 1) c ∧ Feeds grid grid.length (gridWidth grid) (r' - 1) c k := by
  induction h with
  | start => intro hlt; omega
  | @down r c hp hs hr _ =>
    intro _
    have hb := hp.bounds hr1 hc0 hc1
    have hiff := cellOr_eq_iff grid _ hrect r c (by omega) hb.2.1 hb.2.2.1 hb.2.2.2 '^'
    simp only [add_sub_cancel_right]
    refine ⟨c, hp, hb.2.2.1, hb.2.2.2, hr, ?_⟩
    rw [if_neg (fun hh => hs (hiff.mp hh))]
  | @left r c hp hs hr hc _ =>
    intro _
    have hb := hp.bounds hr1 hc0 hc1
    have hiff := cellOr_eq_iff grid _ hrect r c (by omega) hb.2.1 hb.2.2.1 hb.2.2.2 '^'
    simp only [add_sub_cancel_right]
    refine ⟨c, hp, hb.2.2.1, hb.2.2.2, hr, ?_⟩
    rw [if_pos (hiff.mpr hs)]
    exact Or.inl ⟨rfl, hc⟩
  | @right r c hp hs hr hc _ =>
    intro _
    have hb := hp.bounds hr1 hc0 hc1
    have hiff := cellOr_eq_iff grid _ hrect r c (by omega) hb.2.1 hb.2.2.1 hb.2.2.2 '^'
    simp only [add_sub_cancel_right]
    refine ⟨c, hp, hb.2.2.1, hb.2.2.2, hr, ?_⟩
    rw [if_pos (hiff.mpr hs)]
    exact Or.inr ⟨rfl, hc⟩

/-! ## Counting the reached splitters -/

theorem reachedSplittersFrom_finite (grid : Grid) (sr sc r : Int)
    (hr1 : sr < grid.length) (hc0 : 0 ≤ sc) (hc1 : sc < gridWidth grid) :
    (reachedSplittersFrom grid sr sc r).Finite := by
  apply Set.Finite.subset ((Set.finite_Ico sr (grid.length : Int)).prod
    (Set.finite_Ico (0 : Int) (gridWidth grid)))
  intro p hp
  have hb := hp.2.1.bounds hr1 hc0 hc1
  exact ⟨⟨hb.1, hb.2.1⟩, ⟨hb.2.2.1, hb.2.2.2⟩⟩

theorem reachedSplittersFrom_split (grid : Grid) (sr sc r : Int) :
    reachedSplittersFrom grid sr sc r
      = (fun c => (r, c)) '' {c | Reached grid sr sc r c ∧ cellAt grid r c = Except.ok '^'}
        ∪ reachedSplittersFrom grid sr sc (r + 1) := by
  ext p
  obtain ⟨pr, pc⟩ := p
  simp only [reachedSplittersFrom, Set.mem_setOf_eq, Set.mem_union, Set.mem_image, Prod.mk.injEq]
  constructor
  · rintro ⟨h1, h2, h3⟩
    by_cases he : pr = r
    · subst he; exact Or.inl ⟨pc, ⟨h2, h3⟩, rfl, rfl⟩
    · exact Or.inr ⟨by omega, h2, h3⟩
  · rintro (⟨c, ⟨h2, h3⟩, hr, hc⟩ | ⟨h1, h2, h3⟩)
    · subst hr; subst hc; exact ⟨le_refl _, h2, h3⟩
    · exact ⟨by omega, h2, h3⟩

theorem reachedSplittersFrom_disjoint (grid : Grid) (sr sc r : Int) :
    Disjoint ((fun c => (r, c)) '' {c | Reached grid sr sc r c ∧ cellAt grid r c = Except.ok '^'})
      (reachedSplittersFrom grid sr sc (r + 1)) := by
  rw [Set.disjoint_left]
  rintro p ⟨c, _, rfl⟩ hp
  have := hp.1
  simp at this

theorem row_count (grid : Grid) (hrect : Rectangular grid (gridWidth grid)) (sr sc r : Int)
    (hr0 : 0 ≤ r) (hr1 : r < grid.length)
    (active : List (Int × Bool)) (counts : List (Int × Int))
    (hF : Frontier (gridWidth grid) active counts)
    (hkeys : ∀ c, c ∈ mapKeys active ↔ Reached grid sr sc r c) :
    ((mapKeys active).filter
        (fun c => 0 ≤ c ∧ c < gridWidth grid ∧ cellOr grid r c = '^')).length
      = ((fun c => (r, c)) ''
          {c | Reached grid sr sc r c ∧ cellAt grid r c = Except.ok '^'}).ncard := by
  have hinj : Function.Injective (fun c : Int => (r, c)) := by
    intro x y hxy; simpa using hxy
  rw [Set.ncard_image_of_injective _ hinj]
  have hnd : ((mapKeys active).filter
      (fun c => 0 ≤ c ∧ c < gridWidth grid ∧ cellOr grid r c = '^')).Nodup :=
    hF.2.1.filter _
  have hset : {c | Reached grid sr sc r c ∧ cellAt grid r c = Except.ok '^'}
      = ↑((mapKeys active).filter
          (fun c => 0 ≤ c ∧ c < gridWidth grid ∧ cellOr grid r c = '^')).toFinset := by
    ext c
    simp only [Set.mem_setOf_eq, List.coe_toFinset, List.mem_filter, decide_eq_true_eq, hkeys]
    constructor
    · rintro ⟨h1, h2⟩
      have hb := hF.2.2 c ((hkeys c).mpr h1)
      exact ⟨h1, hb.1, hb.2, (cellOr_eq_iff grid _ hrect r c hr0 hr1 hb.1 hb.2 _).mpr h2⟩
    · rintro ⟨h1, h2, h3, h4⟩
      exact ⟨h1, (cellOr_eq_iff grid _ hrect r c hr0 hr1 h2 h3 _).mp h4⟩
  rw [hset, Set.ncard_coe_Finset, List.toFinset_card_of_nodup hnd]

theorem sweep_splits (a : Arith) (ord : KeyOrder) (grid : Grid)
    (hrect : Rectangular grid (gridWidth grid)) (sr sc : Int)
    (hsr0 : 0 ≤ sr) (hsr1 : sr < grid.length) (hc0 : 0 ≤ sc) (hc1 : sc < gridWidth grid)
    (fuel : Nat) : ∀ (r : Int) (active : List (Int × Bool)) (counts : List (Int × Int))
    (S T : Int), sr ≤ r → r < grid.length → Frontier (gridWidth grid) active counts →
    (∀ c, c ∈ mapKeys active ↔ Reached grid sr sc r c) →
    ((grid.length : Int) - r).toNat ≤ fuel →
    (sweep a ord grid grid.length (gridWidth grid) fuel r active counts S T).map Prod.fst
      = Except.ok (S + ((reachedSplittersFrom grid sr sc r).ncard : Int)) := by
  induction fuel with
  | zero => intro r active counts S T hr0 hr1 hF hkeys hfuel; omega
  | succ fuel ih =>
    intro r active counts S T hr0 hr1 hF hkeys hfuel
    rw [sweep_succ a ord grid _ r hrect (by omega) hr1]
    have hsp := rowResult_splits a ord grid grid.length (gridWidth grid) r active counts S T
    rw [row_count grid hrect sr sc r (by omega) hr1 active counts hF hkeys] at hsp
    have hcard : (reachedSplittersFrom grid sr sc r).ncard
        = ((fun c => (r, c)) ''
            {c | Reached grid sr sc r c ∧ cellAt grid r c = Except.ok '^'}).ncard
          + (reachedSplittersFrom grid sr sc (r + 1)).ncard := by
      have hfin := reachedSplittersFrom_finite grid sr sc r hsr1 hc0 hc1
      rw [reachedSplittersFrom_split grid sr sc r] at hfin ⊢
      exact Set.ncard_union_eq (reachedSplittersFrom_disjoint grid sr sc r)
        (hfin.subset Set.subset_union_left) (hfin.subset Set.subset_union_right)
    have hnext : ∀ k, k ∈ mapKeys (rowResult a ord grid grid.length (gridWidth grid) r active
        counts S T).nextCols ↔ Reached grid sr sc (r + 1) k := by
      intro k
      rw [rowResult_mem]
      constructor
      · rintro ⟨c, hc, hf⟩
        exact Reached.of_feeds hrect hsr1 hc0 hc1 hsr0 ((hkeys c).mp hc) hf
      · intro hk
        obtain ⟨c, hc, hf⟩ := Reached.pred hrect hsr1 hc0 hc1 hsr0 hk (by omega)
        simp only [add_sub_cancel_right] at hc hf
        exact ⟨c, (hkeys c).mpr hc, hf⟩
    split_ifs with hemp
    · have hzero : reachedSplittersFrom grid sr sc (r + 1) = ∅ := by
        rw [Set.eq_empty_iff_forall_not_mem]
        rintro p ⟨hp1, hp2, _⟩
        obtain ⟨c0, hc0'⟩ := hp2.row_above (r + 1) (by omega) hp1
        have hmem := (hnext c0).mpr hc0'
        rw [List.length_eq_zero.mp hemp] at hmem
        simp at hmem
      rw [hcard, hzero, hsp]
      simp [Except.map]
    · have hr2 := rowResult_nonempty _ _ _ _ _ _ _ _ _ _ hemp
      rw [ih (r + 1) _ _ _ _ (by omega) hr2 (rowResult_frontier _ _ _ _ _ _ _ _ _ _) hnext
        (by omega), hsp, hcard]
      push_cast
      rw [add_assoc]

theorem reachedSplittersFrom_start (grid : Grid) (sr sc : Int)
    (hr1 : sr < grid.length) (hc0 : 0 ≤ sc) (hc1 : sc < gridWidth grid) :
    reachedSplittersFrom grid sr sc sr = reachedSplitters grid sr sc := by
  ext p
  simp only [reachedSplittersFrom, reachedSplitters, Set.mem_setOf_eq, and_iff_right_iff_imp]
  intro h
  exact (h.1.bounds hr1 hc0 hc1).1

theorem Reached.start_row {grid : Grid} {sr sc r c : Int} (h : Reached grid sr sc r c)
    (hr1 : sr < grid.length) (hc0 : 0 ≤ sc) (hc1 : sc < gridWidth grid) :
    r = sr → c = sc := by
  induction h with
  | start => intro _; rfl
  | down hp _ _ _ => intro he; have := (hp.bounds hr1 hc0 hc1).1; omega
  | left hp _ _ _ _ => intro he; have := (hp.bounds hr1 hc0 hc1).1; omega
  | right hp _ _ _ _ => intro he; have := (hp.bounds hr1 hc0 hc1).1; omega

theorem reached_start_iff (grid : Grid) (sr sc c : Int)
    (hr1 : sr < grid.length) (hc0 : 0 ≤ sc) (hc1 : sc < gridWidth grid) :
    c ∈ mapKeys [(sc, true)] ↔ Reached grid sr sc sr c := by
  simp only [mapKeys_cons, mapKeys_nil, List.mem_singleton]
  constructor
  · intro h; subst h; exact Reached.start
  · intro h
    exact h.start_row hr1 hc0 hc1 rfl

theorem solveTotals_splits (a : Arith) (ord : KeyOrder) (grid : Grid) (sr sc : Int)
    (hne : grid ≠ []) (hrect : Rectangular grid (gridWidth grid))
    (hr0 : 0 ≤ sr) (hr1 : sr < grid.length) (hc0 : 0 ≤ sc) (hc1 : sc < gridWidth grid) :
    (solveTotals a ord grid sr sc).map Prod.fst
      = Except.ok ((reachedSplitters grid sr sc).ncard : Int) := by
  rw [solveTotals_eq _ _ _ _ _ hne,
    sweep_splits a ord grid hrect sr sc hr0 hr1 hc0 hc1 _ sr _ _ 0 0 (le_refl _) hr1
      (frontier_start _ sc hc0 hc1) (fun c => reached_start_iff grid sr sc c hr1 hc0 hc1)
      (le_refl _),
    reachedSplittersFrom_start grid sr sc hr1 hc0 hc1]
  simp

/-! ## The `int64` run is the wrapped unbounded run -/

@[simp] theorem wrapMap_nil : wrapMap [] = [] := rfl

theorem getCount_wrapMap (m : List (Int × Int)) (k : Int) :
    getCount (wrapMap m) k = wrap64 (getCount m k) := by
  induction m with
  | nil => rfl
  | cons p m ih =>
    obtain ⟨q, v⟩ := p
    by_cases h : q = k
    · simp [wrapMap, getCount, mapGet?, h]
    · have := ih
      simp only [wrapMap, getCount] at this
      simp [wrapMap, getCount, mapGet?, h, this]

theorem mapSet_wrapMap (m : List (Int × Int)) (k v : Int) :
    mapSet (wrapMap m) k (wrap64 v) = wrapMap (mapSet m k v) := by
  induction m with
  | nil => rfl
  | cons p m ih =>
    obtain ⟨q, w⟩ := p
    by_cases h : q = k
    · simp [wrapMap, mapSet, h]
    · have := ih
      simp only [wrapMap] at this
      simp [wrapMap, mapSet, h, this]

theorem wrap64_add_congr {x y y' : Int} (h : wrap64 y' = wrap64 y) :
    wrap64 (wrap64 x + y') = wrap64 (x + y) := by
  rw [wrap64_add_left, ← wrap64_add_right, h, wrap64_add_right]

theorem addNext_wrapAcc (acc : RowAcc) (k w w' : Int) (h : wrap64 w' = wrap64 w) :
    addNext Arith.int64 (wrapAcc acc) k w' = wrapAcc (addNext Arith.unbounded acc k w) := by
  simp only [addNext, wrapAcc, norm_int64, norm_unbounded, getCount_wrapMap,
    wrap64_add_congr h, mapSet_wrapMap]

theorem finish_wrapAcc (acc : RowAcc) (w w' : Int) (h : wrap64 w' = wrap64 w) :
    finish Arith.int64 (wrapAcc acc) w' = wrapAcc (finish Arith.unbounded acc w) := by
  simp only [finish, wrapAcc, norm_int64, norm_unbounded, wrap64_add_congr h]

theorem wrapAcc_splits (acc : RowAcc) (s : Int) :
    ({ wrapAcc acc with splits := s } : RowAcc) = wrapAcc { acc with splits := s } := rfl

theorem applyCell_wrapAcc (height width r : Int) (cell : Char) (w w' : Int)
    (h : wrap64 w' = wrap64 w) (acc : RowAcc) (c : Int) :
    applyCell Arith.int64 height width r cell w' (wrapAcc acc) c
      = wrapAcc (applyCell Arith.unbounded height width r cell w acc c) := by
  have h2 : wrap64 (wrap64 (w' * 2)) = wrap64 (w * 2) := by
    rw [wrap64_idem, ← wrap64_mul_two, h, wrap64_mul_two]
  unfold applyCell
  have hs : (wrapAcc acc).splits = acc.splits := rfl
  split_ifs <;>
    simp only [wrapAcc_splits, hs, norm_int64, norm_unbounded, addNext_wrapAcc _ _ _ _ h,
      finish_wrapAcc _ _ _ h, finish_wrapAcc _ _ _ h2]

theorem visit_wrapAcc (grid : Grid) (height width r : Int) (counts counts' : List (Int × Int))
    (hc : ∀ c, wrap64 (getCount counts' c) = wrap64 (getCount counts c))
    (acc : RowAcc) (c : Int) :
    visit Arith.int64 grid height width r counts' (wrapAcc acc) c
      = (visit Arith.unbounded grid height width r counts acc c).map wrapAcc := by
  unfold visit
  split_ifs
  · rfl
  · cases cellAt grid r c with
    | error e => rfl
    | ok cell =>
      simp only [Except.map]
      rw [applyCell_wrapAcc height width r cell _ _ (hc c)]

theorem visitAll_wrapAcc (grid : Grid) (height width r : Int) (counts counts' : List (Int × Int))
    (hc : ∀ c, wrap64 (getCount counts' c) = wrap64 (getCount counts c))
    (ks : List Int) (acc : RowAcc) :
    visitAll Arith.int64 grid height width r counts' ks (wrapAcc acc)
      = (visitAll Arith.unbounded grid height width r counts ks acc).map wrapAcc := by
  induction ks generalizing acc with
  | nil => rfl
  | cons c cs ih =>
    simp only [visitAll, visit_wrapAcc grid height width r counts counts' hc]
    cases visit Arith.unbounded grid height width r counts acc c with
    | error e => rfl
    | ok acc1 => simp only [Except.map]; exact ih acc1

theorem processRow_wrapAcc (ord : KeyOrder) (grid : Grid) (height width r : Int)
    (active : List (Int × Bool)) (counts counts' : List (Int × Int))
    (hc : ∀ c, wrap64 (getCount counts' c) = wrap64 (getCount counts c)) (S T : Int) :
    processRow Arith.int64 ord grid height width r active counts' S (wrap64 T)
      = (processRow Arith.unbounded ord grid height width r active counts S T).map wrapAcc := by
  unfold processRow
  exact visitAll_wrapAcc grid height width r counts counts' hc _ ⟨[], [], S, T⟩

theorem sweep_wrap (ord : KeyOrder) (grid : Grid) (height width : Int) (fuel : Nat) :
    ∀ (r : Int) (active : List (Int × Bool)) (counts : List (Int × Int)) (S T : Int),
    sweep Arith.int64 ord grid height width fuel r active (wrapMap counts) S (wrap64 T)
      = (sweep Arith.unbounded ord grid height width fuel r active counts S T).map
          (fun p => (p.1, wrap64 p.2)) := by
  induction fuel with
  | zero =>
    intro r active counts S T
    unfold sweep
    split_ifs <;> rfl
  | succ fuel ih =>
    intro r active counts S T
    conv_lhs => unfold sweep
    conv_rhs => unfold sweep
    split_ifs with hr
    · simp only
      rw [processRow_wrapAcc ord grid height width r active counts (wrapMap counts)
        (fun c => by rw [getCount_wrapMap, wrap64_idem]) S T]
      cases processRow Arith.unbounded ord grid height width r active counts S T with
      | error e => rfl
      | ok acc =>
        simp only [Except.map]
        have h1 : (wrapAcc acc).nextCols = acc.nextCols := rfl
        have h2 : (wrapAcc acc).splits = acc.splits := rfl
        have h3 : (wrapAcc acc).nextTimelineCounts = wrapMap acc.nextTimelineCounts := rfl
        have h4 : (wrapAcc acc).totalFinishedTimelines = wrap64 acc.totalFinishedTimelines := rfl
        rw [h1, h2, h3, h4]
        split_ifs
        · rfl
        · exact ih _ _ _ _ _
    · rfl

theorem solveTotals_int64 (ord : KeyOrder) (grid : Grid) (sr sc : Int) :
    solveTotals Arith.int64 ord grid sr sc
      = (solveTotals Arith.unbounded ord grid sr sc).map (fun p => (p.1, wrap64 p.2)) := by
  unfold solveTotals
  cases index grid 0 with
  | error e => rfl
  | ok row0 =>
    exact sweep_wrap ord grid _ _ _ sr [(sc, true)] [(sc, 1)] 0 0

/-! ## The total as a sum over the splitter encounters -/

theorem sweepFrontiers_succ (a : Arith) (ord : KeyOrder) (grid : Grid) (width r : Int)
    (hrect : Rectangular grid width) (hr0 : 0 ≤ r) (hr1 : r < grid.length) (fuel : Nat)
    (active : List (Int × Bool)) (counts : List (Int × Int)) (S T : Int) :
    sweepFrontiers a ord grid grid.length width (fuel + 1) r active counts S T
      = if (rowResult a ord grid grid.length width r active counts S T).nextCols.length = 0 then
          Except.ok [(r, active, counts)]
        else
          (sweepFrontiers a ord grid grid.length width fuel (r + 1)
            (rowResult a ord grid grid.length width r active counts S T).nextCols
            (rowResult a ord grid grid.length width r active counts S T).nextTimelineCounts
            (rowResult a ord grid grid.length width r active counts S T).splits
            (rowResult a ord grid grid.length width r active counts S T).totalFinishedTimelines).map
            (fun rest => (r, active, counts) :: rest) := by
  conv_lhs => unfold sweepFrontiers
  rw [if_pos hr1]
  simp only [processRow_eq a ord grid grid.length width r hrect hr0 hr1]
  split_ifs
  · rfl
  · cases sweepFrontiers a ord grid grid.length width fuel (r + 1)
        (rowResult a ord grid grid.length width r active counts S T).nextCols
        (rowResult a ord grid grid.length width r active counts S T).nextTimelineCounts
        (rowResult a ord grid grid.length width r active counts S T).splits
        (rowResult a ord grid grid.length width r active counts S T).totalFinishedTimelines with
    | error e => rfl
    | ok rest => rfl

theorem sum_map_ite_add (L : List Int) (p : Int → Prop) [DecidablePred p] (w : Int → Int) :
    (L.map (fun c => if p c then w c * (1 + 1) else w c * 1)).sum
      = (L.map w).sum + ((L.filter (fun c => p c)).map w).sum := by
  induction L with
  | nil => simp
  | cons c cs ih =>
    by_cases h : p c
    · rw [List.filter_cons_of_pos (by simpa using h)]
      simp only [List.map_cons, List.sum_cons, ih, if_pos h]; ring
    · rw [List.filter_cons_of_neg (by simpa using h)]
      simp only [List.map_cons, List.sum_cons, ih, if_neg h]; ring

theorem gain_one (grid : Grid) (hrect : Rectangular grid (gridWidth grid)) (r c : Int)
    (hr0 : 0 ≤ r) (hr1 : r < grid.length) (hc0 : 0 ≤ c) (hc1 : c < gridWidth grid)
    (counts : List (Int × Int)) :
    gain grid grid.length (gridWidth grid) r counts (fun _ => 1) 1 c
      = if (0 ≤ c ∧ c < gridWidth grid ∧ cellAt grid r c = Except.ok '^')
          then getCount counts c * (1 + 1) else getCount counts c * 1 := by
  have hl : ∀ k, landing grid.length (gridWidth grid) r (fun _ => 1) 1 k = 1 := by
    intro k; unfold landing; split_ifs <;> rfl
  unfold gain
  rw [if_neg (by omega)]
  simp only [hl]
  by_cases hs : cellOr grid r c = '^'
  · rw [if_pos hs, if_pos ⟨hc0, hc1, (cellOr_eq_iff grid _ hrect r c hr0 hr1 hc0 hc1 _).mp hs⟩]
  · rw [if_neg hs, if_neg (fun h => hs ((cellOr_eq_iff grid _ hrect r c hr0 hr1 hc0 hc1 _).mpr h.2.2))]

theorem row_doubling (ord : KeyOrder) (grid : Grid) (hrect : Rectangular grid (gridWidth grid))
    (r : Int) (hr0 : 0 ≤ r) (hr1 : r < grid.length)
    (active : List (Int × Bool)) (counts : List (Int × Int))
    (hF : Frontier (gridWidth grid) active counts) (S T : Int) :
    (rowResult Arith.unbounded ord grid grid.length (gridWidth grid) r active counts S
        T).totalFinishedTimelines
      + mapSum (fun _ => 1) (rowResult Arith.unbounded ord grid grid.length (gridWidth grid) r
          active counts S T).nextTimelineCounts
      = T + mapSum (fun _ => 1) counts + encounterWeight grid (gridWidth grid) r active counts := by
  have hval := rowResult_value ord grid grid.length (gridWidth grid) r active counts S T
    (fun _ => 1) 1
  simp only [one_mul] at hval
  rw [hval, add_assoc]
  congr 1
  have h1 : (mapKeys active).map (gain grid grid.length (gridWidth grid) r counts (fun _ => 1) 1)
      = (mapKeys active).map (fun c =>
          if (0 ≤ c ∧ c < gridWidth grid ∧ cellAt grid r c = Except.ok '^')
          then getCount counts c * (1 + 1) else getCount counts c * 1) := by
    apply List.map_congr_left
    intro c hc
    exact gain_one grid hrect r c hr0 hr1 (hF.2.2 c hc).1 (hF.2.2 c hc).2 counts
  rw [h1, sum_map_ite_add, mapSum_keys _ counts (hF.1 ▸ hF.2.1), hF.1]
  simp only [mul_one]
  rfl

theorem sweep_encounters (ord : KeyOrder) (grid : Grid)
    (hrect : Rectangular grid (gridWidth grid)) (fuel : Nat) :
    ∀ (r : Int) (active : List (Int × Bool)) (counts : List (Int × Int))
    (S T : Int), 0 ≤ r → r < grid.length → Frontier (gridWidth grid) active counts →
    ((grid.length : Int) - r).toNat ≤ fuel →
    ∃ frontiers,
      sweepFrontiers Arith.unbounded ord grid grid.length (gridWidth grid) fuel r active counts
          S T = Except.ok frontiers ∧
      (sweep Arith.unbounded ord grid grid.length (gridWidth grid) fuel r active counts S T).map
          Prod.snd
        = Except.ok (T + mapSum (fun _ => 1) counts
            + encounterTotal grid (gridWidth grid) frontiers) := by
  induction fuel with
  | zero => intro r active counts S T hr0 hr1 hF hfuel; omega
  | succ fuel ih =>
    intro r active counts S T hr0 hr1 hF hfuel
    rw [sweep_succ Arith.unbounded ord grid _ r hrect hr0 hr1,
      sweepFrontiers_succ Arith.unbounded ord grid _ r hrect hr0 hr1]
    have hd := row_doubling ord grid hrect r hr0 hr1 active counts hF S T
    split_ifs with hemp
    · refine ⟨[(r, active, counts)], rfl, ?_⟩
      rw [rowResult_empty_counts _ _ _ _ _ _ _ _ _ _ hemp] at hd
      simp only [mapSum_nil, add_zero] at hd
      simp [Except.map, hd, encounterTotal]
    · have hr2 := rowResult_nonempty _ _ _ _ _ _ _ _ _ _ hemp
      obtain ⟨rest, hrest, htot⟩ := ih (r + 1) _ _
        (rowResult Arith.unbounded ord grid grid.length (gridWidth grid) r active counts S
          T).splits
        (rowResult Arith.unbounded ord grid grid.length (gridWidth grid) r active counts S
          T).totalFinishedTimelines (by omega) hr2
        (rowResult_frontier _ _ _ _ _ _ _ _ _ _) (by omega)
      refine ⟨(r, active, counts) :: rest, by rw [hrest]; rfl, ?_⟩
      rw [htot, hd]
      simp only [encounterTotal, List.map_cons, List.sum_cons]
      congr 1
      ring

theorem solveFrontiers_eq (a : Arith) (ord : KeyOrder) (grid : Grid) (sr sc : Int)
    (hne : grid ≠ []) :
    solveFrontiers a ord grid sr sc
      = sweepFrontiers a ord grid grid.length (gridWidth grid) ((grid.length : Int) - sr).toNat sr
          [(sc, true)] [(sc, 1)] 0 0 := by
  cases grid with
  | nil => exact absurd rfl hne
  | cons row0 rest => rfl

theorem solveTotals_encounters (ord : KeyOrder) (grid : Grid) (sr sc : Int)
    (hne : grid ≠ []) (hrect : Rectangular grid (gridWidth grid))
    (hr0 : 0 ≤ sr) (hr1 : sr < grid.length) (hc0 : 0 ≤ sc) (hc1 : sc < gridWidth grid) :
    ∃ frontiers,
      solveFrontiers Arith.unbounded ord grid sr sc = Except.ok frontiers ∧
      (solveTotals Arith.unbounded ord grid sr sc).map Prod.snd
        = Except.ok (1 + encounterTotal grid (gridWidth grid) frontiers) := by
  obtain ⟨fr, h1, h2⟩ := sweep_encounters ord grid hrect _ sr _ _ 0 0 hr0 hr1
    (frontier_start _ sc hc0 hc1) (le_refl _)
  refine ⟨fr, by rw [solveFrontiers_eq _ _ _ _ _ hne]; exact h1, ?_⟩
  rw [solveTotals_eq _ _ _ _ _ hne, h2]
  simp

/-! ## Both results of `solve` -/

theorem except_pair {ε α β : Type} (x : Except ε (α × β)) (s : α) (t : β)
    (h1 : x.map Prod.fst = Except.ok s) (h2 : x.map Prod.snd = Except.ok t) :
    x = Except.ok (s, t) := by
  cases x with
  | error e => simp [Except.map] at h1
  | ok p =>
    obtain ⟨p1, p2⟩ := p
    simp only [Except.map, Except.ok.injEq] at h1 h2
    rw [h1, h2]

theorem wrap64_natCast_small (n : Nat) (h : n < 9223372036854775808) : wrap64 (n : Int) = n := by
  apply wrap64_of_range <;> omega

theorem solveTotals_ok (a : Arith) (ord : KeyOrder) (grid : Grid) (sr sc : Int)
    (hne : grid ≠ []) (hrect : Rectangular grid (gridWidth grid))
    (hr0 : 0 ≤ sr) (hr1 : sr < grid.length) (hc0 : 0 ≤ sc) (hc1 : sc < gridWidth grid) :
    solveTotals a ord grid sr sc
      = Except.ok (((reachedSplitters grid sr sc).ncard : Int), a.norm (paths grid sr sc)) := by
  apply except_pair
  · exact solveTotals_splits a ord grid sr sc hne hrect hr0 hr1 hc0 hc1
  · cases a with
    | unbounded => exact solveTotals_paths ord grid sr sc hne hrect hr0 hr1 hc0 hc1
    | int64 =>
      rw [solveTotals_int64]
      have h := solveTotals_paths ord grid sr sc hne hrect hr0 hr1 hc0 hc1
      cases hx : solveTotals Arith.unbounded ord grid sr sc with
      | error e => rw [hx] at h; simp [Except.map] at h
      | ok p =>
        rw [hx] at h
        simp only [Except.map, Except.ok.injEq] at h
        simp only [Except.map, norm_int64, h]

/-! ## Grids with no or one splitter -/

theorem paths_no_splitter (grid : Grid) (n : Nat) : ∀ (r c : Int),
    ((grid.length : Int) - r).toNat ≤ n →
    (∀ r' c', r ≤ r' → cellAt grid r' c' ≠ Except.ok '^') → paths grid r c = 1 := by
  induction n with
  | zero =>
    intro r c hn _
    exact paths_outside grid r c (Or.inl (by omega))
  | succ n ih =>
    intro r c hn hno
    by_cases hin : r < grid.length ∧ 0 ≤ c ∧ c < gridWidth grid
    · rw [paths_inside grid r c hin.1 hin.2.1 hin.2.2, if_neg (hno r c (le_refl _))]
      exact ih (r + 1) c (by omega) (fun r' c' h => hno r' c' (by omega))
    · exact paths_outside grid r c (by omega)

theorem reachedSplitters_no_splitter (grid : Grid) (sr sc : Int)
    (hr1 : sr < grid.length) (hc0 : 0 ≤ sc) (hc1 : sc < gridWidth grid)
    (hno : ∀ r c, sr ≤ r → cellAt grid r c ≠ Except.ok '^') :
    reachedSplitters grid sr sc = ∅ := by
  rw [Set.eq_empty_iff_forall_not_mem]
  rintro p ⟨h1, h2⟩
  exact hno p.1 p.2 (h1.bounds hr1 hc0 hc1).1 h2

theorem reached_straight (grid : Grid) (sr sc : Int) (n : Nat) : ∀ (r : Int), r = sr + n →
    r < grid.length → (∀ r', sr ≤ r' → r' < r → cellAt grid r' sc ≠ Except.ok '^') →
    Reached grid sr sc r sc := by
  induction n with
  | zero =>
    intro r hr _ _
    have : r = sr := by omega
    subst this; exact Reached.start
  | succ n ih =>
    intro r hr hlt hno
    have hprev := ih (r - 1) (by omega) (by omega) (fun r' h1 h2 => hno r' h1 (by omega))
    have := Reached.down hprev (hno (r - 1) (by omega) (by omega)) (by omega)
    simpa using this

theorem reachedSplitters_one (grid : Grid) (sr sc rs : Int)
    (hrs0 : sr ≤ rs) (hrs1 : rs < grid.length)
    (hone : ∀ r c, cellAt grid r c = Except.ok '^' ↔ (r = rs ∧ c = sc)) :
    reachedSplitters grid sr sc = {(rs, sc)} := by
  ext p
  obtain ⟨pr, pc⟩ := p
  simp only [reachedSplitters, Set.mem_setOf_eq, Set.mem_singleton_iff, Prod.mk.injEq]
  constructor
  · rintro ⟨_, h2⟩; exact (hone pr pc).mp h2
  · rintro ⟨rfl, rfl⟩
    refine ⟨?_, (hone pr pc).mpr ⟨rfl, rfl⟩⟩
    apply reached_straight grid sr pc (pr - sr).toNat pr (by omega) hrs1
    intro r' _ h2 hh
    have := ((hone r' pc).mp hh).1
    omega

theorem paths_one_splitter (grid : Grid) (sc rs : Int)
    (hc0 : 0 ≤ sc) (hc1 : sc < gridWidth grid) (hrs1 : rs < grid.length)
    (hone : ∀ r c, cellAt grid r c = Except.ok '^' ↔ (r = rs ∧ c = sc)) (n : Nat) :
    ∀ (r : Int), r = rs - n → paths grid r sc = 2 := by
  induction n with
  | zero =>
    intro r hr
    have : r = rs := by omega
    subst this
    have hbelow : ∀ r' c', r + 1 ≤ r' → cellAt grid r' c' ≠ Except.ok '^' := by
      intro r' c' h hh
      have := ((hone r' c').mp hh).1
      omega
    rw [paths_inside grid r sc hrs1 hc0 hc1, if_pos ((hone r sc).mpr ⟨rfl, rfl⟩),
      paths_no_splitter grid _ (r + 1) (sc - 1) (le_refl _) hbelow,
      paths_no_splitter grid _ (r + 1) (sc + 1) (le_refl _) hbelow]
  | succ n ih =>
    intro r hr
    have hns : cellAt grid r sc ≠ Except.ok '^' := by
      intro hh
      have := ((hone r sc).mp hh).1
      omega
    rw [paths_inside grid r sc (by omega) hc0 hc1, if_neg hns]
    exact ih (r + 1) (by omega)

theorem norm_one (a : Arith) : a.norm 1 = 1 := by cases a <;> rfl

theorem norm_two (a : Arith) : a.norm 2 = 2 := by cases a <;> rfl

/-! ## The example grid -/

theorem index_bounds {α : Type} (xs : List α) (i : Int) (x : α) (h : index xs i = Except.ok x) :
    0 ≤ i ∧ i < xs.length ∧ x ∈ xs := by
  unfold index at h
  split_ifs at h with h0
  cases hg : xs.get? i.toNat with
  | none => rw [hg] at h; simp at h
  | some y =>
    rw [hg] at h
    simp only [Except.ok.injEq] at h
    subst h
    have hlt := (List.get?_eq_some.mp hg).1
    exact ⟨by omega, by omega, List.get?_mem hg⟩

theorem cellAt_bounds (grid : Grid) (width : Int) (hrect : Rectangular grid width) (r c : Int)
    (ch : Char) (h : cellAt grid r c = Except.ok ch) :
    0 ≤ r ∧ r < grid.length ∧ 0 ≤ c ∧ c < width := by
  unfold cellAt at h
  cases hrow : index grid r with
  | error e => rw [hrow] at h; simp at h
  | ok row =>
    rw [hrow] at h
    have h1 := index_bounds grid r row hrow
    have h2 := index_bounds row c ch h
    have h3 := hrect row h1.2.2
    exact ⟨h1.1, h1.2.1, h2.1, by omega⟩

theorem exampleGrid_ne : exampleGrid ≠ [] := by decide

theorem exampleGrid_rect : Rectangular exampleGrid (gridWidth exampleGrid) := by decide

theorem exampleGrid_splitter (r c : Int) :
    cellAt exampleGrid r c = Except.ok '^' ↔ (r = 2 ∧ c = 2) := by
  constructor
  · intro h
    have hb := cellAt_bounds exampleGrid _ exampleGrid_rect r c _ h
    have h4 : (exampleGrid.length : Int) = 4 := by decide
    have h5 : gridWidth exampleGrid = 5 := by decide
    rw [h4, h5] at hb
    obtain ⟨h1, h2, h3, h6⟩ := hb
    interval_cases r <;> interval_cases c <;> first | exact ⟨rfl, rfl⟩ | exact absurd h (by decide)
  · rintro ⟨rfl, rfl⟩; decide

/-! ## One row in either arithmetic -/

theorem stepCol_wrapAcc (grid : Grid) (height width r : Int) (counts : List (Int × Int))
    (acc : RowAcc) (c : Int) :
    stepCol Arith.int64 grid height width r counts (wrapAcc acc) c
      = wrapAcc (stepCol Arith.unbounded grid height width r counts acc c) := by
  unfold stepCol
  split_ifs
  · rfl
  · exact applyCell_wrapAcc height width r _ _ _ rfl acc c

theorem foldl_wrapAcc (grid : Grid) (height width r : Int) (counts : List (Int × Int))
    (ks : List Int) (acc : RowAcc) :
    ks.foldl (stepCol Arith.int64 grid height width r counts) (wrapAcc acc)
      = wrapAcc (ks.foldl (stepCol Arith.unbounded grid height width r counts) acc) := by
  induction ks generalizing acc with
  | nil => rfl
  | cons c cs ih => rw [List.foldl_cons, List.foldl_cons, stepCol_wrapAcc, ih]

theorem stepCol_maps_congr (a : Arith) (grid : Grid) (height width r : Int)
    (counts : List (Int × Int)) (acc acc' : RowAcc) (c : Int)
    (h1 : acc.nextCols = acc'.nextCols)
    (h2 : acc.nextTimelineCounts = acc'.nextTimelineCounts) :
    (stepCol a grid height width r counts acc c).nextCols
        = (stepCol a grid height width r counts acc' c).nextCols
      ∧ (stepCol a grid height width r counts acc c).nextTimelineCounts
        = (stepCol a grid height width r counts acc' c).nextTimelineCounts := by
  unfold stepCol applyCell
  split_ifs <;> simp [addNext, finish, h1, h2]

theorem foldl_maps_congr (a : Arith) (grid : Grid) (height width r : Int)
    (counts : List (Int × Int)) (ks : List Int) (acc acc' : RowAcc)
    (h1 : acc.nextCols = acc'.nextCols)
    (h2 : acc.nextTimelineCounts = acc'.nextTimelineCounts) :
    (ks.foldl (stepCol a grid height width r counts) acc).nextCols
        = (ks.foldl (stepCol a grid height width r counts) acc').nextCols
      ∧ (ks.foldl (stepCol a grid height width r counts) acc).nextTimelineCounts
        = (ks.foldl (stepCol a grid height width r counts) acc').nextTimelineCounts := by
  induction ks generalizing acc acc' with
  | nil => exact ⟨h1, h2⟩
  | cons c cs ih =>
    rw [List.foldl_cons, List.foldl_cons]
    have h := stepCol_maps_congr a grid height width r counts acc acc' c h1 h2
    exact ih _ _ h.1 h.2

theorem mapGet?_wrapMap (m : List (Int × Int)) (k : Int) :
    mapGet? (wrapMap m) k = (mapGet? m k).map wrap64 := by
  induction m with
  | nil => rfl
  | cons p m ih =>
    obtain ⟨q, v⟩ := p
    have := ih
    simp only [wrapMap] at this
    by_cases h : q = k
    · simp [wrapMap, mapGet?, h]
    · simp [wrapMap, mapGet?, h, this]

theorem rowResult_counts (a : Arith) (ord : KeyOrder) (grid : Grid) (height width r : Int)
    (active : List (Int × Bool)) (counts : List (Int × Int)) (S T : Int) (k : Int) :
    mapGet? (rowResult a ord grid height width r active counts S T).nextTimelineCounts k
      = (mapGet? (rowResult Arith.unbounded ord grid height width r active counts S
          T).nextTimelineCounts k).map a.norm := by
  cases a with
  | unbounded =>
    have : Arith.unbounded.norm = id := rfl
    rw [this, Option.map_id]; rfl
  | int64 =>
    have h1 := (foldl_maps_congr Arith.int64 grid height width r counts
      (ord.enum r (mapKeys active)) ⟨[], [], S, T⟩ (wrapAcc ⟨[], [], S, T⟩) rfl rfl).2
    unfold rowResult
    rw [h1, foldl_wrapAcc]
    exact mapGet?_wrapMap _ k

theorem rowResult_total (a : Arith) (ord : KeyOrder) (grid : Grid) (height width r : Int)
    (active : List (Int × Bool)) (counts : List (Int × Int)) (S T : Int)
    (hT : a.norm T = T) :
    (rowResult a ord grid height width r active counts S T).totalFinishedTimelines
      = a.norm (rowResult Arith.unbounded ord grid height width r active counts S
          T).totalFinishedTimelines := by
  cases a with
  | unbounded => rfl
  | int64 =>
    have h0 : (⟨[], [], S, T⟩ : RowAcc) = wrapAcc ⟨[], [], S, T⟩ := by
      simp only [wrapAcc, wrapMap_nil]
      rw [show wrap64 T = T from hT]
    unfold rowResult
    rw [h0, foldl_wrapAcc]
    simp only [wrapAcc, wrapMap_nil]
    rw [show wrap64 T = T from hT]
    rfl

theorem mapGet?_of_mem (m : List (Int × Int)) (k : Int) (h : k ∈ mapKeys m) :
    mapGet? m k = some (getCount m k) := by
  cases hg : mapGet? m k with
  | none => exact absurd h ((mapGet?_eq_none_iff m k).mp hg)
  | some v => simp [getCount, hg]

@[simp] theorem mapSum_zero (m : List (Int × Int)) : mapSum (fun _ => 0) m = 0 := by
  induction m with
  | nil => rfl
  | cons p m ih => simp [ih]

theorem sum_map_ite_eq (L : List Int) (hL : L.Nodup) (x : Int) (p : Int → Prop)
    [DecidablePred p] (g : Int → Int) :
    (L.map (fun c => if c = x ∧ p c then g c else 0)).sum
      = if x ∈ L ∧ p x then g x else 0 := by
  induction L with
  | nil => simp
  | cons c cs ih =>
    rw [List.nodup_cons] at hL
    rw [List.map_cons, List.sum_cons, ih hL.2]
    by_cases hc : c = x
    · subst hc
      by_cases hp : p c
      · simp [hp, hL.1]
      · simp [hp]
    · have hx : x ≠ c := fun e => hc e.symm
      simp [hc, hx]

theorem sum_map_ite_filter (L : List Int) (p : Int → Prop) [DecidablePred p] (g : Int → Int) :
    (L.map (fun c => if p c then g c else 0)).sum = ((L.filter (fun c => p c)).map g).sum := by
  induction L with
  | nil => simp
  | cons c cs ih =>
    by_cases h : p c
    · rw [List.filter_cons_of_pos (by simpa using h)]
      simp only [List.map_cons, List.sum_cons, ih, if_pos h]
    · rw [List.filter_cons_of_neg (by simpa using h)]
      simp only [List.map_cons, List.sum_cons, ih, if_neg h, zero_add]

/-! ## What one row does, with unbounded integers -/

theorem landing_indicator (height width r k : Int) (hr1 : r + 1 < height)
    (hk0 : 0 ≤ k) (hk1 : k < width) (j : Int) :
    landing height width r (fun j => if j = k then 1 else 0) 0 j = if j = k then 1 else 0 := by
  unfold landing
  by_cases h : j = k
  · subst h; rw [if_pos ⟨hr1, hk0, hk1⟩]
  · simp only [if_neg h, ite_self]

theorem gain_indicator (grid : Grid) (hrect : Rectangular grid (gridWidth grid)) (r c k : Int)
    (hr0 : 0 ≤ r) (hr1 : r + 1 < grid.length) (hc0 : 0 ≤ c) (hc1 : c < gridWidth grid)
    (hk0 : 0 ≤ k) (hk1 : k < gridWidth grid) (counts : List (Int × Int)) :
    gain grid grid.length (gridWidth grid) r counts (fun j => if j = k then 1 else 0) 0 c
      = (if c = k ∧ cellAt grid r c ≠ Except.ok '^' then getCount counts c else 0)
        + (if c = k - 1 ∧ cellAt grid r c = Except.ok '^' then getCount counts c else 0)
        + (if c = k + 1 ∧ cellAt grid r c = Except.ok '^' then getCount counts c else 0) := by
  have hiff := cellOr_eq_iff grid _ hrect r c hr0 (by omega) hc0 hc1 '^'
  unfold gain
  rw [if_neg (by omega)]
  simp only [landing_indicator _ _ r k hr1 hk0 hk1]
  by_cases hs : cellOr grid r c = '^'
  · have hs' := hiff.mp hs
    simp only [if_pos hs, hs', not_true_eq_false, and_false, if_false, and_true, zero_add, ne_eq]
    split_ifs <;> omega
  · have hs' : cellAt grid r c ≠ Except.ok '^' := fun h => hs (hiff.mpr h)
    simp only [if_neg hs, hs', ne_eq, not_false_eq_true, and_true, and_false, if_false, add_zero]
    split_ifs <;> ring

theorem sum_map_add3 (L : List Int) (f g h : Int → Int) :
    (L.map (fun c => f c + g c + h c)).sum = (L.map f).sum + (L.map g).sum + (L.map h).sum := by
  induction L with
  | nil => simp
  | cons c cs ih => simp only [List.map_cons, List.sum_cons, ih]; ring

theorem sum_gain_indicator (grid : Grid) (hrect : Rectangular grid (gridWidth grid)) (r k : Int)
    (hr0 : 0 ≤ r) (hr1 : r + 1 < grid.length) (hk0 : 0 ≤ k) (hk1 : k < gridWidth grid)
    (active : List (Int × Bool)) (counts : List (Int × Int))
    (hF : Frontier (gridWidth grid) active counts) :
    ((mapKeys active).map (gain grid grid.length (gridWidth grid) r counts
        (fun j => if j = k then 1 else 0) 0)).sum
      = incoming grid r active counts k := by
  have h1 : (mapKeys active).map (gain grid grid.length (gridWidth grid) r counts
        (fun j => if j = k then 1 else 0) 0)
      = (mapKeys active).map (fun c =>
        (if c = k ∧ cellAt grid r c ≠ Except.ok '^' then getCount counts c else 0)
        + (if c = k - 1 ∧ cellAt grid r c = Except.ok '^' then getCount counts c else 0)
        + (if c = k + 1 ∧ cellAt grid r c = Except.ok '^' then getCount counts c else 0)) := by
    apply List.map_congr_left
    intro c hc
    exact gain_indicator grid hrect r c k hr0 hr1 (hF.2.2 c hc).1 (hF.2.2 c hc).2 hk0 hk1 counts
  rw [h1, sum_map_add3,
    sum_map_ite_eq _ hF.2.1 k (fun c => cellAt grid r c ≠ Except.ok '^'),
    sum_map_ite_eq _ hF.2.1 (k - 1) (fun c => cellAt grid r c = Except.ok '^'),
    sum_map_ite_eq _ hF.2.1 (k + 1) (fun c => cellAt grid r c = Except.ok '^')]
  rfl

theorem feeds_iff_fedBy (grid : Grid) (hrect : Rectangular grid (gridWidth grid)) (r k : Int)
    (hr0 : 0 ≤ r) (hr1 : r + 1 < grid.length) (hk0 : 0 ≤ k) (hk1 : k < gridWidth grid)
    (active : List (Int × Bool)) (counts : List (Int × Int))
    (hF : Frontier (gridWidth grid) active counts) :
    (∃ c ∈ mapKeys active, Feeds grid grid.length (gridWidth grid) r c k)
      ↔ fedBy grid r active k := by
  have hiff : ∀ c ∈ mapKeys active, (cellOr grid r c = '^' ↔ cellAt grid r c = Except.ok '^') :=
    fun c hc => cellOr_eq_iff grid _ hrect r c hr0 (by omega) (hF.2.2 c hc).1 (hF.2.2 c hc).2 '^'
  unfold fedBy
  constructor
  · rintro ⟨c, hc, _, _, _, hcase⟩
    by_cases hs : cellOr grid r c = '^'
    · rw [if_pos hs] at hcase
      have hs' := (hiff c hc).mp hs
      rcases hcase with ⟨hk, _⟩ | ⟨hk, _⟩
      · have : c = k + 1 := by omega
        subst this; exact Or.inr (Or.inr ⟨hc, hs'⟩)
      · have : c = k - 1 := by omega
        subst this; exact Or.inr (Or.inl ⟨hc, hs'⟩)
    · rw [if_neg hs] at hcase
      subst hcase
      exact Or.inl ⟨hc, fun h => hs ((hiff k hc).mpr h)⟩
  · rintro (⟨hc, hs⟩ | ⟨hc, hs⟩ | ⟨hc, hs⟩)
    · refine ⟨k, hc, hk0, hk1, hr1, ?_⟩
      rw [if_neg (fun h => hs ((hiff k hc).mp h))]
    · have hb := hF.2.2 _ hc
      refine ⟨k - 1, hc, hb.1, hb.2, hr1, ?_⟩
      rw [if_pos ((hiff _ hc).mpr hs)]
      exact Or.inr ⟨by omega, by omega⟩
    · have hb := hF.2.2 _ hc
      refine ⟨k + 1, hc, hb.1, hb.2, hr1, ?_⟩
      rw [if_pos ((hiff _ hc).mpr hs)]
      exact Or.inl ⟨by omega, by omega⟩

theorem rowResult_merge (a : Arith) (ord : KeyOrder) (grid : Grid)
    (hrect : Rectangular grid (gridWidth grid)) (r k : Int)
    (hr0 : 0 ≤ r) (hr1 : r + 1 < grid.length) (hk0 : 0 ≤ k) (hk1 : k < gridWidth grid)
    (active : List (Int × Bool)) (counts : List (Int × Int))
    (hF : Frontier (gridWidth grid) active counts) (S T : Int) :
    mapGet? (rowResult a ord grid grid.length (gridWidth grid) r active counts S
        T).nextTimelineCounts k
      = if fedBy grid r active k then some (a.norm (incoming grid r active counts k))
        else none := by
  rw [rowResult_counts]
  have hFr := rowResult_frontier Arith.unbounded ord grid grid.length (gridWidth grid) r active
    counts S T
  have hmem := rowResult_mem Arith.unbounded ord grid grid.length (gridWidth grid) r active
    counts S T k
  rw [feeds_iff_fedBy grid hrect r k hr0 hr1 hk0 hk1 active counts hF, ← hFr.1] at hmem
  by_cases hfed : fedBy grid r active k
  · rw [if_pos hfed, mapGet?_of_mem _ k (hmem.mpr hfed)]
    have hval := rowResult_value ord grid grid.length (gridWidth grid) r active counts S T
      (fun j => if j = k then 1 else 0) 0
    rw [mapSum_indicator _ k (hFr.1 ▸ hFr.2.1),
      sum_gain_indicator grid hrect r k hr0 hr1 hk0 hk1 active counts hF] at hval
    simp only [zero_mul, zero_add] at hval
    rw [hval]; rfl
  · rw [if_neg hfed, (mapGet?_eq_none_iff _ k).mpr (fun h => hfed (hmem.mp h))]; rfl

theorem encounters_length (grid : Grid) (hrect : Rectangular grid (gridWidth grid)) (r : Int)
    (hr0 : 0 ≤ r) (hr1 : r < grid.length) (active : List (Int × Bool)) :
    ((mapKeys active).filter
        (fun c => 0 ≤ c ∧ c < gridWidth grid ∧ cellOr grid r c = '^')).length
      = (encounters grid (gridWidth grid) r active).length := by
  unfold encounters
  congr 1
  apply List.filter_congr
  intro c _
  by_cases hc : 0 ≤ c ∧ c < gridWidth grid
  · have := cellOr_eq_iff grid _ hrect r c hr0 hr1 hc.1 hc.2 '^'
    simp only [hc.1, hc.2, true_and, this]
  · have h1 : ¬ (0 ≤ c ∧ c < gridWidth grid ∧ cellOr grid r c = '^') := fun h => hc ⟨h.1, h.2.1⟩
    have h2 : ¬ (0 ≤ c ∧ c < gridWidth grid ∧ cellAt grid r c = Except.ok '^') :=
      fun h => hc ⟨h.1, h.2.1⟩
    simp only [h1, h2]

/-! ## Exits of one row -/

theorem gain_side (grid : Grid) (hrect : Rectangular grid (gridWidth grid)) (r c : Int)
    (hr0 : 0 ≤ r) (hr1 : r + 1 < grid.length) (counts : List (Int × Int)) :
    gain grid grid.length (gridWidth grid) r counts (fun _ => 0) 1 c
      = if 0 ≤ c ∧ c < gridWidth grid ∧ cellAt grid r c = Except.ok '^' then
          (if c - 1 < 0 then getCount counts c else 0)
            + (if c + 1 ≥ gridWidth grid then getCount counts c else 0)
        else 0 := by
  unfold gain
  by_cases h : c < 0 ∨ c ≥ gridWidth grid
  · have hn : ¬ (0 ≤ c ∧ c < gridWidth grid ∧ cellAt grid r c = Except.ok '^') := by
      intro hh; omega
    rw [if_pos h, if_neg hn]
  · rw [if_neg h]
    have hiff := cellOr_eq_iff grid _ hrect r c hr0 (by omega) (by omega) (by omega) '^'
    have hl : landing grid.length (gridWidth grid) r (fun _ => 0) 1 c = 0 :=
      landing_in _ _ r _ 1 c ⟨hr1, by omega, by omega⟩
    have hl1 : landing grid.length (gridWidth grid) r (fun _ => 0) 1 (c - 1)
        = if c - 1 < 0 then 1 else 0 := by
      by_cases h1 : c - 1 < 0
      · rw [if_pos h1, landing_out _ _ r _ 1 (c - 1) (by omega)]
      · rw [if_neg h1, landing_in _ _ r _ 1 (c - 1) ⟨hr1, by omega, by omega⟩]
    have hl2 : landing grid.length (gridWidth grid) r (fun _ => 0) 1 (c + 1)
        = if c + 1 ≥ gridWidth grid then 1 else 0 := by
      by_cases h1 : c + 1 ≥ gridWidth grid
      · rw [if_pos h1, landing_out _ _ r _ 1 (c + 1) (by omega)]
      · rw [if_neg h1, landing_in _ _ r _ 1 (c + 1) ⟨hr1, by omega, by omega⟩]
    rw [hl, hl1, hl2]
    by_cases hs : cellOr grid r c = '^'
    · have hp : 0 ≤ c ∧ c < gridWidth grid ∧ cellAt grid r c = Except.ok '^' :=
        ⟨by omega, by omega, hiff.mp hs⟩
      rw [if_pos hs, if_pos hp]
      split_ifs <;> ring
    · have hn : ¬ (0 ≤ c ∧ c < gridWidth grid ∧ cellAt grid r c = Except.ok '^') :=
        fun hh => hs (hiff.mpr hh.2.2)
      rw [if_neg hs, if_neg hn]
      ring

theorem gain_bottom (grid : Grid) (hrect : Rectangular grid (gridWidth grid)) (r c : Int)
    (hr0 : 0 ≤ r) (hr1 : r + 1 = grid.length) (counts : List (Int × Int)) :
    gain grid grid.length (gridWidth grid) r counts (fun _ => 0) 1 c
      = if 0 ≤ c ∧ c < gridWidth grid then
          (if cellAt grid r c = Except.ok '^' then 2 * getCount counts c else getCount counts c)
        else 0 := by
  unfold gain
  by_cases h : c < 0 ∨ c ≥ gridWidth grid
  · have hn : ¬ (0 ≤ c ∧ c < gridWidth grid) := by omega
    rw [if_pos h, if_neg hn]
  · have hp : 0 ≤ c ∧ c < gridWidth grid := by omega
    rw [if_neg h, if_pos hp]
    have hiff := cellOr_eq_iff grid _ hrect r c hr0 (by omega) (by omega) (by omega) '^'
    have hl : ∀ j, landing grid.length (gridWidth grid) r (fun _ => 0) 1 j = 1 :=
      fun j => landing_out _ _ r _ 1 j (by omega)
    simp only [hl]
    by_cases hs : cellOr grid r c = '^'
    · rw [if_pos hs, if_pos (hiff.mp hs)]; ring
    · rw [if_neg hs, if_neg (fun hh => hs (hiff.mpr hh))]; ring

theorem rowResult_side (a : Arith) (ord : KeyOrder) (grid : Grid)
    (hrect : Rectangular grid (gridWidth grid)) (r : Int)
    (hr0 : 0 ≤ r) (hr1 : r + 1 < grid.length)
    (active : List (Int × Bool)) (counts : List (Int × Int)) (S T : Int)
    (hT : a.norm T = T) :
    (rowResult a ord grid grid.length (gridWidth grid) r active counts S
        T).totalFinishedTimelines
      = a.norm (T + sideExits grid (gridWidth grid) r active counts) := by
  rw [rowResult_total a ord grid _ _ r active counts S T hT]
  have hval := rowResult_value ord grid grid.length (gridWidth grid) r active counts S T
    (fun _ => 0) 1
  simp only [one_mul, mapSum_zero, add_zero] at hval
  rw [hval]
  have h1 : gain grid grid.length (gridWidth grid) r counts (fun _ => 0) 1
      = fun c => if 0 ≤ c ∧ c < gridWidth grid ∧ cellAt grid r c = Except.ok '^' then
          (if c - 1 < 0 then getCount counts c else 0)
            + (if c + 1 ≥ gridWidth grid then getCount counts c else 0)
        else 0 := by
    funext c
    exact gain_side grid hrect r c hr0 hr1 counts
  rw [h1, sum_map_ite_filter]
  rfl

theorem rowResult_bottom (a : Arith) (ord : KeyOrder) (grid : Grid)
    (hrect : Rectangular grid (gridWidth grid)) (r : Int)
    (hr0 : 0 ≤ r) (hr1 : r + 1 = grid.length)
    (active : List (Int × Bool)) (counts : List (Int × Int)) (S T : Int)
    (hT : a.norm T = T) :
    (rowResult a ord grid grid.length (gridWidth grid) r active counts S
        T).totalFinishedTimelines
      = a.norm (T + bottomExits grid (gridWidth grid) r active counts) := by
  rw [rowResult_total a ord grid _ _ r active counts S T hT]
  have hval := rowResult_value ord grid grid.length (gridWidth grid) r active counts S T
    (fun _ => 0) 1
  simp only [one_mul, mapSum_zero, add_zero] at hval
  rw [hval]
  have h1 : gain grid grid.length (gridWidth grid) r counts (fun _ => 0) 1
      = fun c => if 0 ≤ c ∧ c < gridWidth grid then
          (if cellAt grid r c = Except.ok '^' then 2 * getCount counts c else getCount counts c)
        else 0 := by
    funext c
    exact gain_bottom grid hrect r c hr0 hr1 counts
  rw [h1, sum_map_ite_filter]
  rfl

theorem rowResult_last_empty (a : Arith) (ord : KeyOrder) (grid : Grid) (height width r : Int)
    (hr1 : ¬ r + 1 < height)
    (active : List (Int × Bool)) (counts : List (Int × Int)) (S T : Int) :
    (rowResult a ord grid height width r active counts S T).nextCols = [] ∧
    (rowResult a ord grid height width r active counts S T).nextTimelineCounts = [] := by
  have hlen : (rowResult a ord grid height width r active counts S T).nextCols.length = 0 := by
    by_contra hne
    exact hr1 (rowResult_nonempty _ _ _ _ _ _ _ _ _ _ hne)
  exact ⟨List.length_eq_zero.mp hlen, rowResult_empty_counts _ _ _ _ _ _ _ _ _ _ hlen⟩

/-! ## Rows without active columns, and the early exit -/

theorem enum_nil (ord : KeyOrder) (r : Int) : ord.enum r [] = [] :=
  List.Perm.eq_nil (ord.perm r [])

theorem enum_singleton (ord : KeyOrder) (r c : Int) : ord.enum r [c] = [c] :=
  List.perm_singleton.mp (ord.perm r [c])

theorem processRow_nil (a : Arith) (ord : KeyOrder) (grid : Grid) (height width r : Int)
    (counts : List (Int × Int)) (S T : Int) :
    processRow a ord grid height width r [] counts S T = Except.ok ⟨[], [], S, T⟩ := by
  unfold processRow
  rw [mapKeys_nil, enum_nil]
  rfl

theorem sweepNoBreak_nil (a : Arith) (ord : KeyOrder) (grid : Grid) (height width : Int)
    (fuel : Nat) : ∀ (r : Int) (counts : List (Int × Int)) (S T : Int),
    (height - r).toNat ≤ fuel →
    sweepNoBreak a ord grid height width fuel r [] counts S T = Except.ok (S, T) := by
  induction fuel with
  | zero =>
    intro r counts S T hf
    unfold sweepNoBreak
    rw [if_neg (by omega)]
  | succ fuel ih =>
    intro r counts S T hf
    unfold sweepNoBreak
    split_ifs with hr
    · simp only [processRow_nil]
      exact ih (r + 1) [] S T (by omega)
    · rfl

theorem sweep_eq_sweepNoBreak (a : Arith) (ord : KeyOrder) (grid : Grid) (height width : Int)
    (fuel : Nat) : ∀ (r : Int) (active : List (Int × Bool)) (counts : List (Int × Int))
    (S T : Int), (height - r).toNat ≤ fuel →
    sweep a ord grid height width fuel r active counts S T
      = sweepNoBreak a ord grid height width fuel r active counts S T := by
  induction fuel with
  | zero =>
    intro r active counts S T _
    unfold sweep sweepNoBreak
    rfl
  | succ fuel ih =>
    intro r active counts S T hf
    conv_lhs => unfold sweep
    conv_rhs => unfold sweepNoBreak
    split_ifs with hr
    · simp only
      cases hrow : processRow a ord grid height width r active counts S T with
      | error e => rfl
      | ok acc =>
        simp only
        split_ifs with hemp
        · rw [List.length_eq_zero.mp hemp]
          exact (sweepNoBreak_nil a ord grid height width fuel (r + 1) _ _ _ (by omega)).symm
        · exact ih (r + 1) _ _ _ _ (by omega)
    · rfl

/-! ## A start column outside the grid -/

theorem processRow_outside (a : Arith) (ord : KeyOrder) (grid : Grid) (height width r c : Int)
    (hc : c < 0 ∨ c ≥ width) (counts : List (Int × Int)) (S T : Int) :
    processRow a ord grid height width r [(c, true)] counts S T = Except.ok ⟨[], [], S, T⟩ := by
  unfold processRow
  rw [mapKeys_cons, mapKeys_nil, enum_singleton]
  simp only [visitAll, visit, if_pos hc]

/-! ## No failing cell access on a rectangular grid -/

theorem sweep_of_ge (a : Arith) (ord : KeyOrder) (grid : Grid) (height width : Int) (fuel : Nat)
    (r : Int) (active : List (Int × Bool)) (counts : List (Int × Int)) (S T : Int)
    (hr : ¬ r < height) :
    sweep a ord grid height width fuel r active counts S T = Except.ok (S, T) := by
  unfold sweep
  rw [if_neg hr]

theorem sweep_ok (a : Arith) (ord : KeyOrder) (grid : Grid) (width : Int)
    (hrect : Rectangular grid width) (fuel : Nat) :
    ∀ (r : Int) (active : List (Int × Bool)) (counts : List (Int × Int)) (S T : Int),
    0 ≤ r → ((grid.length : Int) - r).toNat ≤ fuel →
    ∃ res, sweep a ord grid grid.length width fuel r active counts S T = Except.ok res := by
  induction fuel with
  | zero =>
    intro r active counts S T _ hf
    exact ⟨_, sweep_of_ge a ord grid _ _ 0 r active counts S T (by omega)⟩
  | succ fuel ih =>
    intro r active counts S T hr0 hf
    by_cases hr : r < grid.length
    · rw [sweep_succ a ord grid width r hrect hr0 hr]
      split_ifs
      · exact ⟨_, rfl⟩
      · exact ih (r + 1) _ _ _ _ (by omega) (by omega)
    · exact ⟨_, sweep_of_ge a ord grid _ _ _ r active counts S T hr⟩

/-! ## Rows of an arbitrary grid -/

theorem index_error {α : Type} (xs : List α) (i : Int) (e : Fault)
    (h : index xs i = Except.error e) : e = Fault.indexOutOfRange := by
  unfold index at h
  split_ifs at h
  · injection h with h; exact h.symm
  · cases hg : xs.get? i.toNat with
    | none => rw [hg] at h; injection h with h; exact h.symm
    | some x => rw [hg] at h; simp at h

theorem cellAt_error (grid : Grid) (r c : Int) (e : Fault)
    (h : cellAt grid r c = Except.error e) : e = Fault.indexOutOfRange := by
  unfold cellAt at h
  cases hrow : index grid r with
  | error e1 =>
    rw [hrow] at h
    injection h with h
    rw [← h]; exact index_error grid r e1 hrow
  | ok row =>
    rw [hrow] at h
    exact index_error row c e h

theorem visit_ok_eq (a : Arith) (grid : Grid) (height width r : Int)
    (counts : List (Int × Int)) (acc acc1 : RowAcc) (c : Int)
    (h : visit a grid height width r counts acc c = Except.ok acc1) :
    acc1 = stepCol a grid height width r counts acc c := by
  unfold visit at h
  unfold stepCol
  split_ifs at h ⊢ with hc
  · injection h with h; exact h.symm
  · cases hcell : cellAt grid r c with
    | error e => rw [hcell] at h; simp at h
    | ok cell =>
      rw [hcell] at h
      injection h with h
      unfold cellOr
      rw [hcell]
      exact h.symm

theorem visit_error (a : Arith) (grid : Grid) (height width r : Int)
    (counts : List (Int × Int)) (acc : RowAcc) (c : Int) (e : Fault)
    (h : visit a grid height width r counts acc c = Except.error e) :
    e = Fault.indexOutOfRange := by
  unfold visit at h
  split_ifs at h
  cases hcell : cellAt grid r c with
  | error e1 =>
    rw [hcell] at h
    injection h with h
    rw [← h]; exact cellAt_error grid r c e1 hcell
  | ok cell => rw [hcell] at h; simp at h

theorem visitAll_ok_eq (a : Arith) (grid : Grid) (height width r : Int)
    (counts : List (Int × Int)) (ks : List Int) (acc acc1 : RowAcc)
    (h : visitAll a grid height width r counts ks acc = Except.ok acc1) :
    acc1 = ks.foldl (stepCol a grid height width r counts) acc := by
  induction ks generalizing acc with
  | nil =>
    unfold visitAll at h
    injection h with h
    exact h.symm
  | cons c cs ih =>
    unfold visitAll at h
    cases hv : visit a grid height width r counts acc c with
    | error e => rw [hv] at h; simp at h
    | ok acc2 =>
      rw [hv] at h
      rw [List.foldl_cons, ← visit_ok_eq a grid height width r counts acc acc2 c hv]
      exact ih acc2 h

theorem visitAll_error (a : Arith) (grid : Grid) (height width r : Int)
    (counts : List (Int × Int)) (ks : List Int) (acc : RowAcc) (e : Fault)
    (h : visitAll a grid height width r counts ks acc = Except.error e) :
    e = Fault.indexOutOfRange := by
  induction ks generalizing acc with
  | nil => unfold visitAll at h; simp at h
  | cons c cs ih =>
    unfold visitAll at h
    cases hv : visit a grid height width r counts acc c with
    | error e1 =>
      rw [hv] at h
      injection h with h
      rw [← h]; exact visit_error a grid height width r counts acc c e1 hv
    | ok acc2 =>
      rw [hv] at h
      exact ih acc2 h

theorem processRow_ok_eq (a : Arith) (ord : KeyOrder) (grid : Grid) (height width r : Int)
    (active : List (Int × Bool)) (counts : List (Int × Int)) (S T : Int) (acc : RowAcc)
    (h : processRow a ord grid height width r active counts S T = Except.ok acc) :
    acc = rowResult a ord grid height width r active counts S T :=
  visitAll_ok_eq a grid height width r counts _ _ acc h

theorem processRow_error (a : Arith) (ord : KeyOrder) (grid : Grid) (height width r : Int)
    (active : List (Int × Bool)) (counts : List (Int × Int)) (S T : Int) (e : Fault)
    (h : processRow a ord grid height width r active counts S T = Except.error e) :
    e = Fault.indexOutOfRange :=
  visitAll_error a grid height width r counts _ _ e h

/-- A row whose cells under the columns `ks` of the grid can all be read. -/
theorem visitAll_of_readable (a : Arith) (grid : Grid) (height width r : Int)
    (counts : List (Int × Int)) (ks : List Int) (acc : RowAcc)
    (h : ∀ c ∈ ks, (c < 0 ∨ c ≥ width) ∨ ∃ ch, cellAt grid r c = Except.ok ch) :
    visitAll a grid height width r counts ks acc
      = Except.ok (ks.foldl (stepCol a grid height width r counts) acc) := by
  induction ks generalizing acc with
  | nil => rfl
  | cons c cs ih =>
    have hv : visit a grid height width r counts acc c
        = Except.ok (stepCol a grid height width r counts acc c) := by
      unfold visit stepCol
      rcases h c (List.mem_cons_self c cs) with hc | ⟨ch, hch⟩
      · rw [if_pos hc, if_pos hc]
      · split_ifs
        · rfl
        · unfold cellOr; rw [hch]
    unfold visitAll
    rw [hv, List.foldl_cons]
    exact ih _ (fun c' hc' => h c' (List.mem_cons_of_mem c hc'))

theorem visitAll_of_unreadable (a : Arith) (grid : Grid) (height width r : Int)
    (counts : List (Int × Int)) (ks : List Int) (acc : RowAcc)
    (h : ¬ ∀ c ∈ ks, (c < 0 ∨ c ≥ width) ∨ ∃ ch, cellAt grid r c = Except.ok ch) :
    visitAll a grid height width r counts ks acc = Except.error Fault.indexOutOfRange := by
  cases hres : visitAll a grid height width r counts ks acc with
  | error e => rw [visitAll_error a grid height width r counts ks acc e hres]
  | ok acc1 =>
    exfalso
    apply h
    clear h
    induction ks generalizing acc with
    | nil => intro c hc; simp at hc
    | cons c cs ih =>
      unfold visitAll at hres
      cases hv : visit a grid height width r counts acc c with
      | error e => rw [hv] at hres; simp at hres
      | ok acc2 =>
        rw [hv] at hres
        intro c' hc'
        rcases List.mem_cons.mp hc' with rfl | hmem
        · unfold visit at hv
          split_ifs at hv with hc
          · exact Or.inl hc
          · cases hcell : cellAt grid r c' with
            | error e => rw [hcell] at hv; simp at hv
            | ok cell => exact Or.inr ⟨cell, rfl⟩
        · exact ih acc2 hres c' hmem

/-! ## Invariants of the outer loop -/

theorem sweep_ne_fuelExhausted (a : Arith) (ord : KeyOrder) (grid : Grid) (height width : Int)
    (fuel : Nat) : ∀ (r : Int) (active : List (Int × Bool)) (counts : List (Int × Int))
    (S T : Int), (height - r).toNat ≤ fuel →
    sweep a ord grid height width fuel r active counts S T
      ≠ Except.error Fault.fuelExhausted := by
  induction fuel with
  | zero =>
    intro r active counts S T hf
    rw [sweep_of_ge a ord grid height width 0 r active counts S T (by omega)]
    simp
  | succ fuel ih =>
    intro r active counts S T hf
    unfold sweep
    split_ifs with hr
    · simp only
      cases hrow : processRow a ord grid height width r active counts S T with
      | error e =>
        rw [processRow_error a ord grid height width r active counts S T e hrow]
        simp
      | ok acc =>
        simp only
        split_ifs
        · simp
        · exact ih (r + 1) _ _ _ _ (by omega)
    · simp

theorem sweepFrontiers_inv (a : Arith) (ord : KeyOrder) (grid : Grid) (height width : Int)
    (P : Int → List (Int × Bool) → List (Int × Int) → Int → Int → Prop)
    (hstep : ∀ (r : Int) (active : List (Int × Bool)) (counts : List (Int × Int)) (S T : Int),
      r + 1 < height → P r active counts S T →
      P (r + 1) (rowResult a ord grid height width r active counts S T).nextCols
        (rowResult a ord grid height width r active counts S T).nextTimelineCounts
        (rowResult a ord grid height width r active counts S T).splits
        (rowResult a ord grid height width r active counts S T).totalFinishedTimelines)
    (fuel : Nat) : ∀ (r : Int) (active : List (Int × Bool)) (counts : List (Int × Int))
    (S T : Int), P r active counts S T →
    ∀ frontiers, sweepFrontiers a ord grid height width fuel r active counts S T
        = Except.ok frontiers →
      frontiers.length ≤ (height - r).toNat ∧
      ∀ t ∈ frontiers, r ≤ t.1 ∧ t.1 < height ∧ ∃ S1 T1, P t.1 t.2.1 t.2.2 S1 T1 := by
  induction fuel with
  | zero =>
    intro r active counts S T _ frontiers hfr
    unfold sweepFrontiers at hfr
    split_ifs at hfr
    injection hfr with hfr
    subst hfr
    simp
  | succ fuel ih =>
    intro r active counts S T hP frontiers hfr
    unfold sweepFrontiers at hfr
    split_ifs at hfr with hr
    · simp only at hfr
      cases hrow : processRow a ord grid height width r active counts S T with
      | error e => rw [hrow] at hfr; simp at hfr
      | ok acc =>
        rw [hrow] at hfr
        simp only at hfr
        have hacc := processRow_ok_eq a ord grid height width r active counts S T acc hrow
        split_ifs at hfr with hemp
        · injection hfr with hfr
          subst hfr
          refine ⟨by simp only [List.length_singleton]; omega, ?_⟩
          intro t ht
          rw [List.mem_singleton] at ht
          subst ht
          exact ⟨le_refl _, hr, S, T, hP⟩
        · cases hrest : sweepFrontiers a ord grid height width fuel (r + 1) acc.nextCols
              acc.nextTimelineCounts acc.splits acc.totalFinishedTimelines with
          | error e => rw [hrest] at hfr; simp at hfr
          | ok rest =>
            rw [hrest] at hfr
            injection hfr with hfr
            subst hfr
            have hr2 : r + 1 < height := by
              rw [hacc] at hemp
              exact rowResult_nonempty _ _ _ _ _ _ _ _ _ _ hemp
            have hP2 := hstep r active counts S T hr2 hP
            rw [← hacc] at hP2
            obtain ⟨hlen, hall⟩ := ih (r + 1) _ _ _ _ hP2 rest hrest
            refine ⟨by simp only [List.length_cons]; omega, ?_⟩
            intro t ht
            rcases List.mem_cons.mp ht with rfl | hmem
            · exact ⟨le_refl _, hr, S, T, hP⟩
            · obtain ⟨h1, h2, h3⟩ := hall t hmem
              exact ⟨by omega, h2, h3⟩
    · injection hfr with hfr
      subst hfr
      simp

theorem sweepFrontiers_ok (a : Arith) (ord : KeyOrder) (grid : Grid) (width : Int)
    (hrect : Rectangular grid width) (fuel : Nat) :
    ∀ (r : Int) (active : List (Int × Bool)) (counts : List (Int × Int)) (S T : Int),
    0 ≤ r → ((grid.length : Int) - r).toNat ≤ fuel →
    ∃ frontiers, sweepFrontiers a ord grid grid.length width fuel r active counts S T
      = Except.ok frontiers := by
  induction fuel with
  | zero =>
    intro r active counts S T _ hf
    refine ⟨[], ?_⟩
    unfold sweepFrontiers
    rw [if_neg (by omega)]
  | succ fuel ih =>
    intro r active counts S T hr0 hf
    by_cases hr : r < grid.length
    · rw [sweepFrontiers_succ a ord grid width r hrect hr0 hr]
      split_ifs
      · exact ⟨_, rfl⟩
      · obtain ⟨rest, hrest⟩ := ih (r + 1)
          (rowResult a ord grid grid.length width r active counts S T).nextCols
          (rowResult a ord grid grid.length width r active counts S T).nextTimelineCounts
          (rowResult a ord grid grid.length width r active counts S T).splits
          (rowResult a ord grid grid.length width r active counts S T).totalFinishedTimelines
          (by omega) (by omega)
        exact ⟨_, by rw [hrest]; rfl⟩
    · refine ⟨[], ?_⟩
      unfold sweepFrontiers
      rw [if_neg hr]

theorem solveFrontiers_ok (a : Arith) (ord : KeyOrder) (grid : Grid) (sr sc : Int)
    (hne : grid ≠ []) (hrect : Rectangular grid (gridWidth grid)) (hr0 : 0 ≤ sr) :
    ∃ frontiers, solveFrontiers a ord grid sr sc = Except.ok frontiers := by
  rw [solveFrontiers_eq a ord grid sr sc hne]
  exact sweepFrontiers_ok a ord grid _ hrect _ sr _ _ 0 0 hr0 (le_refl _)

/-! ## Size and positivity of the frontier -/

theorem gridWidth_nonneg (grid : Grid) : 0 ≤ gridWidth grid := by
  cases grid with
  | nil => exact le_refl 0
  | cons row0 rest => exact Int.natCast_nonneg _

theorem length_le_of_nodup_range (L : List Int) (width : Int) (hw : 0 ≤ width) (hnd : L.Nodup)
    (hr : ∀ k ∈ L, 0 ≤ k ∧ k < width) : (L.length : Int) ≤ width := by
  have hsub : L.toFinset ⊆ Finset.Ico (0 : Int) width := by
    intro k hk
    rw [List.mem_toFinset] at hk
    rw [Finset.mem_Ico]
    exact hr k hk
  have hcard := Finset.card_le_card hsub
  rw [List.toFinset_card_of_nodup hnd, Int.card_Ico] at hcard
  omega

theorem mapKeys_length {V : Type} (m : List (Int × V)) : (mapKeys m).length = m.length := by
  unfold mapKeys
  exact List.length_map m Prod.fst

theorem Frontier.length_le {width : Int} {active : List (Int × Bool)}
    {counts : List (Int × Int)} (hF : Frontier width active counts) (hw : 0 ≤ width) :
    (active.length : Int) ≤ width ∧ (counts.length : Int) ≤ width := by
  have h1 := length_le_of_nodup_range (mapKeys active) width hw hF.2.1 hF.2.2
  have h2 : (mapKeys counts).length = (mapKeys active).length := by rw [hF.1]
  rw [mapKeys_length] at h1 h2
  rw [mapKeys_length] at h2
  exact ⟨h1, by omega⟩

theorem incoming_pos (grid : Grid) (r k : Int) (active : List (Int × Bool))
    (counts : List (Int × Int))
    (hpos : ∀ c ∈ mapKeys active, 0 < getCount counts c)
    (hfed : fedBy grid r active k) : 0 < incoming grid r active counts k := by
  unfold incoming
  have h1 : 0 ≤ (if k ∈ mapKeys active ∧ cellAt grid r k ≠ Except.ok '^' then getCount counts k
      else 0) := by
    split_ifs with h
    · exact le_of_lt (hpos k h.1)
    · exact le_refl 0
  have h2 : 0 ≤ (if k - 1 ∈ mapKeys active ∧ cellAt grid r (k - 1) = Except.ok '^' then
      getCount counts (k - 1) else 0) := by
    split_ifs with h
    · exact le_of_lt (hpos _ h.1)
    · exact le_refl 0
  have h3 : 0 ≤ (if k + 1 ∈ mapKeys active ∧ cellAt grid r (k + 1) = Except.ok '^' then
      getCount counts (k + 1) else 0) := by
    split_ifs with h
    · exact le_of_lt (hpos _ h.1)
    · exact le_refl 0
  rcases hfed with h | h | h
  · rw [if_pos h] at h1 ⊢
    have := hpos k h.1
    omega
  · rw [if_pos h] at h2 ⊢
    have := hpos _ h.1
    omega
  · rw [if_pos h] at h3 ⊢
    have := hpos _ h.1
    omega

theorem rowResult_pos (ord : KeyOrder) (grid : Grid)
    (hrect : Rectangular grid (gridWidth grid)) (r : Int)
    (hr0 : 0 ≤ r) (hr1 : r + 1 < grid.length)
    (active : List (Int × Bool)) (counts : List (Int × Int))
    (hF : Frontier (gridWidth grid) active counts)
    (hpos : ∀ c ∈ mapKeys counts, 0 < getCount counts c) (S T : Int) :
    ∀ k ∈ mapKeys (rowResult Arith.unbounded ord grid grid.length (gridWidth grid) r active
        counts S T).nextTimelineCounts,
      0 < getCount (rowResult Arith.unbounded ord grid grid.length (gridWidth grid) r active
        counts S T).nextTimelineCounts k := by
  intro k hk
  have hFr := rowResult_frontier Arith.unbounded ord grid grid.length (gridWidth grid) r active
    counts S T
  have hk2 := hk
  rw [hFr.1] at hk2
  have hb := hFr.2.2 k hk2
  have hfed : fedBy grid r active k := by
    rw [← feeds_iff_fedBy grid hrect r k hr0 hr1 hb.1 hb.2 active counts hF]
    exact (rowResult_mem _ _ _ _ _ _ _ _ _ _ k).mp hk2
  have hm := rowResult_merge Arith.unbounded ord grid hrect r k hr0 hr1 hb.1 hb.2 active counts
    hF S T
  rw [if_pos hfed, mapGet?_of_mem _ k hk] at hm
  injection hm with hm
  rw [hm]
  exact incoming_pos grid r k active counts (fun c hc => hpos c (hF.1 ▸ hc)) hfed

theorem solveFrontiers_inv (a : Arith) (ord : KeyOrder) (grid : Grid) (sr sc : Int)
    (hne : grid ≠ []) (hrect : Rectangular grid (gridWidth grid))
    (hr0 : 0 ≤ sr) (hc0 : 0 ≤ sc) (hc1 : sc < gridWidth grid) :
    ∀ frontiers, solveFrontiers a ord grid sr sc = Except.ok frontiers →
      ∀ t ∈ frontiers, sr ≤ t.1 ∧ t.1 < grid.length ∧ Frontier (gridWidth grid) t.2.1 t.2.2 ∧
        (a = Arith.unbounded → ∀ k ∈ mapKeys t.2.2, 0 < getCount t.2.2 k) := by
  intro frontiers hfr t ht
  rw [solveFrontiers_eq a ord grid sr sc hne] at hfr
  have hinv := sweepFrontiers_inv a ord grid grid.length (gridWidth grid)
    (fun r active counts _ _ => 0 ≤ r ∧ Frontier (gridWidth grid) active counts ∧
      (a = Arith.unbounded → ∀ k ∈ mapKeys counts, 0 < getCount counts k))
    (by
      intro r active counts S T hr2 hP
      refine ⟨by omega, rowResult_frontier _ _ _ _ _ _ _ _ _ _, ?_⟩
      intro ha
      subst ha
      exact rowResult_pos ord grid hrect r hP.1 hr2 active counts hP.2.1 (hP.2.2 rfl) S T)
    _ sr [(sc, true)] [(sc, 1)] 0 0
    ⟨hr0, frontier_start _ sc hc0 hc1, by
      intro _ k hk
      simp only [mapKeys_cons, mapKeys_nil, List.mem_singleton] at hk
      subst hk
      simp [getCount, mapGet?]⟩
    frontiers hfr
  obtain ⟨h1, h2, _, _, _, h3, h4⟩ := hinv.2 t ht
  exact ⟨h1, h2, h3, h4⟩

/-! ## Grids with the same splitter positions -/

theorem pathsFrom_congr (g1 g2 : Grid) (height width : Int)
    (hs : ∀ r c : Int, cellAt g1 r c = Except.ok '^' ↔ cellAt g2 r c = Except.ok '^')
    (fuel : Nat) : ∀ (r c : Int),
    pathsFrom g1 height width fuel r c = pathsFrom g2 height width fuel r c := by
  induction fuel with
  | zero =>
    intro r c
    unfold pathsFrom
    rfl
  | succ fuel ih =>
    intro r c
    conv_lhs => unfold pathsFrom
    conv_rhs => unfold pathsFrom
    split_ifs with h1 h2 h3 h3
    · rfl
    · simp only [ih]
    · exact absurd ((hs r c).mp h2) h3
    · exact absurd ((hs r c).mpr h3) h2
    · simp only [ih]

theorem paths_congr (g1 g2 : Grid) (hlen : g1.length = g2.length)
    (hwidth : gridWidth g1 = gridWidth g2)
    (hs : ∀ r c : Int, cellAt g1 r c = Except.ok '^' ↔ cellAt g2 r c = Except.ok '^')
    (r c : Int) : paths g1 r c = paths g2 r c := by
  unfold paths
  rw [hlen, hwidth]
  exact pathsFrom_congr g1 g2 _ _ hs _ r c

theorem Reached.congr {g1 g2 : Grid} {sr sc r c : Int} (hlen : g1.length = g2.length)
    (hwidth : gridWidth g1 = gridWidth g2)
    (hs : ∀ r c : Int, cellAt g1 r c = Except.ok '^' ↔ cellAt g2 r c = Except.ok '^')
    (h : Reached g1 sr sc r c) : Reached g2 sr sc r c := by
  induction h with
  | start => exact Reached.start
  | down _ hns hr ih =>
    exact Reached.down ih (fun hh => hns ((hs _ _).mpr hh)) (by rw [← hlen]; exact hr)
  | left _ hsp hr hc ih =>
    exact Reached.left ih ((hs _ _).mp hsp) (by rw [← hlen]; exact hr) hc
  | right _ hsp hr hc ih =>
    exact Reached.right ih ((hs _ _).mp hsp) (by rw [← hlen]; exact hr)
      (by rw [← hwidth]; exact hc)

theorem reachedSplitters_congr (g1 g2 : Grid) (sr sc : Int) (hlen : g1.length = g2.length)
    (hwidth : gridWidth g1 = gridWidth g2)
    (hs : ∀ r c : Int, cellAt g1 r c = Except.ok '^' ↔ cellAt g2 r c = Except.ok '^') :
    reachedSplitters g1 sr sc = reachedSplitters g2 sr sc := by
  ext p
  simp only [reachedSplitters, Set.mem_setOf_eq]
  constructor
  · rintro ⟨h1, h2⟩
    exact ⟨h1.congr hlen hwidth hs, (hs _ _).mp h2⟩
  · rintro ⟨h1, h2⟩
    exact ⟨h1.congr hlen.symm hwidth.symm (fun r c => (hs r c).symm), (hs _ _).mpr h2⟩

/-! ## Reading the grid -/

theorem index_append_left {α : Type} (xs ys : List α) (i : Int) (x : α)
    (h : index xs i = Except.ok x) : index (xs ++ ys) i = Except.ok x := by
  have hb := index_bounds xs i x h
  unfold index at h ⊢
  rw [if_neg (by omega)] at h ⊢
  have hlt : i.toNat < xs.length := by omega
  rw [List.get?_eq_getElem?, List.getElem?_append_left hlt, ← List.get?_eq_getElem?]
  exact h

theorem index_append_length {α : Type} (xs : List α) (y : α) (ys : List α) :
    index (xs ++ y :: ys) (xs.length : Int) = Except.ok y := by
  unfold index
  rw [if_neg (by omega), Int.toNat_natCast, List.get?_eq_getElem?,
    List.getElem?_append_right (le_refl _)]
  simp

theorem cellAt_append_left (grid more : Grid) (r c : Int) (ch : Char)
    (h : cellAt grid r c = Except.ok ch) : cellAt (grid ++ more) r c = Except.ok ch := by
  unfold cellAt at h ⊢
  cases hrow : index grid r with
  | error e => rw [hrow] at h; simp at h
  | ok row =>
    rw [hrow] at h
    rw [index_append_left grid more r row hrow]
    exact h

theorem cellAt_append_length (grid : Grid) (row : List Char) (c : Int) :
    cellAt (grid ++ [row]) (grid.length : Int) c = index row c := by
  unfold cellAt
  rw [index_append_length]

theorem scanRow_spec (rowIdx : Int) (suf : List Char) : ∀ (pre : List Char) (start : Int × Int),
    ('S' ∉ suf → scanRow rowIdx suf pre.length start = start) ∧
    ('S' ∈ suf → (scanRow rowIdx suf pre.length start).1 = rowIdx ∧
      index (pre ++ suf) (scanRow rowIdx suf pre.length start).2 = Except.ok 'S') := by
  induction suf with
  | nil =>
    intro pre start
    exact ⟨fun _ => rfl, fun h => absurd h (List.not_mem_nil _)⟩
  | cons ch rest ih =>
    intro pre start
    have hlen : ((pre ++ [ch]).length : Int) = (pre.length : Int) + 1 := by simp
    have happ : pre ++ ch :: rest = (pre ++ [ch]) ++ rest := by simp
    obtain ⟨ih1, ih2⟩ := ih (pre ++ [ch]) (if ch = 'S' then (rowIdx, (pre.length : Int)) else start)
    rw [hlen] at ih1 ih2
    unfold scanRow
    constructor
    · intro hno
      have hch : ¬ ch = 'S' := fun e => hno (e ▸ List.mem_cons_self _ _)
      have hrest : 'S' ∉ rest := fun h => hno (List.mem_cons_of_mem _ h)
      rw [ih1 hrest, if_neg hch]
    · intro _
      by_cases hrest : 'S' ∈ rest
      · rw [happ]
        exact ih2 hrest
      · rw [ih1 hrest]
        by_cases hch : ch = 'S'
        · rw [if_pos hch]
          refine ⟨rfl, ?_⟩
          rw [index_append_length, hch]
        · exfalso
          rename_i hmem
          rcases List.mem_cons.mp hmem with h | h
          · exact hch h.symm
          · exact hrest h

theorem tokenFits_iff (line : String) :
    tokenFits line = true ↔ line.utf8ByteSize < maxScanTokenSize := by
  unfold tokenFits
  exact decide_eq_true_iff

theorem utf8ByteSize_go_ge_length (cs : List Char) :
    cs.length ≤ String.utf8ByteSize.go cs := by
  induction cs with
  | nil => exact Nat.le_refl _
  | cons c cs ih =>
    have hc := Char.utf8Size_pos c
    have hgo : String.utf8ByteSize.go (c :: cs) = String.utf8ByteSize.go cs + c.utf8Size := rfl
    rw [hgo, List.length_cons]
    omega

theorem utf8ByteSize_mk_ge_length (cs : List Char) :
    cs.length ≤ (String.mk cs).utf8ByteSize :=
  utf8ByteSize_go_ge_length cs

theorem longLine_too_long : tokenFits longLine = false := by
  have h := utf8ByteSize_mk_ge_length (List.replicate 70000 '.' ++ ['S'])
  rw [List.length_append, List.length_replicate] at h
  have hlen : 70000 < longLine.utf8ByteSize := h
  have hmax : maxScanTokenSize = 65536 := rfl
  cases hfit : tokenFits longLine with
  | false => rfl
  | true =>
    have := (tokenFits_iff longLine).mp hfit
    omega

theorem takeWhile_tokenFits (lines : List String)
    (hfit : ∀ line ∈ lines, line.utf8ByteSize < maxScanTokenSize) :
    lines.takeWhile tokenFits = lines := by
  induction lines with
  | nil => rfl
  | cons line rest ih =>
    have h1 : tokenFits line = true := (tokenFits_iff line).mpr (hfit line (List.mem_cons_self _ _))
    rw [List.takeWhile_cons, h1]
    simp only [if_true]
    rw [ih (fun l hl => hfit l (List.mem_cons_of_mem _ hl))]

theorem scannedLines_complete (lines : List String)
    (hfit : ∀ line ∈ lines, line.utf8ByteSize < maxScanTokenSize) :
    scannedLines lines Reads.complete = lines :=
  takeWhile_tokenFits lines hfit

/-- The invariant of the loop of `readGrid`: the rows read are the lines that
come before the first line too long for the scanner. -/
theorem readLines_spec (lines : List String) : ∀ (grid : Grid) (start : Int × Int),
    ((start.1 = -1 ↔ ∀ row ∈ grid, 'S' ∉ row) ∧
      (start.1 ≠ -1 → 0 ≤ start.1 ∧ cellAt grid start.1 start.2 = Except.ok 'S')) →
    (readLines lines grid grid.length start).1
        = grid ++ (lines.takeWhile tokenFits).map String.toList ∧
    (((readLines lines grid grid.length start).2.1 = -1 ↔
        ∀ row ∈ (readLines lines grid grid.length start).1, 'S' ∉ row) ∧
      ((readLines lines grid grid.length start).2.1 ≠ -1 →
        0 ≤ (readLines lines grid grid.length start).2.1 ∧
        cellAt (readLines lines grid grid.length start).1
          (readLines lines grid grid.length start).2.1
          (readLines lines grid grid.length start).2.2 = Except.ok 'S')) := by
  induction lines with
  | nil =>
    intro grid start hinv
    simp only [readLines, List.takeWhile_nil, List.map_nil, List.append_nil]
    exact ⟨trivial, hinv⟩
  | cons line rest ih =>
    intro grid start hinv
    cases hfit : tokenFits line with
    | false =>
      have hread : readLines (line :: rest) grid grid.length start = (grid, start.1, start.2) := by
        simp only [readLines, hfit]
        rfl
      have htake : (line :: rest).takeWhile tokenFits = [] := by
        rw [List.takeWhile_cons, hfit]
        rfl
      rw [hread, htake, List.map_nil, List.append_nil]
      exact ⟨rfl, hinv⟩
    | true =>
      have hlen : ((grid ++ [line.toList]).length : Int) = (grid.length : Int) + 1 := by simp
      have hscan := scanRow_spec grid.length line.toList [] start
      simp only [List.length_nil, Nat.cast_zero, List.nil_append] at hscan
      have hstep : (((scanRow grid.length line.toList 0 start).1 = -1 ↔
            ∀ row ∈ grid ++ [line.toList], 'S' ∉ row) ∧
          ((scanRow grid.length line.toList 0 start).1 ≠ -1 →
            0 ≤ (scanRow grid.length line.toList 0 start).1 ∧
            cellAt (grid ++ [line.toList]) (scanRow grid.length line.toList 0 start).1
              (scanRow grid.length line.toList 0 start).2 = Except.ok 'S')) := by
        by_cases hS : 'S' ∈ line.toList
        · obtain ⟨h1, h2⟩ := hscan.2 hS
          constructor
          · constructor
            · intro h; rw [h1] at h; omega
            · intro h
              exact absurd hS (h _ (List.mem_append_right _ (List.mem_singleton_self _)))
          · intro _
            rw [h1]
            exact ⟨by omega, by rw [cellAt_append_length]; exact h2⟩
        · rw [hscan.1 hS]
          constructor
          · rw [hinv.1]
            constructor
            · intro h row hrow
              rcases List.mem_append.mp hrow with hr | hr
              · exact h row hr
              · rw [List.mem_singleton] at hr; rw [hr]; exact hS
            · intro h row hrow
              exact h row (List.mem_append_left _ hrow)
          · intro hne
            obtain ⟨h1, h2⟩ := hinv.2 hne
            exact ⟨h1, cellAt_append_left grid _ _ _ _ h2⟩
      have hrec := ih (grid ++ [line.toList]) (scanRow grid.length line.toList 0 start) hstep
      rw [hlen] at hrec
      simp only [readLines, hfit, List.takeWhile_cons, if_true, List.map_cons]
      rw [show grid ++ line.toList :: List.map String.toList (List.takeWhile tokenFits rest)
          = (grid ++ [line.toList]) ++ List.map String.toList (List.takeWhile tokenFits rest)
          by simp]
      exact hrec

/-- What `readGrid` returns in terms of the lines that its loop reads
(`scannedLines`): `startRow = -1` exactly when none of them contains `S`,
otherwise the start is an index of the grid with an `S` there, and the grid has
one row for each of them. -/
theorem readGrid_scanned (lines : List String) (reads : Reads) :
    ((readGrid lines reads).2.1 = -1 ↔ ∀ line ∈ scannedLines lines reads, 'S' ∉ line.toList) ∧
    ((readGrid lines reads).2.1 ≠ -1 →
      ∃ row, index (readGrid lines reads).1 (readGrid lines reads).2.1 = Except.ok row ∧
        0 ≤ (readGrid lines reads).2.1 ∧
        (readGrid lines reads).2.1 < (readGrid lines reads).1.length ∧
        0 ≤ (readGrid lines reads).2.2 ∧ (readGrid lines reads).2.2 < row.length ∧
        index row (readGrid lines reads).2.2 = Except.ok 'S' ∧
        cellAt (readGrid lines reads).1 (readGrid lines reads).2.1 (readGrid lines reads).2.2
          = Except.ok 'S') ∧
    (readGrid lines reads).1 = (scannedLines lines reads).map String.toList := by
  have h := readLines_spec (deliveredLines lines reads) [] (-1, -1)
    ⟨⟨fun _ row hrow => absurd hrow (List.not_mem_nil _), fun _ => rfl⟩,
      fun hne => absurd rfl hne⟩
  simp only [List.length_nil, Nat.cast_zero, List.nil_append] at h
  obtain ⟨hgrid, hiff, hcell⟩ := h
  have hgrid2 : (readGrid lines reads).1 = (scannedLines lines reads).map String.toList := hgrid
  refine ⟨?_, ?_, hgrid2⟩
  · have hiff2 : (readGrid lines reads).2.1 = -1 ↔
        ∀ row ∈ (readGrid lines reads).1, 'S' ∉ row := hiff
    rw [hiff2, hgrid2]
    constructor
    · intro h line hline
      exact h _ (List.mem_map_of_mem _ hline)
    · intro h row hrow
      obtain ⟨line, hline, rfl⟩ := List.mem_map.mp hrow
      exact h line hline
  · intro hne
    have hc : cellAt (readGrid lines reads).1 (readGrid lines reads).2.1
        (readGrid lines reads).2.2 = Except.ok 'S' := (hcell hne).2
    have hc2 := hc
    unfold cellAt at hc2
    cases hrow : index (readGrid lines reads).1 (readGrid lines reads).2.1 with
    | error e => rw [hrow] at hc2; simp at hc2
    | ok row =>
      rw [hrow] at hc2
      have b1 := index_bounds _ _ _ hrow
      have b2 := index_bounds _ _ _ hc2
      exact ⟨row, rfl, b1.1, b1.2.1, b2.1, b2.2.1, hc2, hc⟩

/-- A failing read shortens the grid in the same silent way: of the lines
`..S..` and `.....`, a read that fails after the first two characters leaves
the single row `..` and no start. -/
theorem readGrid_failing_read :
    readGrid ["..S..", "....."] (Reads.failsAfter 0 2) = ([['.', '.']], -1, -1) := by
  decide

/-! ## Independence of the iteration order -/

theorem norm_idem (a : Arith) (x : Int) : a.norm (a.norm x) = a.norm x := by
  cases a with
  | unbounded => rfl
  | int64 => exact wrap64_idem x

theorem rowResult_maps_int64 (ord : KeyOrder) (grid : Grid) (height width r : Int)
    (active : List (Int × Bool)) (counts : List (Int × Int)) (S T : Int) :
    (rowResult Arith.int64 ord grid height width r active counts S T).nextCols
        = (rowResult Arith.unbounded ord grid height width r active counts S T).nextCols ∧
    (rowResult Arith.int64 ord grid height width r active counts S T).nextTimelineCounts
        = wrapMap (rowResult Arith.unbounded ord grid height width r active counts S
            T).nextTimelineCounts := by
  have h := foldl_maps_congr Arith.int64 grid height width r counts
    (ord.enum r (mapKeys active)) ⟨[], [], S, T⟩ (wrapAcc ⟨[], [], S, T⟩) rfl rfl
  unfold rowResult
  rw [h.1, h.2, foldl_wrapAcc]
  exact ⟨rfl, rfl⟩

theorem rowResult_total_norm (a : Arith) (ord : KeyOrder) (grid : Grid) (height width r : Int)
    (active : List (Int × Bool)) (counts : List (Int × Int)) (S T : Int)
    (hT : a.norm T = T) :
    a.norm (rowResult a ord grid height width r active counts S T).totalFinishedTimelines
      = (rowResult a ord grid height width r active counts S T).totalFinishedTimelines := by
  rw [rowResult_total a ord grid height width r active counts S T hT, norm_idem]

theorem stepCol_counts_congr (a : Arith) (grid : Grid) (height width r : Int)
    (counts1 counts2 : List (Int × Int))
    (hc : ∀ c, getCount counts1 c = getCount counts2 c) :
    stepCol a grid height width r counts1 = stepCol a grid height width r counts2 := by
  funext acc c
  unfold stepCol
  rw [hc c]

theorem gain_counts_congr (grid : Grid) (height width r : Int)
    (counts1 counts2 : List (Int × Int))
    (hc : ∀ c, getCount counts1 c = getCount counts2 c) (f : Int → Int) (e : Int) :
    gain grid height width r counts1 f e = gain grid height width r counts2 f e := by
  funext c
  unfold gain
  rw [hc c]

theorem rowResult_value_order (ord1 ord2 : KeyOrder) (grid : Grid) (height width r : Int)
    (active1 active2 : List (Int × Bool)) (counts1 counts2 : List (Int × Int))
    (hk : (mapKeys active1).Perm (mapKeys active2))
    (hc : ∀ c, getCount counts1 c = getCount counts2 c) (S T : Int) (f : Int → Int) (e : Int) :
    e * (rowResult Arith.unbounded ord1 grid height width r active1 counts1 S
          T).totalFinishedTimelines
        + mapSum f (rowResult Arith.unbounded ord1 grid height width r active1 counts1 S
          T).nextTimelineCounts
      = e * (rowResult Arith.unbounded ord2 grid height width r active2 counts2 S
          T).totalFinishedTimelines
        + mapSum f (rowResult Arith.unbounded ord2 grid height width r active2 counts2 S
          T).nextTimelineCounts := by
  rw [rowResult_value, rowResult_value, gain_counts_congr grid height width r counts1 counts2 hc]
  congr 1
  exact (hk.map _).sum_eq

theorem rowResult_mem_order (a : Arith) (ord1 ord2 : KeyOrder) (grid : Grid)
    (height width r : Int)
    (active1 active2 : List (Int × Bool)) (counts1 counts2 : List (Int × Int))
    (hk : (mapKeys active1).Perm (mapKeys active2)) (S T : Int) (k : Int) :
    k ∈ mapKeys (rowResult a ord1 grid height width r active1 counts1 S T).nextCols
      ↔ k ∈ mapKeys (rowResult a ord2 grid height width r active2 counts2 S T).nextCols := by
  rw [rowResult_mem, rowResult_mem]
  constructor
  · rintro ⟨c, hc, hf⟩; exact ⟨c, hk.mem_iff.mp hc, hf⟩
  · rintro ⟨c, hc, hf⟩; exact ⟨c, hk.mem_iff.mpr hc, hf⟩

theorem rowResult_get_order (ord1 ord2 : KeyOrder) (grid : Grid) (height width r : Int)
    (active1 active2 : List (Int × Bool)) (counts1 counts2 : List (Int × Int))
    (hk : (mapKeys active1).Perm (mapKeys active2))
    (hc : ∀ c, getCount counts1 c = getCount counts2 c) (S T : Int) (k : Int) :
    mapGet? (rowResult Arith.unbounded ord1 grid height width r active1 counts1 S
        T).nextTimelineCounts k
      = mapGet? (rowResult Arith.unbounded ord2 grid height width r active2 counts2 S
        T).nextTimelineCounts k := by
  have hF1 := rowResult_frontier Arith.unbounded ord1 grid height width r active1 counts1 S T
  have hF2 := rowResult_frontier Arith.unbounded ord2 grid height width r active2 counts2 S T
  have hmem := rowResult_mem_order Arith.unbounded ord1 ord2 grid height width r active1 active2
    counts1 counts2 hk S T k
  rw [← hF1.1, ← hF2.1] at hmem
  by_cases h1 : k ∈ mapKeys (rowResult Arith.unbounded ord1 grid height width r active1 counts1
      S T).nextTimelineCounts
  · rw [mapGet?_of_mem _ k h1, mapGet?_of_mem _ k (hmem.mp h1)]
    have hv := rowResult_value_order ord1 ord2 grid height width r active1 active2 counts1
      counts2 hk hc S T (fun j => if j = k then 1 else 0) 0
    rw [mapSum_indicator _ k (hF1.1 ▸ hF1.2.1), mapSum_indicator _ k (hF2.1 ▸ hF2.2.1)] at hv
    simp only [zero_mul, zero_add] at hv
    rw [hv]
  · rw [(mapGet?_eq_none_iff _ k).mpr h1, (mapGet?_eq_none_iff _ k).mpr (fun h => h1 (hmem.mpr h))]

theorem rowResult_order (a : Arith) (ord1 ord2 : KeyOrder) (grid : Grid) (height width r : Int)
    (active1 active2 : List (Int × Bool)) (counts1 counts2 : List (Int × Int))
    (hk : (mapKeys active1).Perm (mapKeys active2))
    (hc : ∀ c, getCount counts1 c = getCount counts2 c) (S T : Int) (hT : a.norm T = T) :
    (rowResult a ord1 grid height width r active1 counts1 S T).splits
        = (rowResult a ord2 grid height width r active2 counts2 S T).splits ∧
    (rowResult a ord1 grid height width r active1 counts1 S T).totalFinishedTimelines
        = (rowResult a ord2 grid height width r active2 counts2 S T).totalFinishedTimelines ∧
    (mapKeys (rowResult a ord1 grid height width r active1 counts1 S T).nextCols).Perm
        (mapKeys (rowResult a ord2 grid height width r active2 counts2 S T).nextCols) ∧
    (∀ k, mapGet? (rowResult a ord1 grid height width r active1 counts1 S
          T).nextTimelineCounts k
        = mapGet? (rowResult a ord2 grid height width r active2 counts2 S
          T).nextTimelineCounts k) := by
  refine ⟨?_, ?_, ?_, ?_⟩
  · rw [rowResult_splits, rowResult_splits]
    simp only [add_right_inj, Nat.cast_inj]
    exact (hk.filter _).length_eq
  · rw [rowResult_total a ord1 grid height width r active1 counts1 S T hT,
      rowResult_total a ord2 grid height width r active2 counts2 S T hT]
    have hv := rowResult_value_order ord1 ord2 grid height width r active1 active2 counts1
      counts2 hk hc S T (fun _ => 0) 1
    simp only [one_mul, mapSum_zero, add_zero] at hv
    rw [hv]
  · rw [List.perm_ext_iff_of_nodup (rowResult_frontier _ _ _ _ _ _ _ _ _ _).2.1
      (rowResult_frontier _ _ _ _ _ _ _ _ _ _).2.1]
    intro k
    exact rowResult_mem_order a ord1 ord2 grid height width r active1 active2 counts1 counts2
      hk S T k
  · intro k
    rw [rowResult_counts a ord1, rowResult_counts a ord2,
      rowResult_get_order ord1 ord2 grid height width r active1 active2 counts1 counts2 hk hc
        S T k]

theorem processRow_readable (a : Arith) (ord : KeyOrder) (grid : Grid) (height width r : Int)
    (active : List (Int × Bool)) (counts : List (Int × Int)) (S T : Int)
    (h : ∀ c ∈ mapKeys active, (c < 0 ∨ c ≥ width) ∨ ∃ ch, cellAt grid r c = Except.ok ch) :
    processRow a ord grid height width r active counts S T
      = Except.ok (rowResult a ord grid height width r active counts S T) := by
  unfold processRow rowResult
  exact visitAll_of_readable a grid height width r counts _ _
    (fun c hc => h c ((ord.perm r _).mem_iff.mp hc))

theorem processRow_unreadable (a : Arith) (ord : KeyOrder) (grid : Grid) (height width r : Int)
    (active : List (Int × Bool)) (counts : List (Int × Int)) (S T : Int)
    (h : ¬ ∀ c ∈ mapKeys active, (c < 0 ∨ c ≥ width) ∨ ∃ ch, cellAt grid r c = Except.ok ch) :
    processRow a ord grid height width r active counts S T
      = Except.error Fault.indexOutOfRange := by
  unfold processRow
  apply visitAll_of_unreadable
  intro hall
  exact h (fun c hc => hall c ((ord.perm r _).mem_iff.mpr hc))

theorem getCount_eq_of_mapGet? (m1 m2 : List (Int × Int))
    (h : ∀ k, mapGet? m1 k = mapGet? m2 k) (c : Int) : getCount m1 c = getCount m2 c := by
  unfold getCount
  rw [h c]

theorem sweep_order (a : Arith) (ord1 ord2 : KeyOrder) (grid : Grid) (height width : Int)
    (fuel : Nat) : ∀ (r : Int) (active1 active2 : List (Int × Bool))
    (counts1 counts2 : List (Int × Int)) (S T : Int),
    (mapKeys active1).Perm (mapKeys active2) →
    (∀ c, getCount counts1 c = getCount counts2 c) → a.norm T = T →
    sweep a ord1 grid height width fuel r active1 counts1 S T
      = sweep a ord2 grid height width fuel r active2 counts2 S T := by
  induction fuel with
  | zero =>
    intro r active1 active2 counts1 counts2 S T _ _ _
    unfold sweep
    rfl
  | succ fuel ih =>
    intro r active1 active2 counts1 counts2 S T hk hc hT
    conv_lhs => unfold sweep
    conv_rhs => unfold sweep
    split_ifs with hr
    · simp only
      by_cases hread : ∀ c ∈ mapKeys active1,
          (c < 0 ∨ c ≥ width) ∨ ∃ ch, cellAt grid r c = Except.ok ch
      · have hread2 : ∀ c ∈ mapKeys active2,
            (c < 0 ∨ c ≥ width) ∨ ∃ ch, cellAt grid r c = Except.ok ch :=
          fun c hc2 => hread c (hk.mem_iff.mpr hc2)
        rw [processRow_readable a ord1 grid height width r active1 counts1 S T hread,
          processRow_readable a ord2 grid height width r active2 counts2 S T hread2]
        simp only
        obtain ⟨h1, h2, h3, h4⟩ := rowResult_order a ord1 ord2 grid height width r active1
          active2 counts1 counts2 hk hc S T hT
        have hlen : (rowResult a ord1 grid height width r active1 counts1 S T).nextCols.length
            = (rowResult a ord2 grid height width r active2 counts2 S T).nextCols.length := by
          rw [← mapKeys_length, ← mapKeys_length]
          exact h3.length_eq
        rw [hlen, h1, h2]
        split_ifs
        · rfl
        · rw [← h2]
          exact ih (r + 1) _ _ _ _ _ _ h3 (getCount_eq_of_mapGet? _ _ h4)
            (rowResult_total_norm a ord1 grid height width r active1 counts1 S T hT)
      · have hread2 : ¬ ∀ c ∈ mapKeys active2,
            (c < 0 ∨ c ≥ width) ∨ ∃ ch, cellAt grid r c = Except.ok ch :=
          fun h => hread (fun c hc1 => h c (hk.mem_iff.mp hc1))
        rw [processRow_unreadable a ord1 grid height width r active1 counts1 S T hread,
          processRow_unreadable a ord2 grid height width r active2 counts2 S T hread2]
    · rfl

theorem norm_zero (a : Arith) : a.norm 0 = 0 := by cases a <;> rfl

theorem solveTotals_order (a : Arith) (ord1 ord2 : KeyOrder) (grid : Grid) (sr sc : Int) :
    solveTotals a ord1 grid sr sc = solveTotals a ord2 grid sr sc := by
  unfold solveTotals
  cases index grid 0 with
  | error e => rfl
  | ok row0 =>
    exact sweep_order a ord1 ord2 grid _ _ _ sr _ _ _ _ 0 0 (List.Perm.refl _) (fun _ => rfl)
      (norm_zero a)

/-! ## Exponential bounds -/

theorem pathsFrom_le (grid : Grid) (height width : Int) (fuel : Nat) : ∀ (r c : Int),
    pathsFrom grid height width fuel r c ≤ 2 ^ fuel := by
  induction fuel with
  | zero =>
    intro r c
    unfold pathsFrom
    split_ifs <;> simp
  | succ fuel ih =>
    intro r c
    unfold pathsFrom
    have h2 : (2 : Nat) ^ (fuel + 1) = 2 ^ fuel + 2 ^ fuel := by ring
    have hpos : 1 ≤ (2 : Nat) ^ fuel := Nat.one_le_two_pow
    split_ifs
    · omega
    · have h3 := ih (r + 1) (c - 1)
      have h4 := ih (r + 1) (c + 1)
      simp only
      omega
    · have h3 := ih (r + 1) c
      simp only
      omega

theorem paths_le (grid : Grid) (r c : Int) :
    paths grid r c ≤ 2 ^ ((grid.length : Int) - r).toNat :=
  pathsFrom_le grid _ _ _ r c

theorem sum_map_nonneg (L : List Int) (f : Int → Int) (h : ∀ c ∈ L, 0 ≤ f c) :
    0 ≤ (L.map f).sum := by
  induction L with
  | nil => simp
  | cons c cs ih =>
    rw [List.map_cons, List.sum_cons]
    have h1 := h c (List.mem_cons_self c cs)
    have h2 := ih (fun x hx => h x (List.mem_cons_of_mem c hx))
    omega

theorem sum_map_filter_le (L : List Int) (p : Int → Bool) (f : Int → Int)
    (h : ∀ c ∈ L, 0 ≤ f c) : ((L.filter p).map f).sum ≤ (L.map f).sum := by
  induction L with
  | nil => simp
  | cons c cs ih =>
    have h1 := h c (List.mem_cons_self c cs)
    have h2 := ih (fun x hx => h x (List.mem_cons_of_mem c hx))
    rw [List.filter_cons]
    split_ifs
    · simp only [List.map_cons, List.sum_cons]; omega
    · simp only [List.map_cons, List.sum_cons]; omega

theorem sum_map_single_le (L : List Int) (f : Int → Int) (h : ∀ c ∈ L, 0 ≤ f c) (k : Int)
    (hk : k ∈ L) : f k ≤ (L.map f).sum := by
  induction L with
  | nil => simp at hk
  | cons c cs ih =>
    have h1 := h c (List.mem_cons_self c cs)
    have h2 := sum_map_nonneg cs f (fun x hx => h x (List.mem_cons_of_mem c hx))
    rw [List.map_cons, List.sum_cons]
    rcases List.mem_cons.mp hk with rfl | hmem
    · omega
    · have := ih (fun x hx => h x (List.mem_cons_of_mem c hx)) hmem
      omega

theorem getCount_nonneg_of_pos (counts : List (Int × Int))
    (hpos : ∀ k ∈ mapKeys counts, 0 < getCount counts k) (c : Int) : 0 ≤ getCount counts c := by
  by_cases h : c ∈ mapKeys counts
  · exact le_of_lt (hpos c h)
  · rw [getCount_of_not_mem counts c h]

theorem weightSum_eq (counts : List (Int × Int)) (hnd : (mapKeys counts).Nodup) :
    mapSum (fun _ => 1) counts = ((mapKeys counts).map (fun c => getCount counts c)).sum := by
  rw [mapSum_keys _ counts hnd]
  simp only [mul_one]

theorem encounterWeight_le (grid : Grid) (width r : Int) (active : List (Int × Bool))
    (counts : List (Int × Int)) (hF : Frontier width active counts)
    (hpos : ∀ k ∈ mapKeys counts, 0 < getCount counts k) :
    0 ≤ encounterWeight grid width r active counts ∧
    encounterWeight grid width r active counts ≤ mapSum (fun _ => 1) counts := by
  have hnn : ∀ c ∈ mapKeys active, 0 ≤ getCount counts c :=
    fun c _ => getCount_nonneg_of_pos counts hpos c
  constructor
  · unfold encounterWeight encounters
    apply sum_map_nonneg
    intro c _
    exact getCount_nonneg_of_pos counts hpos c
  · rw [weightSum_eq counts (hF.1 ▸ hF.2.1), hF.1]
    unfold encounterWeight encounters
    exact sum_map_filter_le _ _ _ hnn

theorem sideExits_nonneg (grid : Grid) (width r : Int) (active : List (Int × Bool))
    (counts : List (Int × Int)) (hpos : ∀ k ∈ mapKeys counts, 0 < getCount counts k) :
    0 ≤ sideExits grid width r active counts := by
  unfold sideExits
  apply sum_map_nonneg
  intro c _
  have := getCount_nonneg_of_pos counts hpos c
  split_ifs <;> omega

theorem weight_bound_step (ord : KeyOrder) (grid : Grid)
    (hrect : Rectangular grid (gridWidth grid)) (r : Int) (n : Nat)
    (hr0 : 0 ≤ r) (hr1 : r + 1 < grid.length)
    (active : List (Int × Bool)) (counts : List (Int × Int))
    (hF : Frontier (gridWidth grid) active counts)
    (hpos : ∀ k ∈ mapKeys counts, 0 < getCount counts k) (S T : Int) (hT : 0 ≤ T)
    (hb : T + mapSum (fun _ => 1) counts ≤ 2 ^ n) :
    0 ≤ (rowResult Arith.unbounded ord grid grid.length (gridWidth grid) r active counts S
        T).totalFinishedTimelines ∧
    (rowResult Arith.unbounded ord grid grid.length (gridWidth grid) r active counts S
        T).totalFinishedTimelines
      + mapSum (fun _ => 1) (rowResult Arith.unbounded ord grid grid.length (gridWidth grid) r
          active counts S T).nextTimelineCounts ≤ 2 ^ (n + 1) := by
  have hd := row_doubling ord grid hrect r hr0 (by omega) active counts hF S T
  have hs := rowResult_side Arith.unbounded ord grid hrect r hr0 hr1 active counts S T rfl
  simp only [norm_unbounded] at hs
  have hse := sideExits_nonneg grid (gridWidth grid) r active counts hpos
  have he := encounterWeight_le grid (gridWidth grid) r active counts hF hpos
  have h2 : (2 : Int) ^ (n + 1) = 2 ^ n + 2 ^ n := by ring
  constructor
  · omega
  · rw [hd, h2]
    omega

/-! ## No overflow below `2^63` -/

theorem mem_mapSet {V : Type} (m : List (Int × V)) (k : Int) (v : V) (p : Int × V)
    (h : p ∈ mapSet m k v) : p = (k, v) ∨ p ∈ m := by
  induction m with
  | nil =>
    simp only [mapSet, List.mem_singleton] at h
    exact Or.inl h
  | cons q m ih =>
    obtain ⟨q1, q2⟩ := q
    unfold mapSet at h
    split_ifs at h
    · rcases List.mem_cons.mp h with h | h
      · exact Or.inl h
      · exact Or.inr (List.mem_cons_of_mem _ h)
    · rcases List.mem_cons.mp h with h | h
      · exact Or.inr (h ▸ List.mem_cons_self _ _)
      · rcases ih h with h | h
        · exact Or.inl h
        · exact Or.inr (List.mem_cons_of_mem _ h)

theorem getCount_bounds (m : List (Int × Int)) (h : ∀ p ∈ m, 0 ≤ p.2) (k : Int) :
    0 ≤ getCount m k ∧ getCount m k ≤ mapSum (fun _ => 1) m ∧ 0 ≤ mapSum (fun _ => 1) m := by
  induction m with
  | nil => simp
  | cons q m ih =>
    obtain ⟨q1, q2⟩ := q
    have hq : 0 ≤ q2 := h (q1, q2) (List.mem_cons_self _ _)
    obtain ⟨i1, i2, i3⟩ := ih (fun p hp => h p (List.mem_cons_of_mem _ hp))
    rw [mapSum_cons]
    simp only [mul_one]
    by_cases hk : q1 = k
    · have : getCount ((q1, q2) :: m) k = q2 := by simp [getCount, mapGet?, hk]
      rw [this]
      omega
    · have : getCount ((q1, q2) :: m) k = getCount m k := by simp [getCount, mapGet?, hk]
      rw [this]
      omega

/-- The variables of a row hold no negative value. -/
theorem addNext_nonneg (acc : RowAcc) (k w : Int) (hw : 0 ≤ w)
    (h : 0 ≤ acc.totalFinishedTimelines ∧ ∀ p ∈ acc.nextTimelineCounts, 0 ≤ p.2) :
    0 ≤ (addNext Arith.unbounded acc k w).totalFinishedTimelines ∧
    ∀ p ∈ (addNext Arith.unbounded acc k w).nextTimelineCounts, 0 ≤ p.2 := by
  refine ⟨h.1, ?_⟩
  intro p hp
  rw [addNext_nextTimelineCounts] at hp
  rcases mem_mapSet _ _ _ _ hp with hp | hp
  · rw [hp]
    have := (getCount_bounds _ h.2 k).1
    simp only [norm_unbounded]
    omega
  · exact h.2 p hp

theorem finish_nonneg (acc : RowAcc) (w : Int) (hw : 0 ≤ w)
    (h : 0 ≤ acc.totalFinishedTimelines ∧ ∀ p ∈ acc.nextTimelineCounts, 0 ≤ p.2) :
    0 ≤ (finish Arith.unbounded acc w).totalFinishedTimelines ∧
    ∀ p ∈ (finish Arith.unbounded acc w).nextTimelineCounts, 0 ≤ p.2 := by
  refine ⟨?_, h.2⟩
  rw [finish_total]
  simp only [norm_unbounded]
  omega

theorem stepCol_nonneg (grid : Grid) (height width r : Int) (counts : List (Int × Int))
    (hc : ∀ c, 0 ≤ getCount counts c) (acc : RowAcc) (c : Int)
    (h : 0 ≤ acc.totalFinishedTimelines ∧ ∀ p ∈ acc.nextTimelineCounts, 0 ≤ p.2) :
    0 ≤ (stepCol Arith.unbounded grid height width r counts acc c).totalFinishedTimelines ∧
    ∀ p ∈ (stepCol Arith.unbounded grid height width r counts acc c).nextTimelineCounts,
      0 ≤ p.2 := by
  have hw := hc c
  have hw2 : 0 ≤ getCount counts c * 2 := by omega
  have h1 : 0 ≤ ({ acc with splits := acc.splits + 1 } : RowAcc).totalFinishedTimelines ∧
      ∀ p ∈ ({ acc with splits := acc.splits + 1 } : RowAcc).nextTimelineCounts, 0 ≤ p.2 := h
  unfold stepCol applyCell
  split_ifs
  · exact h
  · exact addNext_nonneg _ _ _ hw (addNext_nonneg _ _ _ hw h1)
  · exact finish_nonneg _ _ hw (addNext_nonneg _ _ _ hw h1)
  · exact addNext_nonneg _ _ _ hw (finish_nonneg _ _ hw h1)
  · exact finish_nonneg _ _ hw (finish_nonneg _ _ hw h1)
  · exact finish_nonneg _ _ hw2 h1
  · exact addNext_nonneg _ _ _ hw h
  · exact finish_nonneg _ _ hw h

theorem gain_all_one (grid : Grid) (height width r : Int) (counts : List (Int × Int))
    (c : Int) :
    gain grid height width r counts (fun _ => 1) 1 c
      = if c < 0 ∨ c ≥ width then 0
        else if cellOr grid r c = '^' then getCount counts c * 2 else getCount counts c := by
  have hl : ∀ k, landing height width r (fun _ => 1) 1 k = 1 := by
    intro k; unfold landing; split_ifs <;> rfl
  unfold gain
  simp only [hl]
  split_ifs <;> ring

theorem gain_all_one_nonneg (grid : Grid) (height width r : Int) (counts : List (Int × Int))
    (hc : ∀ c, 0 ≤ getCount counts c) (c : Int) :
    0 ≤ gain grid height width r counts (fun _ => 1) 1 c := by
  rw [gain_all_one]
  have := hc c
  split_ifs <;> omega

theorem cellFits_of_bound (height width r : Int) (cell : Char) (count : Int) (acc : RowAcc)
    (c : Int) (hw : 0 ≤ count)
    (h : 0 ≤ acc.totalFinishedTimelines ∧ ∀ p ∈ acc.nextTimelineCounts, 0 ≤ p.2)
    (hb : acc.totalFinishedTimelines + mapSum (fun _ => 1) acc.nextTimelineCounts
      + (if cell = '^' then count * 2 else count) ≤ 9223372036854775807) :
    cellFits height width r cell count acc c := by
  have g := fun k => getCount_bounds acc.nextTimelineCounts h.2 k
  have hA := fun k => addNext_nonneg acc k count hw h
  have gA := fun k j => getCount_bounds (addNext Arith.unbounded acc k count).nextTimelineCounts
    (hA k).2 j
  have sA : ∀ k, mapSum (fun _ => 1) (addNext Arith.unbounded acc k count).nextTimelineCounts
      = mapSum (fun _ => 1) acc.nextTimelineCounts + count := by
    intro k
    rw [addNext_nextTimelineCounts, norm_unbounded, mapSum_mapSet_add]
    ring
  unfold cellFits fitsInt64
  by_cases hs : cell = '^'
  · rw [if_pos hs] at hb
    rw [if_pos hs]
    by_cases hr : r + 1 < height
    · rw [if_pos hr]
      by_cases hl : c - 1 ≥ 0
      · simp only [if_pos hl]
        have g1 := g (c - 1)
        have g2 := gA (c - 1) (c + 1)
        have s2 := sA (c - 1)
        have t2 : (addNext Arith.unbounded acc (c - 1) count).totalFinishedTimelines
            = acc.totalFinishedTimelines := rfl
        refine ⟨by omega, ?_⟩
        split_ifs
        · omega
        · rw [t2]; omega
      · simp only [if_neg hl]
        have g2 := g (c + 1)
        have t2 : (finish Arith.unbounded acc count).totalFinishedTimelines
            = acc.totalFinishedTimelines + count := rfl
        have n2 : (finish Arith.unbounded acc count).nextTimelineCounts
            = acc.nextTimelineCounts := rfl
        refine ⟨by omega, ?_⟩
        split_ifs
        · rw [n2]; omega
        · rw [t2]; omega
    · rw [if_neg hr]
      have g1 := g 0
      omega
  · rw [if_neg hs] at hb
    rw [if_neg hs]
    have g1 := g c
    split_ifs <;> omega

theorem foldl_nonneg (grid : Grid) (height width r : Int) (counts : List (Int × Int))
    (hc : ∀ c, 0 ≤ getCount counts c) (ks : List Int) (acc : RowAcc)
    (h : 0 ≤ acc.totalFinishedTimelines ∧ ∀ p ∈ acc.nextTimelineCounts, 0 ≤ p.2) :
    0 ≤ (ks.foldl (stepCol Arith.unbounded grid height width r counts)
        acc).totalFinishedTimelines ∧
    ∀ p ∈ (ks.foldl (stepCol Arith.unbounded grid height width r counts)
        acc).nextTimelineCounts, 0 ≤ p.2 := by
  induction ks generalizing acc with
  | nil => exact h
  | cons c cs ih =>
    rw [List.foldl_cons]
    exact ih _ (stepCol_nonneg grid height width r counts hc acc c h)

theorem visitsFit_of_bound (grid : Grid) (height width r : Int) (counts : List (Int × Int))
    (hc : ∀ c, 0 ≤ getCount counts c) (ks : List Int) : ∀ (acc : RowAcc),
    (0 ≤ acc.totalFinishedTimelines ∧ ∀ p ∈ acc.nextTimelineCounts, 0 ≤ p.2) →
    (ks.foldl (stepCol Arith.unbounded grid height width r counts)
        acc).totalFinishedTimelines
      + mapSum (fun _ => 1) (ks.foldl (stepCol Arith.unbounded grid height width r counts)
        acc).nextTimelineCounts ≤ 9223372036854775807 →
    visitsFit grid height width r counts ks acc := by
  induction ks with
  | nil => intro _ _ _; trivial
  | cons c cs ih =>
    intro acc hnn hb
    rw [List.foldl_cons] at hb
    have hrest := foldl_value grid height width r counts (fun _ => 1) 1 cs
      (stepCol Arith.unbounded grid height width r counts acc c)
    have hstep := stepCol_value grid height width r counts (fun _ => 1) 1 acc c
    simp only [one_mul] at hrest hstep
    have hgains : 0 ≤ (cs.map (gain grid height width r counts (fun _ => 1) 1)).sum :=
      sum_map_nonneg _ _ (fun x _ => gain_all_one_nonneg grid height width r counts hc x)
    unfold visitsFit
    refine ⟨?_, ih _ (stepCol_nonneg grid height width r counts hc acc c hnn) hb⟩
    by_cases hout : c < 0 ∨ c ≥ width
    · exact Or.inl hout
    · right
      apply cellFits_of_bound height width r _ _ acc c (hc c) hnn
      rw [gain_all_one, if_neg hout] at hstep
      omega

theorem rowResult_nonneg (ord : KeyOrder) (grid : Grid) (height width r : Int)
    (active : List (Int × Bool)) (counts : List (Int × Int))
    (hc : ∀ c, 0 ≤ getCount counts c) (S T : Int) (hT : 0 ≤ T) :
    0 ≤ (rowResult Arith.unbounded ord grid height width r active counts S
      T).totalFinishedTimelines := by
  unfold rowResult
  exact (foldl_nonneg grid height width r counts hc _ ⟨[], [], S, T⟩
    ⟨hT, fun p hp => absurd hp (List.not_mem_nil _)⟩).1

theorem weight_bound_row (ord : KeyOrder) (grid : Grid)
    (hrect : Rectangular grid (gridWidth grid)) (r : Int) (n : Nat)
    (hr0 : 0 ≤ r) (hr1 : r < grid.length)
    (active : List (Int × Bool)) (counts : List (Int × Int))
    (hF : Frontier (gridWidth grid) active counts)
    (hpos : ∀ k ∈ mapKeys counts, 0 < getCount counts k) (S T : Int) (hT : 0 ≤ T)
    (hb : T + mapSum (fun _ => 1) counts ≤ 2 ^ n) :
    (rowResult Arith.unbounded ord grid grid.length (gridWidth grid) r active counts S
        T).totalFinishedTimelines
      + mapSum (fun _ => 1) (rowResult Arith.unbounded ord grid grid.length (gridWidth grid) r
          active counts S T).nextTimelineCounts ≤ 2 ^ (n + 1) := by
  have hd := row_doubling ord grid hrect r hr0 hr1 active counts hF S T
  have he := encounterWeight_le grid (gridWidth grid) r active counts hF hpos
  have h2 : (2 : Int) ^ (n + 1) = 2 ^ n + 2 ^ n := by ring
  rw [hd, h2]
  omega

/-- The invariant behind the exponential bound, at row `r` of a run from row `sr`. -/
theorem bound_inv_step (ord : KeyOrder) (grid : Grid)
    (hrect : Rectangular grid (gridWidth grid)) (sr r : Int)
    (hr1 : r + 1 < grid.length)
    (active : List (Int × Bool)) (counts : List (Int × Int)) (S T : Int)
    (h : sr ≤ r ∧ 0 ≤ r ∧ Frontier (gridWidth grid) active counts ∧
      (∀ k ∈ mapKeys counts, 0 < getCount counts k) ∧ 0 ≤ T ∧
      T + mapSum (fun _ => 1) counts ≤ 2 ^ (r - sr).toNat) :
    sr ≤ r + 1 ∧ 0 ≤ r + 1 ∧
    Frontier (gridWidth grid)
      (rowResult Arith.unbounded ord grid grid.length (gridWidth grid) r active counts S
        T).nextCols
      (rowResult Arith.unbounded ord grid grid.length (gridWidth grid) r active counts S
        T).nextTimelineCounts ∧
    (∀ k ∈ mapKeys (rowResult Arith.unbounded ord grid grid.length (gridWidth grid) r active
        counts S T).nextTimelineCounts,
      0 < getCount (rowResult Arith.unbounded ord grid grid.length (gridWidth grid) r active
        counts S T).nextTimelineCounts k) ∧
    0 ≤ (rowResult Arith.unbounded ord grid grid.length (gridWidth grid) r active counts S
        T).totalFinishedTimelines ∧
    (rowResult Arith.unbounded ord grid grid.length (gridWidth grid) r active counts S
        T).totalFinishedTimelines
      + mapSum (fun _ => 1) (rowResult Arith.unbounded ord grid grid.length (gridWidth grid) r
          active counts S T).nextTimelineCounts ≤ 2 ^ (r + 1 - sr).toNat := by
  obtain ⟨h1, h2, hF, hpos, hT, hb⟩ := h
  have hexp : (r + 1 - sr).toNat = (r - sr).toNat + 1 := by omega
  refine ⟨by omega, by omega, rowResult_frontier _ _ _ _ _ _ _ _ _ _,
    rowResult_pos ord grid hrect r h2 hr1 active counts hF hpos S T,
    rowResult_nonneg ord grid _ _ r active counts (getCount_nonneg_of_pos counts hpos) S T hT,
    ?_⟩
  rw [hexp]
  exact weight_bound_row ord grid hrect r _ h2 (by omega) active counts hF hpos S T hT hb

theorem bound_inv_start (width sr sc : Int) (hr0 : 0 ≤ sr) (hc0 : 0 ≤ sc) (hc1 : sc < width) :
    sr ≤ sr ∧ 0 ≤ sr ∧ Frontier width [(sc, true)] [(sc, 1)] ∧
      (∀ k ∈ mapKeys [(sc, (1 : Int))], 0 < getCount [(sc, 1)] k) ∧ (0 : Int) ≤ 0 ∧
      0 + mapSum (fun _ => 1) [(sc, 1)] ≤ 2 ^ (sr - sr).toNat := by
  refine ⟨le_refl _, hr0, frontier_start _ sc hc0 hc1, ?_, le_refl _, ?_⟩
  · intro k hk
    simp only [mapKeys_cons, mapKeys_nil, List.mem_singleton] at hk
    subst hk
    simp [getCount, mapGet?]
  · simp

theorem two_pow_le_max (n : Nat) (h : n ≤ 62) : (2 : Int) ^ n ≤ 9223372036854775807 := by
  have h1 : (2 : Int) ^ n ≤ 2 ^ 62 := pow_le_pow_right₀ (by norm_num) h
  have h2 : (2 : Int) ^ 62 = 4611686018427387904 := by norm_num
  omega

theorem sweepFits_of_inv (ord : KeyOrder) (grid : Grid)
    (hrect : Rectangular grid (gridWidth grid)) (sr : Int)
    (hsmall : (grid.length : Int) - sr ≤ 62) (fuel : Nat) :
    ∀ (r : Int) (active : List (Int × Bool)) (counts : List (Int × Int)) (S T : Int),
    (sr ≤ r ∧ 0 ≤ r ∧ Frontier (gridWidth grid) active counts ∧
      (∀ k ∈ mapKeys counts, 0 < getCount counts k) ∧ 0 ≤ T ∧
      T + mapSum (fun _ => 1) counts ≤ 2 ^ (r - sr).toNat) →
    sweepFits ord grid grid.length (gridWidth grid) fuel r active counts S T := by
  induction fuel with
  | zero => intro _ _ _ _ _ _; trivial
  | succ fuel ih =>
    intro r active counts S T hinv
    obtain ⟨h1, h2, hF, hpos, hT, hb⟩ := hinv
    unfold sweepFits
    intro hr
    constructor
    · apply visitsFit_of_bound grid _ _ r counts (getCount_nonneg_of_pos counts hpos) _ _
        ⟨hT, fun p hp => absurd hp (List.not_mem_nil _)⟩
      have hw := weight_bound_row ord grid hrect r _ h2 hr active counts hF hpos S T hT hb
      unfold rowResult at hw
      have := two_pow_le_max ((r - sr).toNat + 1) (by omega)
      omega
    · intro hne
      have hr2 := rowResult_nonempty _ _ _ _ _ _ _ _ _ _ hne
      exact ih (r + 1) _ _ _ _
        (bound_inv_step ord grid hrect sr r hr2 active counts S T ⟨h1, h2, hF, hpos, hT, hb⟩)

theorem solveFrontiers_weight_bound (ord : KeyOrder) (grid : Grid) (sr sc : Int)
    (hne : grid ≠ []) (hrect : Rectangular grid (gridWidth grid))
    (hr0 : 0 ≤ sr) (hc0 : 0 ≤ sc) (hc1 : sc < gridWidth grid) :
    ∀ frontiers, solveFrontiers Arith.unbounded ord grid sr sc = Except.ok frontiers →
      ∀ t ∈ frontiers, ∀ k ∈ mapKeys t.2.2,
        0 < getCount t.2.2 k ∧ getCount t.2.2 k ≤ 2 ^ (t.1 - sr).toNat := by
  intro frontiers hfr t ht k hk
  rw [solveFrontiers_eq Arith.unbounded ord grid sr sc hne] at hfr
  have hinv := sweepFrontiers_inv Arith.unbounded ord grid grid.length (gridWidth grid)
    (fun r active counts _ T => sr ≤ r ∧ 0 ≤ r ∧ Frontier (gridWidth grid) active counts ∧
      (∀ k ∈ mapKeys counts, 0 < getCount counts k) ∧ 0 ≤ T ∧
      T + mapSum (fun _ => 1) counts ≤ 2 ^ (r - sr).toNat)
    (fun r active counts S T hr2 hP => bound_inv_step ord grid hrect sr r hr2 active counts S T hP)
    _ sr [(sc, true)] [(sc, 1)] 0 0 (bound_inv_start _ sr sc hr0 hc0 hc1) frontiers hfr
  obtain ⟨_, _, S1, T1, _, _, hF, hpos, hT, hb⟩ := hinv.2 t ht
  refine ⟨hpos k hk, ?_⟩
  have hsum := sum_map_single_le (mapKeys t.2.2) (fun c => getCount t.2.2 c)
    (fun c _ => getCount_nonneg_of_pos t.2.2 hpos c) k hk
  rw [← weightSum_eq t.2.2 (hF.1 ▸ hF.2.1)] at hsum
  simp only at hsum
  omega

/-- The overflow check is not vacuous: in row 0 of `^.^`, two weights `2^62`
that merge in column 1 give `2^63`, which `visitsFit` rejects and which the
`int64` run wraps to `-2^63`. -/
theorem visitsFit_detects_overflow :
    ¬ visitsFit edgeGrid 2 3 0 [(0, 4611686018427387904), (2, 4611686018427387904)] [0, 2]
        ⟨[], [], 0, 0⟩ ∧
    processRow Arith.int64 KeyOrder.stored edgeGrid 2 3 0 [(0, true), (2, true)]
        [(0, 4611686018427387904), (2, 4611686018427387904)] 0 0
      = Except.ok ⟨[(1, true)], [(1, -9223372036854775808)], 2, -9223372036854775808⟩ := by
  decide

/-! ## Properties stated by the specification -/

/-- C1: for every non-empty rectangular grid and every in-bounds start, the
finished-timeline total that `solve` computes with unbounded weights equals the
number of beams `paths startRow startCol` of the brute-force expansion, where
`paths r c` is 1 outside the grid, `paths (r+1) (c-1) + paths (r+1) (c+1)` on a
`^` cell and `paths (r+1) c` on any other cell. -/
theorem solve_total_eq_bruteforce (ord : KeyOrder) (grid : Grid) (startRow startCol : Int)
    (hne : grid ≠ []) (hrect : Rectangular grid (gridWidth grid))
    (hr0 : 0 ≤ startRow) (hr1 : startRow < grid.length)
    (hc0 : 0 ≤ startCol) (hc1 : startCol < gridWidth grid) :
    (solveTotals Arith.unbounded ord grid startRow startCol).map Prod.snd
        = Except.ok (paths grid startRow startCol : Int)
      ∧ (∀ r c : Int, r ≥ grid.length ∨ c < 0 ∨ c ≥ gridWidth grid → paths grid r c = 1)
      ∧ (∀ r c : Int, r < grid.length → 0 ≤ c → c < gridWidth grid →
          paths grid r c
            = if cellAt grid r c = Except.ok '^' then
                paths grid (r + 1) (c - 1) + paths grid (r + 1) (c + 1)
              else paths grid (r + 1) c) :=
  ⟨solveTotals_paths ord grid startRow startCol hne hrect hr0 hr1 hc0 hc1,
    fun r c h => paths_outside grid r c h,
    fun r c h1 h2 h3 => paths_inside grid r c h1 h2 h3⟩

/-- Witness of C1 on the example grid, start `(0, 2)`: the total is 2. -/
theorem solve_total_eq_bruteforce_witness :
    (solveTotals Arith.unbounded KeyOrder.reversed exampleGrid 0 2).map Prod.snd
      = Except.ok ((2 : Nat) : Int) :=
  (solve_total_eq_bruteforce KeyOrder.reversed exampleGrid 0 2 exampleGrid_ne exampleGrid_rect
    (by decide) (by decide) (by decide) (by decide)).1.trans (by decide)

/-- C2: for every non-empty rectangular grid and in-bounds start, the split
count of `solve` is the number of distinct splitter cells reached by at least
one beam path from the start; each such cell counts once, whatever the number
of timelines through it, the arithmetic and the iteration order. -/
theorem solve_splits_eq_reached_splitters (a : Arith) (ord : KeyOrder) (grid : Grid)
    (startRow startCol : Int)
    (hne : grid ≠ []) (hrect : Rectangular grid (gridWidth grid))
    (hr0 : 0 ≤ startRow) (hr1 : startRow < grid.length)
    (hc0 : 0 ≤ startCol) (hc1 : startCol < gridWidth grid) :
    (solveTotals a ord grid startRow startCol).map Prod.fst
      = Except.ok ((reachedSplitters grid startRow startCol).ncard : Int) :=
  solveTotals_splits a ord grid startRow startCol hne hrect hr0 hr1 hc0 hc1

/-- Witness of C2 on the example grid, start `(0, 2)`. -/
theorem solve_splits_eq_reached_splitters_witness :
    (solveTotals Arith.int64 KeyOrder.stored exampleGrid 0 2).map Prod.fst
      = Except.ok ((reachedSplitters exampleGrid 0 2).ncard : Int) :=
  solve_splits_eq_reached_splitters Arith.int64 KeyOrder.stored exampleGrid 0 2 exampleGrid_ne
    exampleGrid_rect (by decide) (by decide) (by decide) (by decide)

/-- C3: for every non-empty rectangular grid and in-bounds start, with
unbounded weights, the finished-timeline total at the end of `solve` is 1 plus
the sum, over every splitter-cell encounter (each active column standing on a
`^` cell in each processed row), of the weight the column carries there. -/
theorem solve_total_eq_one_add_encounters (ord : KeyOrder) (grid : Grid)
    (startRow startCol : Int)
    (hne : grid ≠ []) (hrect : Rectangular grid (gridWidth grid))
    (hr0 : 0 ≤ startRow) (hr1 : startRow < grid.length)
    (hc0 : 0 ≤ startCol) (hc1 : startCol < gridWidth grid) :
    ∃ frontiers,
      solveFrontiers Arith.unbounded ord grid startRow startCol = Except.ok frontiers ∧
      (solveTotals Arith.unbounded ord grid startRow startCol).map Prod.snd
        = Except.ok (1 + encounterTotal grid (gridWidth grid) frontiers) :=
  solveTotals_encounters ord grid startRow startCol hne hrect hr0 hr1 hc0 hc1

/-- Witness of C3 on the example grid, start `(0, 2)`. -/
theorem solve_total_eq_one_add_encounters_witness :
    ∃ frontiers,
      solveFrontiers Arith.unbounded KeyOrder.stored exampleGrid 0 2 = Except.ok frontiers ∧
      (solveTotals Arith.unbounded KeyOrder.stored exampleGrid 0 2).map Prod.snd
        = Except.ok (1 + encounterTotal exampleGrid (gridWidth exampleGrid) frontiers) :=
  solve_total_eq_one_add_encounters KeyOrder.stored exampleGrid 0 2 exampleGrid_ne
    exampleGrid_rect (by decide) (by decide) (by decide) (by decide)

/-- C4: for every non-empty rectangular grid and in-bounds start such that no
cell in the start row or below is a splitter, `solve` ends with
`splits = 0` and `totalFinishedTimelines = 1`. -/
theorem solve_no_splitter (a : Arith) (ord : KeyOrder) (grid : Grid) (startRow startCol : Int)
    (hne : grid ≠ []) (hrect : Rectangular grid (gridWidth grid))
    (hr0 : 0 ≤ startRow) (hr1 : startRow < grid.length)
    (hc0 : 0 ≤ startCol) (hc1 : startCol < gridWidth grid)
    (hno : ∀ r c : Int, startRow ≤ r → cellAt grid r c ≠ Except.ok '^') :
    solveTotals a ord grid startRow startCol = Except.ok (0, 1) := by
  rw [solveTotals_ok a ord grid startRow startCol hne hrect hr0 hr1 hc0 hc1,
    reachedSplitters_no_splitter grid startRow startCol hr1 hc0 hc1 hno,
    paths_no_splitter grid _ startRow startCol (le_refl _) hno]
  simp [norm_one]

/-- Witness of C4 on the example grid, start `(3, 1)` below the only splitter. -/
theorem solve_no_splitter_witness :
    solveTotals Arith.int64 KeyOrder.stored exampleGrid 3 1 = Except.ok (0, 1) :=
  solve_no_splitter Arith.int64 KeyOrder.stored exampleGrid 3 1 exampleGrid_ne exampleGrid_rect
    (by decide) (by decide) (by decide) (by decide)
    (fun r c h hs => by have := ((exampleGrid_splitter r c).mp hs).1; omega)

/-- C5: for every non-empty rectangular grid whose only splitter cell lies in
the start column at a row `splitRow ≥ startRow`, `solve` ends with `splits = 1`
and `totalFinishedTimelines = 2`. -/
theorem solve_one_splitter (a : Arith) (ord : KeyOrder) (grid : Grid)
    (startRow startCol splitRow : Int)
    (hne : grid ≠ []) (hrect : Rectangular grid (gridWidth grid))
    (hr0 : 0 ≤ startRow) (hr1 : startRow < grid.length)
    (hc0 : 0 ≤ startCol) (hc1 : startCol < gridWidth grid)
    (hs0 : startRow ≤ splitRow)
    (hone : ∀ r c : Int, cellAt grid r c = Except.ok '^' ↔ (r = splitRow ∧ c = startCol)) :
    solveTotals a ord grid startRow startCol = Except.ok (1, 2) := by
  have hs1 : splitRow < grid.length :=
    (cellAt_bounds grid _ hrect splitRow startCol _ ((hone _ _).mpr ⟨rfl, rfl⟩)).2.1
  rw [solveTotals_ok a ord grid startRow startCol hne hrect hr0 hr1 hc0 hc1,
    reachedSplitters_one grid startRow startCol splitRow hs0 hs1 hone,
    paths_one_splitter grid startCol splitRow hc0 hc1 hs1 hone (splitRow - startRow).toNat
      startRow (by omega)]
  simp [norm_two]

/-- Witness of C5: rows `..S..`, `.....`, `..^..`, `.....` with start `(0, 2)`
give `splits = 1` and `totalFinishedTimelines = 2`. -/
theorem solve_one_splitter_witness :
    solveTotals Arith.int64 KeyOrder.stored exampleGrid 0 2 = Except.ok (1, 2) :=
  solve_one_splitter Arith.int64 KeyOrder.stored exampleGrid 0 2 2 exampleGrid_ne
    exampleGrid_rect (by decide) (by decide) (by decide) (by decide) (by decide)
    exampleGrid_splitter

/-- C6 (merge semantics of one row step): in a row `r` that is not the last,
on a frontier with keys in `[0, width)`, the next frontier holds at each column
`k` of the grid the sum of the weight of `k` if `k` is active on a cell that is
no splitter, of the weight of `k - 1` if `k - 1` is active on a splitter and of
the weight of `k + 1` if `k + 1` is active on a splitter (`incoming`, the sum
being taken in the arithmetic of the run: exact for unbounded integers, wrapped
to `int64` otherwise); `k` is absent when no term contributes; and `splits`
grows by the number of active columns standing on a splitter. -/
theorem row_merge_semantics (a : Arith) (ord : KeyOrder) (grid : Grid) (r : Int)
    (activeCols : List (Int × Bool)) (timelineCounts : List (Int × Int)) (splits total : Int)
    (hrect : Rectangular grid (gridWidth grid)) (hr0 : 0 ≤ r) (hr1 : r + 1 < grid.length)
    (hF : Frontier (gridWidth grid) activeCols timelineCounts) :
    ∃ acc, processRow a ord grid grid.length (gridWidth grid) r activeCols timelineCounts
        splits total = Except.ok acc ∧
      (∀ k : Int, 0 ≤ k → k < gridWidth grid →
        mapGet? acc.nextTimelineCounts k
          = if fedBy grid r activeCols k then
              some (a.norm (incoming grid r activeCols timelineCounts k))
            else none) ∧
      (∀ k : Int, 0 ≤ k → k < gridWidth grid →
        (k ∈ mapKeys acc.nextCols ↔ fedBy grid r activeCols k)) ∧
      acc.splits = splits + (encounters grid (gridWidth grid) r activeCols).length := by
  refine ⟨_, processRow_eq a ord grid _ _ r hrect hr0 (by omega) _ _ _ _, ?_, ?_, ?_⟩
  · intro k hk0 hk1
    exact rowResult_merge a ord grid hrect r k hr0 hr1 hk0 hk1 activeCols timelineCounts hF _ _
  · intro k hk0 hk1
    rw [rowResult_mem]
    exact feeds_iff_fedBy grid hrect r k hr0 hr1 hk0 hk1 activeCols timelineCounts hF
  · rw [rowResult_splits, encounters_length grid hrect r hr0 (by omega)]

/-- Witness of C6: in row 0 of `^.^` the weights 3 and 5 merge into weight 8 at
column 1, and the two splitters count once each. -/
theorem row_merge_semantics_witness :
    ∃ acc, processRow Arith.int64 KeyOrder.stored edgeGrid 2 3 0
        [(0, true), (2, true)] [(0, 3), (2, 5)] 0 0 = Except.ok acc ∧
      mapGet? acc.nextTimelineCounts 1 = some 8 ∧ acc.splits = 2 := by
  obtain ⟨acc, h1, h2, _, h4⟩ := row_merge_semantics Arith.int64 KeyOrder.stored edgeGrid 0
    [(0, true), (2, true)] [(0, 3), (2, 5)] 0 0 (by decide) (by decide) (by decide) (by decide)
  exact ⟨acc, h1, (h2 1 (by decide) (by decide)).trans (by decide), h4.trans (by decide)⟩

/-- C7 (boundary exit): in a row `r` that is not the last, the total grows by
exactly `sideExits`: for every active column `c` standing on a splitter, its
weight once if `c - 1 < 0` and once if `c + 1 ≥ width`, and by nothing else;
and no key outside `[0, width)` appears in the next frontier. -/
theorem row_side_exits (a : Arith) (ord : KeyOrder) (grid : Grid) (r : Int)
    (activeCols : List (Int × Bool)) (timelineCounts : List (Int × Int)) (splits total : Int)
    (hrect : Rectangular grid (gridWidth grid)) (hr0 : 0 ≤ r) (hr1 : r + 1 < grid.length)
    (hT : a.norm total = total) :
    ∃ acc, processRow a ord grid grid.length (gridWidth grid) r activeCols timelineCounts
        splits total = Except.ok acc ∧
      acc.totalFinishedTimelines
        = a.norm (total + sideExits grid (gridWidth grid) r activeCols timelineCounts) ∧
      (∀ k ∈ mapKeys acc.nextCols, 0 ≤ k ∧ k < gridWidth grid) ∧
      (∀ k ∈ mapKeys acc.nextTimelineCounts, 0 ≤ k ∧ k < gridWidth grid) := by
  refine ⟨_, processRow_eq a ord grid _ _ r hrect hr0 (by omega) _ _ _ _, ?_, ?_, ?_⟩
  · exact rowResult_side a ord grid hrect r hr0 hr1 activeCols timelineCounts splits total hT
  · exact (rowResult_frontier a ord grid _ _ r activeCols timelineCounts splits total).2.2
  · rw [(rowResult_frontier a ord grid _ _ r activeCols timelineCounts splits total).1]
    exact (rowResult_frontier a ord grid _ _ r activeCols timelineCounts splits total).2.2

/-- Witness of C7: in row 0 of `^.^` the left branch of column 0 (weight 3) and
the right branch of column 2 (weight 5) leave the grid: the total grows by 8. -/
theorem row_side_exits_witness :
    ∃ acc, processRow Arith.int64 KeyOrder.stored edgeGrid 2 3 0
        [(0, true), (2, true)] [(0, 3), (2, 5)] 0 0 = Except.ok acc ∧
      acc.totalFinishedTimelines = 8 ∧ mapKeys acc.nextCols = [1] := by
  obtain ⟨acc, h1, h2, _, _⟩ := row_side_exits Arith.int64 KeyOrder.stored edgeGrid 0
    [(0, true), (2, true)] [(0, 3), (2, 5)] 0 0 (by decide) (by decide) (by decide) (by decide)
  refine ⟨acc, h1, h2.trans (by decide), ?_⟩
  have h3 : Except.ok acc = Except.ok (⟨[(1, true)], [(1, 8)], 2, 8⟩ : RowAcc) :=
    h1.symm.trans (by decide)
  injection h3 with h3
  rw [h3]; rfl

/-- C8 (bottom-row termination): in the last row `r = height - 1` the total
grows by `bottomExits`: for every active column of the grid its weight, twice
if its cell is a splitter, whatever the column; `splits` grows by the number of
active columns standing on a splitter; the frontier produced is empty and the
outer loop ends with these counters. -/
theorem last_row_step (a : Arith) (ord : KeyOrder) (grid : Grid) (r : Int)
    (activeCols : List (Int × Bool)) (timelineCounts : List (Int × Int)) (splits total : Int)
    (hrect : Rectangular grid (gridWidth grid)) (hr0 : 0 ≤ r) (hr1 : r + 1 = grid.length)
    (hT : a.norm total = total) :
    ∃ acc, processRow a ord grid grid.length (gridWidth grid) r activeCols timelineCounts
        splits total = Except.ok acc ∧
      acc.totalFinishedTimelines
        = a.norm (total + bottomExits grid (gridWidth grid) r activeCols timelineCounts) ∧
      acc.splits = splits + (encounters grid (gridWidth grid) r activeCols).length ∧
      acc.nextCols = [] ∧ acc.nextTimelineCounts = [] ∧
      ∀ fuel : Nat, sweep a ord grid grid.length (gridWidth grid) (fuel + 1) r activeCols
        timelineCounts splits total = Except.ok (acc.splits, acc.totalFinishedTimelines) := by
  have hemp := rowResult_last_empty a ord grid grid.length (gridWidth grid) r
    (by omega) activeCols timelineCounts splits total
  refine ⟨_, processRow_eq a ord grid _ _ r hrect hr0 (by omega) _ _ _ _, ?_, ?_, hemp.1,
    hemp.2, ?_⟩
  · exact rowResult_bottom a ord grid hrect r hr0 hr1 activeCols timelineCounts splits total hT
  · rw [rowResult_splits, encounters_length grid hrect r hr0 (by omega)]
  · intro fuel
    rw [sweep_succ a ord grid _ r hrect hr0 (by omega), if_pos (by rw [hemp.1]; rfl)]

/-- Witness of C8: in the last row `^....` with weights 1, 2, 1 at columns 0, 2
and 4 the total grows by `2 * 1 + 2 + 1 = 5` and the frontier becomes empty. -/
theorem last_row_step_witness :
    ∃ acc, processRow Arith.int64 KeyOrder.stored cornerGrid 3 5 2
        [(0, true), (2, true), (4, true)] [(0, 1), (2, 2), (4, 1)] 3 0 = Except.ok acc ∧
      acc.totalFinishedTimelines = 5 ∧ acc.splits = 4 ∧ acc.nextCols = [] := by
  obtain ⟨acc, h1, h2, h3, h4, _, _⟩ := last_row_step Arith.int64 KeyOrder.stored cornerGrid 2
    [(0, true), (2, true), (4, true)] [(0, 1), (2, 2), (4, 1)] 3 0
    (by decide) (by decide) (by decide) (by decide)
  exact ⟨acc, h1, h2.trans (by decide), h3.trans (by decide), h4⟩

/-! ## Return value and output of `solve` -/

theorem solve_eq (a : Arith) (ord : KeyOrder) (grid : Grid) (sr sc : Int) (out : List String)
    (hne : grid ≠ []) :
    solve a ord grid sr sc out
      = (solveTotals a ord grid sr sc).map
          (fun p => (p.1, out ++ [splitsLine p.1, timelinesLine p.2])) := by
  have hlen : ¬ ((grid.length : Int) = 0) := by
    cases grid with
    | nil => exact absurd rfl hne
    | cons row0 rest => simp only [List.length_cons]; omega
  unfold solve
  simp only [if_neg hlen]
  cases solveTotals a ord grid sr sc with
  | error e => rfl
  | ok p => rfl

theorem solve_ok (a : Arith) (ord : KeyOrder) (grid : Grid) (sr sc : Int) (out : List String)
    (hne : grid ≠ []) (hrect : Rectangular grid (gridWidth grid))
    (hr0 : 0 ≤ sr) (hr1 : sr < grid.length) (hc0 : 0 ≤ sc) (hc1 : sc < gridWidth grid) :
    solve a ord grid sr sc out
      = Except.ok (((reachedSplitters grid sr sc).ncard : Int),
          out ++ [splitsLine ((reachedSplitters grid sr sc).ncard : Int),
            timelinesLine (a.norm (paths grid sr sc))]) := by
  rw [solve_eq a ord grid sr sc out hne, solveTotals_ok a ord grid sr sc hne hrect hr0 hr1 hc0 hc1]
  rfl

/-- Counterexample to C9: on `mergingGrid` and on `cornerGrid`, start `(0, 2)`,
`solve` returns the same value 4, while the finished-timeline totals are 6 and
5: the total is no part of the returned value. -/
theorem solve_return_omits_total :
    (solve Arith.int64 KeyOrder.stored mergingGrid 0 2 []).map Prod.fst = Except.ok 4 ∧
    (solve Arith.int64 KeyOrder.stored cornerGrid 0 2 []).map Prod.fst = Except.ok 4 ∧
    (solveTotals Arith.int64 KeyOrder.stored mergingGrid 0 2).map Prod.snd = Except.ok 6 ∧
    (solveTotals Arith.int64 KeyOrder.stored cornerGrid 0 2).map Prod.snd = Except.ok 5 := by
  decide

/-- C9 (amended): for a non-empty rectangular grid and an in-bounds start,
`solve` returns the split count alone; the finished-timeline total is written
to standard output, in the line after the split count. -/
theorem solve_returns_split_count (a : Arith) (ord : KeyOrder) (grid : Grid)
    (startRow startCol : Int) (out : List String)
    (hne : grid ≠ []) (hrect : Rectangular grid (gridWidth grid))
    (hr0 : 0 ≤ startRow) (hr1 : startRow < grid.length)
    (hc0 : 0 ≤ startCol) (hc1 : startCol < gridWidth grid) :
    ∃ splits total : Int,
      solveTotals a ord grid startRow startCol = Except.ok (splits, total) ∧
      (solve a ord grid startRow startCol out).map Prod.fst = Except.ok splits ∧
      (solve a ord grid startRow startCol out).map Prod.snd
        = Except.ok (out ++ [splitsLine splits, timelinesLine total]) := by
  refine ⟨_, _, solveTotals_ok a ord grid startRow startCol hne hrect hr0 hr1 hc0 hc1, ?_, ?_⟩
  · rw [solve_ok a ord grid startRow startCol out hne hrect hr0 hr1 hc0 hc1]; rfl
  · rw [solve_ok a ord grid startRow startCol out hne hrect hr0 hr1 hc0 hc1]; rfl

/-- Witness of C9 (amended) on the example grid, start `(0, 2)`. -/
theorem solve_returns_split_count_witness :
    ∃ splits total : Int,
      solveTotals Arith.int64 KeyOrder.stored exampleGrid 0 2 = Except.ok (splits, total) ∧
      (solve Arith.int64 KeyOrder.stored exampleGrid 0 2 []).map Prod.fst = Except.ok splits ∧
      (solve Arith.int64 KeyOrder.stored exampleGrid 0 2 []).map Prod.snd
        = Except.ok ([] ++ [splitsLine splits, timelinesLine total]) :=
  solve_returns_split_count Arith.int64 KeyOrder.stored exampleGrid 0 2 [] exampleGrid_ne
    exampleGrid_rect (by decide) (by decide) (by decide) (by decide)

/-- Counterexample to C10: on the example grid, start `(0, 2)`, `solve` called
with empty standard output leaves two lines on it. -/
theorem solve_writes_output :
    (solve Arith.int64 KeyOrder.stored exampleGrid 0 2 []).map Prod.snd
      = Except.ok ["Total splits: 1\n", "Total timelines: 2\n"] := by
  decide

/-- C10 (amended): `solve` leaves standard output unchanged for a grid without
rows; for a non-empty rectangular grid and an in-bounds start it appends the two
lines `Total splits: ...` and `Total timelines: ...` to the output it finds, and
nothing else. -/
theorem solve_appends_two_lines (a : Arith) (ord : KeyOrder) (grid : Grid)
    (startRow startCol : Int) (out : List String)
    (hne : grid ≠ []) (hrect : Rectangular grid (gridWidth grid))
    (hr0 : 0 ≤ startRow) (hr1 : startRow < grid.length)
    (hc0 : 0 ≤ startCol) (hc1 : startCol < gridWidth grid) :
    solve a ord [] startRow startCol out = Except.ok (0, out) ∧
    ∃ ret : Int, ∃ line1 line2 : String,
      solve a ord grid startRow startCol out = Except.ok (ret, out ++ [line1, line2]) ∧
      line1 = splitsLine ret ∧
      (solveTotals a ord grid startRow startCol).map (fun p => timelinesLine p.2)
        = Except.ok line2 := by
  refine ⟨rfl, _, _, _, solve_ok a ord grid startRow startCol out hne hrect hr0 hr1 hc0 hc1,
    rfl, ?_⟩
  rw [solveTotals_ok a ord grid startRow startCol hne hrect hr0 hr1 hc0 hc1]
  rfl

/-- Witness of C10 (amended) on the example grid, start `(0, 2)`, with one
chunk already on standard output. -/
theorem solve_appends_two_lines_witness :
    ∃ ret : Int, ∃ line1 line2 : String,
      solve Arith.int64 KeyOrder.stored exampleGrid 0 2 ["before\n"]
        = Except.ok (ret, ["before\n"] ++ [line1, line2]) :=
  let ⟨ret, line1, line2, h, _, _⟩ :=
    (solve_appends_two_lines Arith.int64 KeyOrder.stored exampleGrid 0 2 ["before\n"]
      exampleGrid_ne exampleGrid_rect (by decide) (by decide) (by decide) (by decide)).2
  ⟨ret, line1, line2, h⟩

/-! ## Properties of the outer loop -/

theorem solveFrontiers_bounds (a : Arith) (ord : KeyOrder) (grid : Grid) (sr sc : Int)
    (hne : grid ≠ []) (hc0 : 0 ≤ sc) (hc1 : sc < gridWidth grid) :
    ∀ frontiers, solveFrontiers a ord grid sr sc = Except.ok frontiers →
      frontiers.length ≤ ((grid.length : Int) - sr).toNat ∧
      ∀ t ∈ frontiers, Frontier (gridWidth grid) t.2.1 t.2.2 := by
  intro frontiers hfr
  rw [solveFrontiers_eq a ord grid sr sc hne] at hfr
  have hinv := sweepFrontiers_inv a ord grid grid.length (gridWidth grid)
    (fun _ active counts _ _ => Frontier (gridWidth grid) active counts)
    (fun r active counts S T _ _ => rowResult_frontier _ _ _ _ _ _ _ _ _ _)
    _ sr [(sc, true)] [(sc, 1)] 0 0 (frontier_start _ sc hc0 hc1) frontiers hfr
  refine ⟨hinv.1, ?_⟩
  intro t ht
  obtain ⟨_, _, _, _, h⟩ := hinv.2 t ht
  exact h

/-- C13 (frontier invariant): for every non-empty rectangular grid and
in-bounds start, at the beginning of every loop iteration of `solve`
`activeCols` and `timelineCounts` have the same keys, every key lies in
`[0, width)` and, with unbounded integers, every weight is positive; hence the
test `c < 0 || c >= width` of the inner loop is never true. -/
theorem frontier_invariant (a : Arith) (ord : KeyOrder) (grid : Grid)
    (startRow startCol : Int)
    (hne : grid ≠ []) (hrect : Rectangular grid (gridWidth grid))
    (hr0 : 0 ≤ startRow) (hr1 : startRow < grid.length)
    (hc0 : 0 ≤ startCol) (hc1 : startCol < gridWidth grid) :
    ∃ frontiers, solveFrontiers a ord grid startRow startCol = Except.ok frontiers ∧
      frontiers ≠ [] ∧
      ∀ t ∈ frontiers,
        mapKeys t.2.2 = mapKeys t.2.1 ∧
        (∀ k ∈ mapKeys t.2.1, 0 ≤ k ∧ k < gridWidth grid) ∧
        (a = Arith.unbounded → ∀ k ∈ mapKeys t.2.2, 0 < getCount t.2.2 k) ∧
        (∀ c ∈ ord.enum t.1 (mapKeys t.2.1), ¬ (c < 0 ∨ c ≥ gridWidth grid)) := by
  obtain ⟨frontiers, hfr⟩ := solveFrontiers_ok a ord grid startRow startCol hne hrect hr0
  refine ⟨frontiers, hfr, ?_, ?_⟩
  · intro hnil
    subst hnil
    have hfuel : ((grid.length : Int) - startRow).toNat
        = (((grid.length : Int) - startRow).toNat - 1) + 1 := by omega
    rw [solveFrontiers_eq a ord grid startRow startCol hne, hfuel,
      sweepFrontiers_succ a ord grid _ startRow hrect hr0 hr1] at hfr
    split_ifs at hfr
    · simp at hfr
    · cases hrest : sweepFrontiers a ord grid grid.length (gridWidth grid)
          (((grid.length : Int) - startRow).toNat - 1) (startRow + 1)
          (rowResult a ord grid grid.length (gridWidth grid) startRow [(startCol, true)]
            [(startCol, 1)] 0 0).nextCols
          (rowResult a ord grid grid.length (gridWidth grid) startRow [(startCol, true)]
            [(startCol, 1)] 0 0).nextTimelineCounts
          (rowResult a ord grid grid.length (gridWidth grid) startRow [(startCol, true)]
            [(startCol, 1)] 0 0).splits
          (rowResult a ord grid grid.length (gridWidth grid) startRow [(startCol, true)]
            [(startCol, 1)] 0 0).totalFinishedTimelines with
      | error e => rw [hrest] at hfr; simp [Except.map] at hfr
      | ok rest => rw [hrest] at hfr; simp [Except.map] at hfr
  · intro t ht
    obtain ⟨_, _, hF, hpos⟩ :=
      solveFrontiers_inv a ord grid startRow startCol hne hrect hr0 hc0 hc1 frontiers hfr t ht
    refine ⟨hF.1, hF.2.2, hpos, ?_⟩
    intro c hc
    have := hF.2.2 c ((ord.perm t.1 _).mem_iff.mp hc)
    omega

/-- Witness of C13 on the example grid, start `(0, 2)`, with unbounded integers. -/
theorem frontier_invariant_witness :
    ∃ frontiers,
      solveFrontiers Arith.unbounded KeyOrder.stored exampleGrid 0 2 = Except.ok frontiers ∧
      frontiers ≠ [] ∧
      ∀ t ∈ frontiers,
        mapKeys t.2.2 = mapKeys t.2.1 ∧
        (∀ k ∈ mapKeys t.2.1, 0 ≤ k ∧ k < gridWidth exampleGrid) ∧
        (Arith.unbounded = Arith.unbounded → ∀ k ∈ mapKeys t.2.2, 0 < getCount t.2.2 k) ∧
        (∀ c ∈ KeyOrder.stored.enum t.1 (mapKeys t.2.1),
          ¬ (c < 0 ∨ c ≥ gridWidth exampleGrid)) :=
  frontier_invariant Arith.unbounded KeyOrder.stored exampleGrid 0 2 exampleGrid_ne
    exampleGrid_rect (by decide) (by decide) (by decide) (by decide)

/-- C16: the early exit on an empty frontier does not change the result: for
every grid and start, `solve` ends with the same `splits` and
`totalFinishedTimelines` as the sweep over all rows `startRow .. height - 1`
without the statement `if len(activeCols) == 0 { break }`. -/
theorem early_exit_is_optimization (a : Arith) (ord : KeyOrder) (grid : Grid)
    (startRow startCol : Int) :
    solveTotals a ord grid startRow startCol
      = solveTotalsNoBreak a ord grid startRow startCol := by
  unfold solveTotals solveTotalsNoBreak
  cases index grid 0 with
  | error e => rfl
  | ok row0 => exact sweep_eq_sweepNoBreak a ord grid _ _ _ startRow _ _ 0 0 (le_refl _)

/-- C17: on a non-empty rectangular grid with `0 ≤ startRow` (so for every
start with `0 ≤ startRow < height`), whatever the start column, every cell read
`grid[r][c]` of `solve` is in bounds and `solve` returns a result; the width
comes from row 0 only, and on the non-rectangular `raggedGrid` the run fails
with an index out of range. -/
theorem solve_index_safe (a : Arith) (ord : KeyOrder) (grid : Grid)
    (startRow startCol : Int) (out : List String)
    (hne : grid ≠ []) (hrect : Rectangular grid (gridWidth grid))
    (hr0 : 0 ≤ startRow) :
    (∃ res, solve a ord grid startRow startCol out = Except.ok res) ∧
    (∃ frontiers, solveFrontiers a ord grid startRow startCol = Except.ok frontiers ∧
      ∀ t ∈ frontiers, ∀ c ∈ mapKeys t.2.1, 0 ≤ c → c < gridWidth grid →
        ∃ ch, cellAt grid t.1 c = Except.ok ch) ∧
    gridWidth raggedGrid = 3 ∧
    solveTotals Arith.int64 KeyOrder.stored raggedGrid 0 1
      = Except.error Fault.indexOutOfRange ∧
    solveTotals Arith.int64 KeyOrder.reversed raggedGrid 0 1
      = Except.error Fault.indexOutOfRange := by
  refine ⟨?_, ?_, by decide, by decide, by decide⟩
  · rw [solve_eq a ord grid startRow startCol out hne, solveTotals_eq a ord grid _ _ hne]
    obtain ⟨res, hres⟩ := sweep_ok a ord grid _ hrect _ startRow [(startCol, true)]
      [(startCol, 1)] 0 0 hr0 (le_refl _)
    exact ⟨_, by rw [hres]; rfl⟩
  · obtain ⟨frontiers, hfr⟩ := solveFrontiers_ok a ord grid startRow startCol hne hrect hr0
    refine ⟨frontiers, hfr, ?_⟩
    intro t ht c _ hc0 hc1
    rw [solveFrontiers_eq a ord grid startRow startCol hne] at hfr
    have hinv := sweepFrontiers_inv a ord grid grid.length (gridWidth grid)
      (fun _ _ _ _ _ => True) (fun _ _ _ _ _ _ _ => trivial)
      _ startRow [(startCol, true)] [(startCol, 1)] 0 0 trivial frontiers hfr
    obtain ⟨h1, h2, _⟩ := hinv.2 t ht
    exact cellAt_ok grid _ hrect t.1 c (by omega) h2 hc0 hc1

/-- Witness of C17 on the example grid with a start column outside the grid. -/
theorem solve_index_safe_witness :
    ∃ res, solve Arith.int64 KeyOrder.stored exampleGrid 1 9 [] = Except.ok res :=
  (solve_index_safe Arith.int64 KeyOrder.stored exampleGrid 1 9 [] exampleGrid_ne
    exampleGrid_rect (by decide)).1

/-- C18: for every grid and in-bounds start, the sweep of `solve` needs at most
`height - startRow` row iterations (that many iterations never run out), the
list of the iterations of a run that returns has at most that length, and in
each of them `activeCols` and `timelineCounts` hold at most `width` entries; on
a rectangular grid the run returns. -/
theorem sweep_terminates_bounded (a : Arith) (ord : KeyOrder) (grid : Grid)
    (startRow startCol : Int)
    (hne : grid ≠ []) (hr0 : 0 ≤ startRow) (hr1 : startRow < grid.length)
    (hc0 : 0 ≤ startCol) (hc1 : startCol < gridWidth grid) :
    solveTotals a ord grid startRow startCol ≠ Except.error Fault.fuelExhausted ∧
    (∀ frontiers, solveFrontiers a ord grid startRow startCol = Except.ok frontiers →
      (frontiers.length : Int) ≤ grid.length - startRow ∧
      ∀ t ∈ frontiers, (t.2.1.length : Int) ≤ gridWidth grid ∧
        (t.2.2.length : Int) ≤ gridWidth grid) ∧
    (Rectangular grid (gridWidth grid) →
      ∃ res frontiers, solveTotals a ord grid startRow startCol = Except.ok res ∧
        solveFrontiers a ord grid startRow startCol = Except.ok frontiers) := by
  refine ⟨?_, ?_, ?_⟩
  · rw [solveTotals_eq a ord grid _ _ hne]
    exact sweep_ne_fuelExhausted a ord grid _ _ _ startRow _ _ 0 0 (le_refl _)
  · intro frontiers hfr
    obtain ⟨hlen, hall⟩ :=
      solveFrontiers_bounds a ord grid startRow startCol hne hc0 hc1 frontiers hfr
    refine ⟨by omega, ?_⟩
    intro t ht
    exact (hall t ht).length_le (gridWidth_nonneg grid)
  · intro hrect
    obtain ⟨res, hres⟩ := sweep_ok a ord grid _ hrect _ startRow [(startCol, true)]
      [(startCol, 1)] 0 0 hr0 (le_refl _)
    obtain ⟨frontiers, hfr⟩ := solveFrontiers_ok a ord grid startRow startCol hne hrect hr0
    exact ⟨res, frontiers, by rw [solveTotals_eq a ord grid _ _ hne]; exact hres, hfr⟩

/-- Witness of C18 on `mergingGrid`, start `(0, 2)`: three iterations with 1, 2
and 3 active columns. -/
theorem sweep_terminates_bounded_witness :
    solveTotals Arith.int64 KeyOrder.stored mergingGrid 0 2
        ≠ Except.error Fault.fuelExhausted ∧
    (solveFrontiers Arith.int64 KeyOrder.stored mergingGrid 0 2).map
        (fun frontiers => frontiers.map (fun t => t.2.1.length)) = Except.ok [1, 2, 3] :=
  ⟨(sweep_terminates_bounded Arith.int64 KeyOrder.stored mergingGrid 0 2 (by decide)
      (by decide) (by decide) (by decide) (by decide)).1, by decide⟩

/-- C20: for a non-empty grid, `startRow < height` (so for every start with
`0 ≤ startRow < height`) and a start column outside `[0, width)`, the first
iteration skips the only frontier entry and
`solve` ends with `splits = 0` and `totalFinishedTimelines = 0` (the initial
timeline is dropped); for a grid without rows `solve` returns 0 before the
sweep. -/
theorem solve_start_column_outside (a : Arith) (ord : KeyOrder) (grid : Grid)
    (startRow startCol : Int) (out : List String)
    (hne : grid ≠ []) (hr1 : startRow < grid.length)
    (hc : startCol < 0 ∨ startCol ≥ gridWidth grid) :
    processRow a ord grid grid.length (gridWidth grid) startRow [(startCol, true)]
        [(startCol, 1)] 0 0 = Except.ok ⟨[], [], 0, 0⟩ ∧
    solveTotals a ord grid startRow startCol = Except.ok (0, 0) ∧
    solve a ord grid startRow startCol out
      = Except.ok (0, out ++ [splitsLine 0, timelinesLine 0]) ∧
    solve a ord [] startRow startCol out = Except.ok (0, out) := by
  have hrow := processRow_outside a ord grid grid.length (gridWidth grid) startRow startCol hc
    [(startCol, 1)] 0 0
  have htot : solveTotals a ord grid startRow startCol = Except.ok (0, 0) := by
    have hfuel : ((grid.length : Int) - startRow).toNat
        = (((grid.length : Int) - startRow).toNat - 1) + 1 := by omega
    rw [solveTotals_eq a ord grid _ _ hne, hfuel]
    unfold sweep
    rw [if_pos hr1]
    simp only [hrow]
    rfl
  refine ⟨hrow, htot, ?_, rfl⟩
  rw [solve_eq a ord grid startRow startCol out hne, htot]
  rfl

/-- Witness of C20 on the example grid with start `(0, 7)`. -/
theorem solve_start_column_outside_witness :
    solveTotals Arith.int64 KeyOrder.stored exampleGrid 0 7 = Except.ok (0, 0) :=
  (solve_start_column_outside Arith.int64 KeyOrder.stored exampleGrid 0 7 [] exampleGrid_ne
    (by decide) (by decide)).2.1

theorem plainGrid_rect : Rectangular plainGrid (gridWidth plainGrid) := by decide

theorem plainGrid_splitter (r c : Int) :
    cellAt plainGrid r c = Except.ok '^' ↔ (r = 2 ∧ c = 2) := by
  constructor
  · intro h
    have hb := cellAt_bounds plainGrid _ plainGrid_rect r c _ h
    have h4 : (plainGrid.length : Int) = 4 := by decide
    have h5 : gridWidth plainGrid = 5 := by decide
    rw [h4, h5] at hb
    obtain ⟨h1, h2, h3, h6⟩ := hb
    interval_cases r <;> interval_cases c <;> first | exact ⟨rfl, rfl⟩ | exact absurd h (by decide)
  · rintro ⟨rfl, rfl⟩; decide

/-- C11: only the splitter symbol matters: two non-empty rectangular grids of
the same height and width with `^` at the same positions give, for the same
in-bounds start, the same `splits` and the same `totalFinishedTimelines`
(whatever the other characters, `S` included, and the iteration orders). -/
theorem solve_depends_on_splitters_only (a : Arith) (ord1 ord2 : KeyOrder) (grid1 grid2 : Grid)
    (startRow startCol : Int)
    (hne : grid1 ≠ []) (hrect1 : Rectangular grid1 (gridWidth grid1))
    (hrect2 : Rectangular grid2 (gridWidth grid2))
    (hheight : grid1.length = grid2.length) (hwidth : gridWidth grid1 = gridWidth grid2)
    (hsplit : ∀ r c : Int, cellAt grid1 r c = Except.ok '^' ↔ cellAt grid2 r c = Except.ok '^')
    (hr0 : 0 ≤ startRow) (hr1 : startRow < grid1.length)
    (hc0 : 0 ≤ startCol) (hc1 : startCol < gridWidth grid1) :
    solveTotals a ord1 grid1 startRow startCol = solveTotals a ord2 grid2 startRow startCol := by
  have hne2 : grid2 ≠ [] := by
    intro h
    rw [h] at hheight
    exact hne (List.length_eq_zero.mp hheight)
  rw [solveTotals_ok a ord1 grid1 startRow startCol hne hrect1 hr0 hr1 hc0 hc1,
    solveTotals_ok a ord2 grid2 startRow startCol hne2 hrect2 hr0 (by rw [← hheight]; exact hr1)
      hc0 (by rw [← hwidth]; exact hc1),
    reachedSplitters_congr grid1 grid2 startRow startCol hheight hwidth hsplit,
    paths_congr grid1 grid2 hheight hwidth hsplit]

/-- Witness of C11: `exampleGrid` and `plainGrid`, start `(0, 2)`. -/
theorem solve_depends_on_splitters_only_witness :
    solveTotals Arith.int64 KeyOrder.stored exampleGrid 0 2
      = solveTotals Arith.int64 KeyOrder.reversed plainGrid 0 2 :=
  solve_depends_on_splitters_only Arith.int64 KeyOrder.stored KeyOrder.reversed exampleGrid
    plainGrid 0 2 exampleGrid_ne exampleGrid_rect plainGrid_rect (by decide) (by decide)
    (fun r c => (exampleGrid_splitter r c).trans (plainGrid_splitter r c).symm)
    (by decide) (by decide) (by decide) (by decide)

/-- C12, with the condition under which it holds: for every sequence of input
lines of which each is shorter than the 64 KiB (`maxScanTokenSize` bytes) that
the scanner of `readGrid` takes, read without a failing read, `readGrid`
returns `startRow = -1` exactly when no line contains `S`; otherwise
`(startRow, startCol)` is an index of the returned grid and the cell there is
`S`; and the returned grid has one row per line, holding the characters of the
line in order. -/
theorem readGrid_spec_short_lines (lines : List String)
    (hfit : ∀ line ∈ lines, line.utf8ByteSize < maxScanTokenSize) :
    ((readGrid lines Reads.complete).2.1 = -1 ↔ ∀ line ∈ lines, 'S' ∉ line.toList) ∧
    ((readGrid lines Reads.complete).2.1 ≠ -1 →
      ∃ row, index (readGrid lines Reads.complete).1 (readGrid lines Reads.complete).2.1
            = Except.ok row ∧
        0 ≤ (readGrid lines Reads.complete).2.1 ∧
        (readGrid lines Reads.complete).2.1 < (readGrid lines Reads.complete).1.length ∧
        0 ≤ (readGrid lines Reads.complete).2.2 ∧
        (readGrid lines Reads.complete).2.2 < row.length ∧
        index row (readGrid lines Reads.complete).2.2 = Except.ok 'S' ∧
        cellAt (readGrid lines Reads.complete).1 (readGrid lines Reads.complete).2.1
          (readGrid lines Reads.complete).2.2 = Except.ok 'S') ∧
    (readGrid lines Reads.complete).1 = lines.map String.toList := by
  have h := readGrid_scanned lines Reads.complete
  rw [scannedLines_complete lines hfit] at h
  exact h

/-- Witness of C12: the lines `..S..` and `.....`, both shorter than 64 KiB;
`readGrid` returns the start `(0, 2)` and the two rows. -/
theorem readGrid_spec_short_lines_witness :
    (∀ line ∈ ["..S..", "....."], line.utf8ByteSize < maxScanTokenSize) ∧
    readGrid ["..S..", "....."] Reads.complete = (["..S..".toList, ".....".toList], 0, 2) ∧
    (readGrid ["..S..", "....."] Reads.complete).1 = ["..S..", "....."].map String.toList :=
  ⟨by decide, by decide, (readGrid_spec_short_lines ["..S..", "....."] (by decide)).2.2⟩

/-- Counterexample to C12 as stated: the single input line `longLine`, 70000
characters `.` and then `S`, is too long for the scanner of `readGrid`, whose
loop ends without a row: `readGrid` returns `startRow = -1` although the line
contains `S`, and an empty grid although there is one input line. -/
theorem readGrid_long_line_dropped :
    'S' ∈ longLine.toList ∧
    (readGrid [longLine] Reads.complete).2.1 = -1 ∧
    (readGrid [longLine] Reads.complete).1 = [] ∧
    [longLine].map String.toList ≠ [] ∧
    ¬ ((readGrid [longLine] Reads.complete).2.1 = -1 ↔ ∀ line ∈ [longLine], 'S' ∉ line.toList) ∧
    (readGrid [longLine] Reads.complete).1 ≠ [longLine].map String.toList := by
  have hS : 'S' ∈ longLine.toList := by
    show 'S' ∈ List.replicate 70000 '.' ++ ['S']
    exact List.mem_append_right _ (List.mem_singleton_self _)
  have hread : readGrid [longLine] Reads.complete = ([], -1, -1) := by
    simp only [readGrid, deliveredLines, readLines, longLine_too_long]
    rfl
  rw [hread]
  refine ⟨hS, rfl, rfl, ?_, ?_, ?_⟩
  · simp
  · intro h
    exact h.mp rfl longLine (List.mem_singleton_self _) hS
  · simp

theorem wrap64_mapSum_wrapMap (m : List (Int × Int)) : ∀ x : Int,
    wrap64 (x + mapSum (fun _ => 1) (wrapMap m)) = wrap64 (x + mapSum (fun _ => 1) m) := by
  induction m with
  | nil => intro x; rfl
  | cons p m ih =>
    intro x
    have hcons : wrapMap (p :: m) = (p.1, wrap64 p.2) :: wrapMap m := rfl
    rw [hcons, mapSum_cons, mapSum_cons]
    simp only [mul_one]
    have h1 : x + (wrap64 p.2 + mapSum (fun _ => 1) (wrapMap m))
        = (x + wrap64 p.2) + mapSum (fun _ => 1) (wrapMap m) := by ring
    have h2 : x + wrap64 p.2 + mapSum (fun _ => 1) m
        = wrap64 p.2 + (x + mapSum (fun _ => 1) m) := by ring
    have h3 : p.2 + (x + mapSum (fun _ => 1) m) = x + (p.2 + mapSum (fun _ => 1) m) := by ring
    rw [h1, ih, h2, wrap64_add_left, h3]

theorem row_doubling_arith (a : Arith) (ord : KeyOrder) (grid : Grid)
    (hrect : Rectangular grid (gridWidth grid)) (r : Int) (hr0 : 0 ≤ r) (hr1 : r < grid.length)
    (active : List (Int × Bool)) (counts : List (Int × Int))
    (hF : Frontier (gridWidth grid) active counts) (S T : Int) (hT : a.norm T = T) :
    a.norm (mapSum (fun _ => 1) (rowResult a ord grid grid.length (gridWidth grid) r active
          counts S T).nextTimelineCounts
        + ((rowResult a ord grid grid.length (gridWidth grid) r active counts S
          T).totalFinishedTimelines - T))
      = a.norm (mapSum (fun _ => 1) counts
          + encounterWeight grid (gridWidth grid) r active counts) := by
  have hd := row_doubling ord grid hrect r hr0 hr1 active counts hF S T
  cases a with
  | unbounded =>
    simp only [norm_unbounded]
    omega
  | int64 =>
    simp only [norm_int64] at hT ⊢
    rw [(rowResult_maps_int64 ord grid _ _ r active counts S T).2,
      rowResult_total Arith.int64 ord grid _ _ r active counts S T hT, norm_int64]
    have e1 : mapSum (fun _ => 1) (wrapMap (rowResult Arith.unbounded ord grid grid.length
          (gridWidth grid) r active counts S T).nextTimelineCounts)
        + (wrap64 (rowResult Arith.unbounded ord grid grid.length (gridWidth grid) r active
          counts S T).totalFinishedTimelines - T)
        = (wrap64 (rowResult Arith.unbounded ord grid grid.length (gridWidth grid) r active
          counts S T).totalFinishedTimelines - T)
          + mapSum (fun _ => 1) (wrapMap (rowResult Arith.unbounded ord grid grid.length
            (gridWidth grid) r active counts S T).nextTimelineCounts) := by ring
    rw [e1, wrap64_mapSum_wrapMap]
    have e2 : wrap64 (rowResult Arith.unbounded ord grid grid.length (gridWidth grid) r active
          counts S T).totalFinishedTimelines - T
          + mapSum (fun _ => 1) (rowResult Arith.unbounded ord grid grid.length
            (gridWidth grid) r active counts S T).nextTimelineCounts
        = wrap64 (rowResult Arith.unbounded ord grid grid.length (gridWidth grid) r active
          counts S T).totalFinishedTimelines
          + (mapSum (fun _ => 1) (rowResult Arith.unbounded ord grid grid.length
            (gridWidth grid) r active counts S T).nextTimelineCounts - T) := by ring
    rw [e2, wrap64_add_left]
    congr 1
    omega

/-- C14 (per-row doubling law): for every row step of `solve` on a frontier
with keys in `[0, width)`, (sum of the weights of the next frontier) +
(increase of `totalFinishedTimelines` in the step) = (sum of the weights of
the current frontier) + (sum of the weights of the active columns standing on
a `^` cell), in the arithmetic of the run: an exact equation for unbounded
integers, an equation modulo `2^64` for `int64`. -/
theorem row_doubling_law (a : Arith) (ord : KeyOrder) (grid : Grid) (r : Int)
    (activeCols : List (Int × Bool)) (timelineCounts : List (Int × Int)) (splits total : Int)
    (hrect : Rectangular grid (gridWidth grid)) (hr0 : 0 ≤ r) (hr1 : r < grid.length)
    (hF : Frontier (gridWidth grid) activeCols timelineCounts)
    (hT : a.norm total = total) :
    ∃ acc, processRow a ord grid grid.length (gridWidth grid) r activeCols timelineCounts
        splits total = Except.ok acc ∧
      a.norm (mapSum (fun _ => 1) acc.nextTimelineCounts + (acc.totalFinishedTimelines - total))
        = a.norm (mapSum (fun _ => 1) timelineCounts
            + encounterWeight grid (gridWidth grid) r activeCols timelineCounts) :=
  ⟨_, processRow_eq a ord grid _ _ r hrect hr0 hr1 _ _ _ _,
    row_doubling_arith a ord grid hrect r hr0 hr1 activeCols timelineCounts hF splits total hT⟩

/-- Witness of C14: in row 0 of `^.^` with weights 3 and 5 on the two
splitters, the next frontier weighs 8 and the total grows by 8: `8 + 8 = 8 + 8`. -/
theorem row_doubling_law_witness :
    ∃ acc, processRow Arith.unbounded KeyOrder.stored edgeGrid 2 3 0
        [(0, true), (2, true)] [(0, 3), (2, 5)] 0 0 = Except.ok acc ∧
      mapSum (fun _ => 1) acc.nextTimelineCounts + (acc.totalFinishedTimelines - 0) = 8 + 8 := by
  obtain ⟨acc, h1, h2⟩ := row_doubling_law Arith.unbounded KeyOrder.stored edgeGrid 0
    [(0, true), (2, true)] [(0, 3), (2, 5)] 0 0 (by decide) (by decide) (by decide) (by decide)
    (by decide)
  exact ⟨acc, h1, h2.trans (by decide)⟩

/-- C15: the iteration order of the active columns is irrelevant: for every
grid and start, two enumeration orders give the same result of `solve`
(return value, output, `splits` and `totalFinishedTimelines`); and a row step
run with either order on the same frontier fails in both cases or yields the
same `splits`, the same `totalFinishedTimelines` and the same next frontier
(same keys, same weights). -/
theorem iteration_order_irrelevant (a : Arith) (ord1 ord2 : KeyOrder) (grid : Grid)
    (startRow startCol : Int) (out : List String) (height width r : Int)
    (activeCols : List (Int × Bool)) (timelineCounts : List (Int × Int)) (splits total : Int)
    (hT : a.norm total = total) :
    solveTotals a ord1 grid startRow startCol = solveTotals a ord2 grid startRow startCol ∧
    solve a ord1 grid startRow startCol out = solve a ord2 grid startRow startCol out ∧
    ((processRow a ord1 grid height width r activeCols timelineCounts splits total
          = Except.error Fault.indexOutOfRange ∧
        processRow a ord2 grid height width r activeCols timelineCounts splits total
          = Except.error Fault.indexOutOfRange) ∨
      ∃ acc1 acc2,
        processRow a ord1 grid height width r activeCols timelineCounts splits total
          = Except.ok acc1 ∧
        processRow a ord2 grid height width r activeCols timelineCounts splits total
          = Except.ok acc2 ∧
        acc1.splits = acc2.splits ∧
        acc1.totalFinishedTimelines = acc2.totalFinishedTimelines ∧
        (∀ k, k ∈ mapKeys acc1.nextCols ↔ k ∈ mapKeys acc2.nextCols) ∧
        (∀ k, mapGet? acc1.nextTimelineCounts k = mapGet? acc2.nextTimelineCounts k)) := by
  refine ⟨solveTotals_order a ord1 ord2 grid startRow startCol, ?_, ?_⟩
  · unfold solve
    rw [solveTotals_order a ord1 ord2 grid startRow startCol]
  · by_cases hread : ∀ c ∈ mapKeys activeCols,
        (c < 0 ∨ c ≥ width) ∨ ∃ ch, cellAt grid r c = Except.ok ch
    · right
      obtain ⟨h1, h2, h3, h4⟩ := rowResult_order a ord1 ord2 grid height width r activeCols
        activeCols timelineCounts timelineCounts (List.Perm.refl _) (fun _ => rfl) splits total hT
      exact ⟨_, _, processRow_readable a ord1 grid height width r _ _ _ _ hread,
        processRow_readable a ord2 grid height width r _ _ _ _ hread, h1, h2,
        fun k => h3.mem_iff, h4⟩
    · left
      exact ⟨processRow_unreadable a ord1 grid height width r _ _ _ _ hread,
        processRow_unreadable a ord2 grid height width r _ _ _ _ hread⟩

/-- Witness of C15: `mergingGrid`, start `(0, 2)`, with the keys taken in the
stored and in the reverse order. -/
theorem iteration_order_irrelevant_witness :
    solveTotals Arith.int64 KeyOrder.stored mergingGrid 0 2
      = solveTotals Arith.int64 KeyOrder.reversed mergingGrid 0 2 :=
  (iteration_order_irrelevant Arith.int64 KeyOrder.stored KeyOrder.reversed mergingGrid 0 2 []
    3 5 1 [(1, true), (3, true)] [(1, 1), (3, 1)] 1 0 (by decide)).1

/-- C19 (exponential bound and overflow freedom): for every non-empty
rectangular grid and in-bounds start, with unbounded integers every frontier
weight at row `r` is at most `2^(r - startRow)` and the final
`totalFinishedTimelines` is at most `2^(height - startRow)`; hence, whenever
`height - startRow ≤ 62`, no `int64` addition or doubling of `solve` overflows
(`solveFits`) and the `int64` run ends with the results of the unbounded run. -/
theorem exponential_bound_no_overflow (ord : KeyOrder) (grid : Grid)
    (startRow startCol : Int)
    (hne : grid ≠ []) (hrect : Rectangular grid (gridWidth grid))
    (hr0 : 0 ≤ startRow) (hr1 : startRow < grid.length)
    (hc0 : 0 ≤ startCol) (hc1 : startCol < gridWidth grid) :
    (∃ frontiers,
      solveFrontiers Arith.unbounded ord grid startRow startCol = Except.ok frontiers ∧
      ∀ t ∈ frontiers, ∀ k ∈ mapKeys t.2.2,
        getCount t.2.2 k ≤ 2 ^ (t.1 - startRow).toNat) ∧
    (∃ splits total,
      solveTotals Arith.unbounded ord grid startRow startCol = Except.ok (splits, total) ∧
      total ≤ 2 ^ ((grid.length : Int) - startRow).toNat) ∧
    ((grid.length : Int) - startRow ≤ 62 →
      solveFits ord grid startRow startCol ∧
      solveTotals Arith.int64 ord grid startRow startCol
        = solveTotals Arith.unbounded ord grid startRow startCol) := by
  have hp := paths_le grid startRow startCol
  have hpz : ((paths grid startRow startCol : Nat) : Int)
      ≤ 2 ^ ((grid.length : Int) - startRow).toNat := by exact_mod_cast hp
  refine ⟨?_, ?_, ?_⟩
  · obtain ⟨frontiers, hfr⟩ :=
      solveFrontiers_ok Arith.unbounded ord grid startRow startCol hne hrect hr0
    exact ⟨frontiers, hfr, fun t ht k hk =>
      (solveFrontiers_weight_bound ord grid startRow startCol hne hrect hr0 hc0 hc1 frontiers
        hfr t ht k hk).2⟩
  · exact ⟨_, _, solveTotals_ok Arith.unbounded ord grid startRow startCol hne hrect hr0 hr1
      hc0 hc1, hpz⟩
  · intro hsmall
    constructor
    · exact sweepFits_of_inv ord grid hrect startRow hsmall _ startRow _ _ 0 0
        (bound_inv_start _ startRow startCol hr0 hc0 hc1)
    · rw [solveTotals_ok Arith.int64 ord grid startRow startCol hne hrect hr0 hr1 hc0 hc1,
        solveTotals_ok Arith.unbounded ord grid startRow startCol hne hrect hr0 hr1 hc0 hc1]
      have hmax := two_pow_le_max ((grid.length : Int) - startRow).toNat (by omega)
      have hw : wrap64 (paths grid startRow startCol : Int) = (paths grid startRow startCol : Int) :=
        wrap64_of_range (by omega) (by omega)
      simp only [norm_int64, norm_unbounded, hw]

/-- Witness of C19 on `mergingGrid`, start `(0, 2)`: height 3, total 6. -/
theorem exponential_bound_no_overflow_witness :
    solveFits KeyOrder.stored mergingGrid 0 2 ∧
    solveTotals Arith.int64 KeyOrder.stored mergingGrid 0 2
      = solveTotals Arith.unbounded KeyOrder.stored mergingGrid 0 2 :=
  (exponential_bound_no_overflow KeyOrder.stored mergingGrid 0 2 (by decide) (by decide)
    (by decide) (by decide) (by decide) (by decide)).2.2 (by decide)

end Day7
